import Mathlib

/-!
# Lebo Board Watcher — verified model of the meeting-analysis core

A shallow embedding, in Lean 4, of the core pipeline of
`scripts/analyze_meeting.py` and `scripts/db.py`:

* a value model of Python's `json` module (`Json`, `json_loads`, `json_dumps`)
  faithful to CPython's strict decoder: the number grammar
  `-?(0|[1-9]\d*)(\.\d+)?([eE][+-]?\d+)?` plus the `NaN` / `Infinity` /
  `-Infinity` constants, rejection of unescaped control characters inside
  strings, `\uXXXX` escapes with surrogate-pair combination, whitespace
  `[ \t\n\r]` between tokens, and last-write-wins object keys (a Python
  `dict`);
* the fenced-block structured-log parsers `parse_votes` / `parse_spending`;
* the extraction cache `_cache_key` / `_save_cached_extract` /
  `_load_cached_extract` over a file store;
* the LLM gateway `_call_llm` with retry, exponential backoff and the
  Sonnet → Haiku → OpenAI fallback chain;
* the Phase‑1 per-document loop of `main` (cache-first in `--retry-failed`
  mode);
* the Phase‑2 prompt formatters `format_votes_for_newsletter` /
  `format_spending_for_newsletter`; and
* the persistence / aggregation layer `upsert_votes`, `upsert_spending`,
  `get_recent_spending_summary`, `get_dissent_summary` and the repeat-vendor
  grouping of `build_historical_context`.

Numbers are modelled as exact decimals `mantissa × 10^exp10` (every finite
binary float is an exact decimal, and CPython's float repr round-trips), so
no claim below depends on binary rounding.  Machine-level aspects that no
claim observes — log output, `time.sleep`, byte-for-byte file text of the
pretty-printer — are noted at their definition sites.
-/

/-! ## Python JSON values

`Json` is the result type of `json.loads`: `None`, `bool`, numbers (exact
decimal `mantissa × 10^exp10`; CPython's separate `int`/`float` types are
merged, which no claim observes), the IEEE specials that CPython's decoder
accepts as the constants `NaN` / `Infinity` / `-Infinity`, strings, lists
and dicts.  Dicts are association lists whose keys are unique by
construction of the decoder (`Json.dictSet` below implements `d[k] = v`). -/
inductive Json where
  | null
  | bool (b : Bool)
  | num (mant : Int) (exp10 : Int)
  | nan
  | inf
  | ninf
  | str (s : String)
  | arr (items : List Json)
  | obj (pairs : List (String × Json))

/-- Python `d[k] = v` on a dict: replace in place if the key is present
(keeping its position, as a CPython dict does), else append. -/
def Json.dictSet : List (String × Json) → String → Json → List (String × Json)
  | [], k, v => [(k, v)]
  | (k', v') :: t, k, v =>
      if k' = k then (k, v) :: t else (k', v') :: Json.dictSet t k v

/-- Python `d.get(k)` on a dict: the first binding for `k`, if any (decoder
output has unique keys, so first = only). -/
def Json.dictFind : List (String × Json) → String → Option Json
  | [], _ => none
  | (k', v') :: t, k => if k' = k then some v' else Json.dictFind t k

/-- Python `==` on two decimal numbers: value equality of
`m₁ × 10^e₁` and `m₂ × 10^e₂` (so `1e2 == 100.0`, as for CPython floats). -/
def Json.numEq (m1 e1 m2 e2 : Int) : Bool :=
  if e2 ≤ e1 then m1 * 10 ^ (e1 - e2).toNat == m2 else m1 == m2 * 10 ^ (e2 - e1).toNat

mutual
/-- Python `==` on values.  `NaN` compares unequal to everything, itself
included, exactly as `float('nan')` does; numbers compare by value.
(CPython's `x is y` fast path for identical `nan` objects is not modelled;
every claim below compares strings, booleans or finite numbers.) -/
def Json.pyEq : Json → Json → Bool
  | .null, .null => true
  | .bool a, .bool b => a == b
  | .num m e, .num m' e' => Json.numEq m e m' e'
  | .inf, .inf => true
  | .ninf, .ninf => true
  | .str a, .str b => a == b
  | .arr xs, .arr ys => Json.pyEqItems xs ys
  | .obj xs, .obj ys => Json.pyEqPairs xs ys
  | _, _ => false

def Json.pyEqItems : List Json → List Json → Bool
  | [], [] => true
  | x :: xs, y :: ys => Json.pyEq x y && Json.pyEqItems xs ys
  | _, _ => false

/- Dicts are compared pairwise in order; CPython's dict `==` is
order-insensitive, but no code path below ever compares two dicts with
`==` (dicts are unhashable, so they cannot be aggregation keys either). -/
def Json.pyEqPairs : List (String × Json) → List (String × Json) → Bool
  | [], [] => true
  | (k, x) :: xs, (k', y) :: ys => k == k' && Json.pyEq x y && Json.pyEqPairs xs ys
  | _, _ => false
end

/-- Python truthiness `bool(x)`: `None`, `False`, zero, the empty string and
empty containers are falsy; everything else (including `nan`) is truthy. -/
def Json.pyTruthy : Json → Bool
  | .null => false
  | .bool b => b
  | .num m _ => m != 0
  | .nan => true
  | .inf => true
  | .ninf => true
  | .str s => s ≠ ""
  | .arr xs => !xs.isEmpty
  | .obj ps => !ps.isEmpty

/-- Python exception classes that the embedded code can raise or catch.
`json.JSONDecodeError` is kept apart (the decoder below returns
`Except String`), matching the `except json.JSONDecodeError` clauses. -/
inductive PyErr where
  | typeErr (msg : String)
  | valueErr (msg : String)
  | attrErr (msg : String)
  | keyErr (msg : String)
  | unicodeErr (msg : String)
deriving DecidableEq

/-- Python `d.get(k, default)` where `d` may be any value: an
`AttributeError` on a non-dict, the binding or the default on a dict. -/
def Json.pyGet (j : Json) (k : String) (dflt : Json) : Except PyErr Json :=
  match j with
  | .obj ps => .ok ((Json.dictFind ps k).getD dflt)
  | _ => .error (.attrErr "object has no attribute get")

/-- Python `d[k]` where `d` may be any value: `KeyError` on a dict without
the key, `TypeError` on anything that is not a dict (string indices must be
integers / list indices must be integers / unsubscriptable). -/
def Json.pyIndex (j : Json) (k : String) : Except PyErr Json :=
  match j with
  | .obj ps =>
      match Json.dictFind ps k with
      | some v => .ok v
      | none => .error (.keyErr k)
  | _ => .error (.typeErr "value is not subscriptable with a string")

/-- Python `d[k] = v` where `d` may be any value: a dict is updated
(`Json.dictSet`), anything else raises `TypeError` — this is the statement
`record["source_file"] = source` in `parse_votes` / `parse_spending`. -/
def Json.pyItemSet (j : Json) (k : String) (v : Json) : Except PyErr Json :=
  match j with
  | .obj ps => .ok (.obj (Json.dictSet ps k v))
  | _ => .error (.typeErr "object does not support item assignment")

/-- `k` does not occur among the keys of an association list. -/
def Json.keyAbsent (k : String) : List (String × Json) → Bool
  | [] => true
  | (k', _) :: t => k' != k && Json.keyAbsent k t

mutual
/-- Well-formedness as a Python value: every dict, at every depth, has
pairwise-distinct keys.  Everything `json.loads` produces satisfies this
(proved below), and every value handed to `json.dumps` by the pipeline is
required to, since a Lean association list with a repeated key does not
correspond to any Python dict. -/
def Json.pyWF : Json → Bool
  | .null => true
  | .bool _ => true
  | .num _ _ => true
  | .nan => true
  | .inf => true
  | .ninf => true
  | .str _ => true
  | .arr xs => Json.pyWFItems xs
  | .obj ps => Json.pyWFPairs ps

def Json.pyWFItems : List Json → Bool
  | [] => true
  | x :: xs => Json.pyWF x && Json.pyWFItems xs

def Json.pyWFPairs : List (String × Json) → Bool
  | [] => true
  | (k, v) :: t => Json.keyAbsent k t && Json.pyWF v && Json.pyWFPairs t
end

/-! ## `json.loads` — CPython's strict decoder

Fuel-indexed (one unit per decoder-frame; every recursive call strictly
consumes input first, so the `cs.length + 1` budget given by `json_loads`
can never run out — CPython's actual recursion limit, unreachable here, is
the only behaviour this folds away). -/

/-- The decoder's whitespace class (`json.decoder.WHITESPACE`): space, tab,
newline, carriage return — and nothing else. -/
def jsonWs (c : Char) : Bool := c = ' ' || c = '\t' || c = '\n' || c = '\r'

/-- Drop leading JSON whitespace. -/
def jdropWs : List Char → List Char
  | c :: cs => if jsonWs c then jdropWs cs else c :: cs
  | [] => []

def isDigitCh (c : Char) : Bool := '0' ≤ c && c ≤ '9'

/-- Maximal run of decimal digits and the remainder. -/
def grabDigits : List Char → List Char × List Char
  | c :: cs =>
      if isDigitCh c then
        let (ds, r) := grabDigits cs
        (c :: ds, r)
      else ([], c :: cs)
  | [] => ([], [])

/-- The number a digit string denotes. -/
def digitsVal (ds : List Char) : Nat :=
  ds.foldl (fun acc c => acc * 10 + (c.toNat - '0'.toNat)) 0

def hexDigitVal (c : Char) : Option Nat :=
  if isDigitCh c then some (c.toNat - '0'.toNat)
  else if 'a' ≤ c && c ≤ 'f' then some (10 + (c.toNat - 'a'.toNat))
  else if 'A' ≤ c && c ≤ 'F' then some (10 + (c.toNat - 'A'.toNat))
  else none

def hexQuad (a b c d : Char) : Option Nat :=
  match hexDigitVal a, hexDigitVal b, hexDigitVal c, hexDigitVal d with
  | some va, some vb, some vc, some vd => some (((va * 16 + vb) * 16 + vc) * 16 + vd)
  | _, _, _, _ => none

/-- The decoder's `BACKSLASH` table: the short escapes `\" \\ \/ \b \f \n
\r \t` (`\uXXXX` is handled separately). -/
def escMap : Char → Option Char
  | '"' => some '"'
  | '\\' => some '\\'
  | '/' => some '/'
  | 'b' => some (Char.ofNat 8)
  | 'f' => some (Char.ofNat 12)
  | 'n' => some '\n'
  | 'r' => some '\r'
  | 't' => some '\t'
  | _ => none

/-- `py_scanstring` after the opening quote, accumulating characters in
reverse.  Strict mode: a raw control character (< U+0020) is an error.
`\uXXXX` escapes combine surrogate pairs; a *lone* surrogate — which CPython
keeps as a surrogate code unit inside `str` — becomes U+FFFD here, since a
Lean `Char` is a scalar value (no claim decodes lone surrogates). -/
def scanStrAux : Nat → List Char → List Char → Except String (String × List Char)
  | 0, _, _ => .error "recursion limit exceeded"
  | _ + 1, acc, '"' :: r => .ok (⟨acc.reverse⟩, r)
  | fuel + 1, acc, '\\' :: 'u' :: a :: b :: c :: d :: r =>
      (match hexQuad a b c d with
      | none => .error "Invalid hex escape"
      | some n =>
        if 0xD800 ≤ n && n < 0xDC00 then
          match r with
          | '\\' :: 'u' :: a2 :: b2 :: c2 :: d2 :: r2 =>
              (match hexQuad a2 b2 c2 d2 with
              | some n2 =>
                  if 0xDC00 ≤ n2 && n2 < 0xE000 then
                    scanStrAux fuel
                      (Char.ofNat (0x10000 + (n - 0xD800) * 0x400 + (n2 - 0xDC00)) :: acc) r2
                  else scanStrAux fuel ((Char.ofNat 0xFFFD) :: acc) r
              | none => scanStrAux fuel ((Char.ofNat 0xFFFD) :: acc) r)
          | _ => scanStrAux fuel ((Char.ofNat 0xFFFD) :: acc) r
        else if 0xDC00 ≤ n && n < 0xE000 then scanStrAux fuel ((Char.ofNat 0xFFFD) :: acc) r
        else scanStrAux fuel (Char.ofNat n :: acc) r)
  | fuel + 1, acc, '\\' :: e :: r =>
      (match escMap e with
      | some c => scanStrAux fuel (c :: acc) r
      | none => .error "Invalid escape")
  | fuel + 1, acc, c :: r =>
      if c.toNat < 0x20 then .error "Invalid control character"
      else scanStrAux fuel (c :: acc) r
  | _ + 1, _, [] => .error "Unterminated string"

/-- A JSON string body (after the opening quote). -/
def scanStr (cs : List Char) : Except String (String × List Char) :=
  scanStrAux (cs.length + 1) [] cs

/-- The optional leading minus of `NUMBER_RE`. -/
def scanSign : List Char → Bool × List Char
  | '-' :: r => (true, r)
  | cs => (false, cs)

/-- `NUMBER_RE` — `-?(0|[1-9]\d*)(\.\d+)?([eE][+-]?\d+)?` — matched at the
head of the input and converted to an exact decimal `(mantissa, exp10)`;
`none` when the regex does not match at this position.  The optional groups
backtrack exactly as the regex does: a `.` or `e` not followed by the
digits its group requires is left unconsumed. -/
def scanNumber (cs : List Char) : Option ((Int × Int) × List Char) :=
  let (neg, cs1) := scanSign cs
  let intPart : Option (List Char × List Char) := match cs1 with
    | '0' :: r => some (['0'], r)
    | c :: r =>
        if isDigitCh c then
          let (ds, r') := grabDigits r
          some (c :: ds, r')
        else none
    | [] => none
  match intPart with
  | none => none
  | some (intDs, cs2) =>
    let (fracDs, cs3) : List Char × List Char := match cs2 with
      | '.' :: r =>
          (match grabDigits r with
          | ([], _) => ([], cs2)
          | (ds, r') => (ds, r'))
      | _ => ([], cs2)
    let (expVal, cs4) : Int × List Char := match cs3 with
      | 'e' :: r | 'E' :: r =>
          (match r with
          | '+' :: r1 =>
              (match grabDigits r1 with
              | ([], _) => (0, cs3)
              | (ds, r2) => ((digitsVal ds : Int), r2))
          | '-' :: r1 =>
              (match grabDigits r1 with
              | ([], _) => (0, cs3)
              | (ds, r2) => (-(digitsVal ds : Int), r2))
          | _ =>
              (match grabDigits r with
              | ([], _) => (0, cs3)
              | (ds, r2) => ((digitsVal ds : Int), r2)))
      | _ => (0, cs3)
    let mag : Int := (digitsVal (intDs ++ fracDs) : Int)
    some ((if neg then -mag else mag, expVal - (fracDs.length : Int)), cs4)

mutual
/-- `_scan_once`: one JSON value at the head of `cs` (no leading
whitespace), returning it with the unconsumed remainder. -/
def jscan : Nat → List Char → Except String (Json × List Char)
  | 0, _ => .error "recursion limit exceeded"
  | fuel + 1, cs =>
    match cs with
    | '"' :: r =>
        (match scanStr r with
        | .ok (s, r') => .ok (.str s, r')
        | .error e => .error e)
    | '{' :: r =>
        (match jdropWs r with
        | '}' :: r2 => .ok (.obj [], r2)
        | r2 => jpairs fuel r2 [])
    | '[' :: r =>
        (match jdropWs r with
        | ']' :: r2 => .ok (.arr [], r2)
        | r2 => jitems fuel r2 [])
    | 'n' :: 'u' :: 'l' :: 'l' :: tl => .ok (.null, tl)
    | 't' :: 'r' :: 'u' :: 'e' :: tl => .ok (.bool true, tl)
    | 'f' :: 'a' :: 'l' :: 's' :: 'e' :: tl => .ok (.bool false, tl)
    | 'N' :: 'a' :: 'N' :: tl => .ok (.nan, tl)
    | 'I' :: 'n' :: 'f' :: 'i' :: 'n' :: 'i' :: 't' :: 'y' :: tl => .ok (.inf, tl)
    | '-' :: 'I' :: 'n' :: 'f' :: 'i' :: 'n' :: 'i' :: 't' :: 'y' :: tl => .ok (.ninf, tl)
    | cs' =>
        (match scanNumber cs' with
        | some ((m, e), r) => .ok (.num m e, r)
        | none => .error "Expecting value")

/-- `JSONArray`'s element loop: called on the first element (never `]`),
accumulating parsed elements in order. -/
def jitems : Nat → List Char → List Json → Except String (Json × List Char)
  | 0, _, _ => .error "recursion limit exceeded"
  | fuel + 1, cs, acc =>
    match jscan fuel cs with
    | .error e => .error e
    | .ok (v, r) =>
      match jdropWs r with
      | ',' :: r2 => jitems fuel (jdropWs r2) (acc ++ [v])
      | ']' :: r2 => .ok (.arr (acc ++ [v]), r2)
      | _ => .error "Expecting delimiter after array element"
  termination_by structural fuel _ _ => fuel

/-- `JSONObject`'s member loop: called at the first key position (never
`}`), building the dict with Python assignment semantics (`dictSet`). -/
def jpairs : Nat → List Char → List (String × Json) → Except String (Json × List Char)
  | 0, _, _ => .error "recursion limit exceeded"
  | fuel + 1, cs, acc =>
    match cs with
    | '"' :: r =>
        (match scanStr r with
        | .error e => .error e
        | .ok (k, r1) =>
          match jdropWs r1 with
          | ':' :: r2 =>
              (match jscan fuel (jdropWs r2) with
              | .error e => .error e
              | .ok (v, r3) =>
                match jdropWs r3 with
                | ',' :: r4 =>
                    (match jdropWs r4 with
                    | '"' :: r5 => jpairs fuel ('"' :: r5) (Json.dictSet acc k v)
                    | _ => .error "Expecting property name enclosed in double quotes")
                | '}' :: r4 => .ok (.obj (Json.dictSet acc k v), r4)
                | _ => .error "Expecting delimiter after object member")
          | _ => .error "Expecting colon delimiter")
    | _ => .error "Expecting property name enclosed in double quotes"
  termination_by structural fuel _ _ => fuel
end

/-- `json.loads`: skip leading whitespace, scan one value, require only
whitespace to remain (else `Extra data`). -/
def json_loads (s : String) : Except String Json :=
  let cs := jdropWs s.data
  match jscan (cs.length + 1) cs with
  | .error e => .error e
  | .ok (j, r) => if (jdropWs r).isEmpty then .ok j else .error "Extra data"

/-! ## `json.dumps` — serialization

`_save_cached_extract` writes `json.dump(data, f, indent=2,
ensure_ascii=False)`.  The model below renders the same value graph with
the module's compact separators (`", "` / `": "`); `indent=2` only inserts
additional whitespace, which the decoder skips, and no claim observes the
file text other than through `json_loads`.  Strings are escaped exactly as
`ensure_ascii=False` does (`\" \\ \b \f \n \r \t`, `\u00XX` for the
remaining control characters, everything else raw).  Numbers are rendered
in the exact scientific form `[-]0.<digits>e<exp>` — a form CPython's own
number grammar accepts and maps back to the same decimal — rather than in
`repr`'s shortest-float form, which denotes the same value. -/

def digitCh (n : Nat) : Char := Char.ofNat ('0'.toNat + n)

/-- Decimal digits of `n`, most significant first, onto `acc`; fuel-driven
so that it evaluates by kernel reduction (`n + 1` units always suffice). -/
def natDigitsGo : Nat → Nat → List Char → List Char
  | 0, _, acc => acc
  | f + 1, n, acc =>
      if n < 10 then digitCh n :: acc
      else natDigitsGo f (n / 10) (digitCh (n % 10) :: acc)

def natDigits (n : Nat) : List Char := natDigitsGo (n + 1) n []

/-- A signed integer's characters. -/
def intChars (i : Int) : List Char :=
  (if i < 0 then ['-'] else []) ++ natDigits i.natAbs

/-- `mant × 10^exp10` as `[-]0.<digits of |mant|>e<exp10 + digit count>`:
the decimal point is placed before all mantissa digits and the exponent
adjusted, so the rendering is exact for every `(mant, exp10)`. -/
def numChars (m e : Int) : List Char :=
  (if m < 0 then ['-'] else [])
    ++ '0' :: '.' :: natDigits m.natAbs
    ++ 'e' :: intChars (e + (natDigits m.natAbs).length)

def hexCh (n : Nat) : Char :=
  if n < 10 then digitCh n else Char.ofNat ('a'.toNat + (n - 10))

/-- One string character, escaped as `json.dumps(…, ensure_ascii=False)`
escapes it. -/
def escChar (c : Char) : List Char :=
  if c = '"' then ['\\', '"']
  else if c = '\\' then ['\\', '\\']
  else if c = '\n' then ['\\', 'n']
  else if c = '\t' then ['\\', 't']
  else if c = '\r' then ['\\', 'r']
  else if c = Char.ofNat 8 then ['\\', 'b']
  else if c = Char.ofNat 12 then ['\\', 'f']
  else if c.toNat < 0x20 then
    ['\\', 'u', '0', '0', hexCh (c.toNat / 16), hexCh (c.toNat % 16)]
  else [c]

/-- The escaped body of a string. -/
def strBody (s : String) : List Char := s.data.flatMap escChar

/-- A quoted, escaped JSON string. -/
def strChars (s : String) : List Char := '"' :: (strBody s ++ ['"'])

mutual
/-- Render one value. -/
def encVal : Json → List Char
  | .null => "null".data
  | .bool true => "true".data
  | .bool false => "false".data
  | .num m e => numChars m e
  | .nan => "NaN".data
  | .inf => "Infinity".data
  | .ninf => "-Infinity".data
  | .str s => strChars s
  | .arr xs => '[' :: (encItems xs ++ [']'])
  | .obj ps => '{' :: (encPairs ps ++ ['}'])

/-- Render array elements, `", "`-separated. -/
def encItems : List Json → List Char
  | [] => []
  | [x] => encVal x
  | x :: xs => encVal x ++ ',' :: ' ' :: encItems xs

/-- Render object members, `", "`-separated, `": "` after each key. -/
def encPairs : List (String × Json) → List Char
  | [] => []
  | [(k, v)] => strChars k ++ ':' :: ' ' :: encVal v
  | (k, v) :: ps => strChars k ++ ':' :: ' ' :: encVal v ++ ',' :: ' ' :: encPairs ps
end

/-- `json.dumps` (value-level; see the section comment). -/
def json_dumps (j : Json) : String := ⟨encVal j⟩

/-! ## Python string helpers used by the pipeline -/

/-- Python's whitespace class for `str.strip` / `str.split` and for `\s` in
a `re` pattern over `str`: space, `\t`, `\n`, `\r`, `\x0b`, `\x0c`.  (The
exotic extras — `\x1c`–`\x1f`, NBSP, Unicode spaces — never occur in the
inputs any claim quantifies over and are left out.) -/
def pyWsCh (c : Char) : Bool :=
  c = ' ' || c = '\t' || c = '\n' || c = '\r' || c = Char.ofNat 0x0b || c = Char.ofNat 0x0c

/-- Python `str.strip()` with no argument: whitespace off both ends. -/
def pyStrip (s : String) : String :=
  ⟨((s.data.dropWhile pyWsCh).reverse.dropWhile pyWsCh).reverse⟩

/-- A `str.splitlines` boundary: `\n`, `\r`, `\v`, `\f`, `\x1c`, `\x1d`,
`\x1e`, `\x85`, ` `, ` ` (`\r\n` counts once, handled below). -/
def lineBreakCh (c : Char) : Bool :=
  c = '\n' || c = '\r' || c = Char.ofNat 0x0b || c = Char.ofNat 0x0c
    || c = Char.ofNat 0x1c || c = Char.ofNat 0x1d || c = Char.ofNat 0x1e
    || c = Char.ofNat 0x85 || c = Char.ofNat 0x2028 || c = Char.ofNat 0x2029

def pySplitLinesGo : List Char → List Char → List String
  | acc, [] => if acc.isEmpty then [] else [⟨acc.reverse⟩]
  | acc, '\r' :: '\n' :: r => ⟨acc.reverse⟩ :: pySplitLinesGo [] r
  | acc, c :: r =>
      if lineBreakCh c then ⟨acc.reverse⟩ :: pySplitLinesGo [] r
      else pySplitLinesGo (c :: acc) r
  termination_by structural _ cs => cs

/-- Python `str.splitlines()`. -/
def pySplitLines (s : String) : List String := pySplitLinesGo [] s.data

/-- `pre` is a prefix of `cs`. -/
def startsWithL : List Char → List Char → Bool
  | [], _ => true
  | _ :: _, [] => false
  | p :: ps, c :: cs => p == c && startsWithL ps cs

/-- `needle` occurs somewhere in `cs` (Python `needle in hay`). -/
def hasSubL (needle : List Char) : List Char → Bool
  | [] => startsWithL needle []
  | c :: t => startsWithL needle (c :: t) || hasSubL needle t

/-- Python `needle in hay` on strings. -/
def containsSub (hay needle : String) : Bool := hasSubL needle.data hay.data

/-- Python `hay.startswith(pre)`. -/
def pyStartsWith (hay pre : String) : Bool := startsWithL pre.data hay.data

/-- `str.lower()`, ASCII letters (every string any claim lowercases —
filenames, model names, exception text — is ASCII). -/
def lowerCh (c : Char) : Char :=
  if 'A' ≤ c && c ≤ 'Z' then Char.ofNat (c.toNat + 32) else c

def pyLower (s : String) : String := ⟨s.data.map lowerCh⟩

/-! ## The fenced-log regex

`parse_votes` / `parse_spending` locate their block with
`re.search(r"```vote-log\s*\n(.*?)```", llm_output, re.DOTALL)`.
`re.search` takes the leftmost position where the whole pattern matches;
at such a position the greedy `\s*\n` consumes up to the *last* newline of
the maximal whitespace run after the tag (backtracking from the longest
run), and the lazy `(.*?)` stops at the *first* following ` ``` `. -/

/-- The suffix of `cs` after its last `'\n'`, if it has one. -/
def afterLastNl : List Char → Option (List Char)
  | [] => none
  | '\n' :: r => some ((afterLastNl r).getD r)
  | _ :: r => afterLastNl r

/-- The prefix of `cs` before the first occurrence of `needle` (`none` if
`needle` does not occur). -/
def beforeSub (needle : List Char) : List Char → Option (List Char)
  | [] => if startsWithL needle [] then some [] else none
  | c :: t =>
      if startsWithL needle (c :: t) then some []
      else (beforeSub needle t).map (c :: ·)

/-- Attempt the `\s*\n(.*?)``` ` part of the pattern immediately after the
literal tag; `none` means the overall pattern fails at this start position
and the search moves on. -/
def fenceTail (after : List Char) : Option (List Char) :=
  match afterLastNl (after.takeWhile pyWsCh) with
  | none => none
  | some wsTail =>
      match beforeSub ['`', '`', '`'] (after.dropWhile pyWsCh) with
      | none => none
      | some body => some (wsTail ++ body)

/-- `re.search` for the whole fenced-log pattern: scan start positions left
to right; at each occurrence of the literal tag try the rest of the
pattern. Returns the captured group. -/
def findFence (tag : List Char) : List Char → Option (List Char)
  | [] => none
  | c :: t =>
      if startsWithL tag (c :: t) then
        match fenceTail ((c :: t).drop tag.length) with
        | some body => some body
        | none => findFence tag t
      else findFence tag t

/-! ## `parse_votes` / `parse_spending` — structured-log parsing

The per-line loop shared verbatim by the two functions: strip the line,
skip it if blank, `json.loads` it; a `JSONDecodeError` is caught (logged as
a warning) and the line skipped; then `record["source_file"] = source` —
which raises an uncaught `TypeError` when the parsed value is not a dict —
and the record is appended. -/
def parseLogLines (lines : List String) (source : String) : Except PyErr (List Json) :=
  match lines with
  | [] => .ok []
  | line :: rest =>
    let l := pyStrip line
    if l = "" then parseLogLines rest source
    else
      match json_loads l with
      | .error _ => parseLogLines rest source
      | .ok record =>
        match record.pyItemSet "source_file" (.str source) with
        | .error e => .error e
        | .ok tagged =>
          match parseLogLines rest source with
          | .ok records => .ok (tagged :: records)
          | .error e => .error e

/-- Shared body of `parse_votes` / `parse_spending`, parameterised by the
literal fence tag (the only difference between the two source functions). -/
def parseTaggedLog (tag : String) (llm_output source : String) : Except PyErr (List Json) :=
  match findFence tag.data llm_output.data with
  | none => .ok []
  | some body =>
    let block := pyStrip ⟨body⟩
    if block = "" then .ok []
    else parseLogLines (pySplitLines block) source

/-- `parse_votes(llm_output, source)`. -/
def parse_votes (llm_output source : String) : Except PyErr (List Json) :=
  parseTaggedLog "```vote-log" llm_output source

/-- `parse_spending(llm_output, source)`. -/
def parse_spending (llm_output source : String) : Except PyErr (List Json) :=
  parseTaggedLog "```spending-log" llm_output source

/-! ## Python `float()` -/

/-- A Python float, with exact finite values (see the header note). -/
inductive PyFloat where
  | fin (q : ℚ)
  | inf
  | ninf
  | nan
deriving DecidableEq

/-- The rational denoted by the exact decimal `m × 10^e`. -/
def decToQ (m e : Int) : ℚ :=
  if 0 ≤ e then (m : ℚ) * 10 ^ e.toNat else (m : ℚ) / 10 ^ (-e).toNat

/-- `float(s)` on a string: strip whitespace, optional sign, then `inf`,
`infinity` or `nan` (case-insensitive) or a decimal literal
`(\d*\.?\d+|\d+\.?\d*)([eE][+-]?\d+)?`, consuming the whole string;
`none` is `ValueError`.  (CPython also allows `_` digit separators;
not modelled, and no claim exercises them.) -/
def pyFloatOfStr (s : String) : Option PyFloat :=
  let cs := (pyLower (pyStrip s)).data
  let (neg, cs1) : Bool × List Char := match cs with
    | '-' :: r => (true, r)
    | '+' :: r => (false, r)
    | _ => (false, cs)
  if cs1 = ['i', 'n', 'f'] || cs1 = ['i', 'n', 'f', 'i', 'n', 'i', 't', 'y'] then
    some (if neg then .ninf else .inf)
  else if cs1 = ['n', 'a', 'n'] then some .nan
  else
    let (intDs, r1) := grabDigits cs1
    let (fracDs, r2) : List Char × List Char := match r1 with
      | '.' :: r => grabDigits r
      | _ => ([], r1)
    if intDs ++ fracDs = [] then none
    else
      let expPart : Option (Int × List Char) := match r2 with
        | 'e' :: r =>
            (match r with
            | '+' :: r' =>
                (match grabDigits r' with
                | ([], _) => none
                | (ds, r'') => some ((digitsVal ds : Int), r''))
            | '-' :: r' =>
                (match grabDigits r' with
                | ([], _) => none
                | (ds, r'') => some (-(digitsVal ds : Int), r''))
            | _ =>
                (match grabDigits r with
                | ([], _) => none
                | (ds, r'') => some ((digitsVal ds : Int), r'')))
        | _ => some (0, r2)
      match expPart with
      | none => none
      | some (ex, r3) =>
        if r3 = [] then
          let mag : ℚ := decToQ (digitsVal (intDs ++ fracDs) : Int) (ex - (fracDs.length : Int))
          some (.fin (if neg then -mag else mag))
        else none

/-- `float(x)` on a decoded JSON value: numbers and the specials convert,
booleans are `0.0` / `1.0`, strings parse (else `ValueError`), and
`None` / lists / dicts raise `TypeError`. -/
def pyFloatJson (j : Json) : Except PyErr PyFloat :=
  match j with
  | .num m e => .ok (.fin (decToQ m e))
  | .nan => .ok .nan
  | .inf => .ok .inf
  | .ninf => .ok .ninf
  | .bool b => .ok (.fin (if b then 1 else 0))
  | .str s =>
      match pyFloatOfStr s with
      | some f => .ok f
      | none => .error (.valueErr "could not convert string to float")
  | _ => .error (.typeErr "float() argument must be a string or a real number")

/-- IEEE `<` on Python floats (`nan` incomparable). -/
def PyFloat.ltB : PyFloat → PyFloat → Bool
  | .nan, _ => false
  | _, .nan => false
  | .fin a, .fin b => decide (a < b)
  | .ninf, .ninf => false
  | .ninf, _ => true
  | _, .ninf => false
  | .inf, _ => false
  | .fin _, .inf => true

/-- IEEE `+` on Python floats. -/
def PyFloat.add : PyFloat → PyFloat → PyFloat
  | .nan, _ => .nan
  | _, .nan => .nan
  | .fin a, .fin b => .fin (a + b)
  | .inf, .ninf => .nan
  | .ninf, .inf => .nan
  | .inf, _ => .inf
  | _, .inf => .inf
  | .ninf, _ => .ninf
  | _, .ninf => .ninf

/-! ## Rendering helpers for the Phase‑2 prompt text

The prompt builders interpolate values with f-strings.  The two helpers
below produce *a* deterministic rendering; no claim observes their digits
or repr details, only whether the surrounding function raises and which
records each section ranges over. -/

/-- `f"{x:,.2f}"`: fixed two decimals (round-half-even, as CPython's float
formatting), thousands separators in the integer part. -/
def fmtFixed2 (f : PyFloat) : String :=
  match f with
  | .inf => "inf"
  | .ninf => "-inf"
  | .nan => "nan"
  | .fin q =>
    let scaled : ℚ := q * 100
    let fl : Int := ⌊scaled⌋
    let rem : ℚ := scaled - (fl : ℚ)
    let cents : Int :=
      if rem > 1/2 then fl + 1
      else if rem < 1/2 then fl
      else if fl % 2 = 0 then fl else fl + 1
    let mag := cents.natAbs
    let whole := mag / 100
    let frac := mag % 100
    let groups : List Char := (natDigits whole).reverse.toChunks 3 |>.map List.reverse
      |>.reverse |>.intersperse [','] |>.flatten
    (if cents < 0 then "-" else "") ++ (⟨groups⟩ : String) ++ "." ++
      (⟨[digitCh (frac / 10), digitCh (frac % 10)]⟩ : String)

mutual
/-- `str(x)` for f-string interpolation of a decoded JSON value. -/
def pyFStr : Json → String
  | .null => "None"
  | .bool true => "True"
  | .bool false => "False"
  | .num m e => ⟨numChars m e⟩
  | .nan => "nan"
  | .inf => "inf"
  | .ninf => "-inf"
  | .str s => s
  | .arr xs => "[" ++ pyFStrItems xs ++ "]"
  | .obj ps => "\x7b" ++ pyFStrPairs ps ++ "\x7d"

def pyFStrItems : List Json → String
  | [] => ""
  | [x] => pyFStr x
  | x :: xs => pyFStr x ++ ", " ++ pyFStrItems xs

def pyFStrPairs : List (String × Json) → String
  | [] => ""
  | [(k, v)] => "'" ++ k ++ "': " ++ pyFStr v
  | (k, v) :: ps => "'" ++ k ++ "': " ++ pyFStr v ++ ", " ++ pyFStrPairs ps
end

/-! ## `format_votes_for_newsletter` -/

/-- The test `not v.get("unanimous", True)` deciding whether a vote gets
the full "noteworthy" rendering (and is counted by the `noteworthy_count`
log line in `main`): Python truthiness of the field, defaulting to `True`
when the field is absent. -/
def voteIsNoteworthy (v : Json) : Except PyErr Bool := do
  let u ← v.pyGet "unanimous" (.bool true)
  pure (!u.pyTruthy)

/-- A Python list comprehension `[v for v in vs if p(v)]` whose predicate
may raise. -/
def filterJsonM (p : Json → Except PyErr Bool) : List Json → Except PyErr (List Json)
  | [] => .ok []
  | v :: t => do
      let b ← p v
      let r ← filterJsonM p t
      pure (if b then v :: r else r)

/-- `[v for v in all_votes if not v.get("unanimous", True)]`. -/
def noteworthyVotes (all_votes : List Json) : Except PyErr (List Json) :=
  filterJsonM voteIsNoteworthy all_votes

/-- `[v for v in all_votes if v.get("unanimous", True)]`. -/
def unanimousVotes (all_votes : List Json) : Except PyErr (List Json) :=
  filterJsonM (fun v => do
    let u ← v.pyGet "unanimous" (.bool true)
    pure u.pyTruthy) all_votes

/-- `sum(1 for v in all_votes if not v.get("unanimous", True))` — the
noteworthy-vote count logged by `main`. -/
def noteworthyCount (all_votes : List Json) : Except PyErr Nat := do
  let l ← noteworthyVotes all_votes
  pure l.length

/-- `", ".join(x)`: joins a list of strings; a string joins its characters;
anything else raises `TypeError`. -/
def joinCommaSpace (j : Json) : Except PyErr String :=
  match j with
  | .arr xs => do
      let parts ← xs.mapM (fun x => match x with
        | .str s => (.ok s : Except PyErr String)
        | _ => .error (.typeErr "sequence item: expected str instance"))
      pure (String.intercalate ", " parts)
  | .str s => .ok (String.intercalate ", " (s.data.map (⟨[·]⟩)))
  | _ => .error (.typeErr "can only join an iterable")

/-- The recurring `if v.get(k): … v[k] …` shape: render an optional field
through `g` when present and truthy, else contribute nothing. -/
def optFieldPart (v : Json) (k : String) (g : Json → Except PyErr String) :
    Except PyErr String := do
  let xV ← v.pyGet k .null
  if xV.pyTruthy then do
    let xv ← v.pyIndex k
    g xv
  else pure ""

/-- One vote of the "Non-Unanimous / Noteworthy Votes" section. -/
def fmtNoteworthyVote (v : Json) : Except PyErr String := do
  let meeting ← v.pyGet "meeting" (.str "Unknown")
  let motion ← v.pyGet "motion" (.str "N/A")
  let result ← v.pyGet "result" (.str "N/A")
  let header := "- **" ++ pyFStr meeting ++ "** — " ++ pyFStr motion ++ "\n"
      ++ "  Result: " ++ pyFStr result ++ "\n"
  let opposed ← optFieldPart v "no" (fun nv => do
    let joined ← joinCommaSpace nv
    pure ("  Opposed: " ++ joined ++ "\n"))
  let abstained ← optFieldPart v "abstain" (fun av => do
    let joined ← joinCommaSpace av
    pure ("  Abstained: " ++ joined ++ "\n"))
  let context ← optFieldPart v "context" (fun cv =>
    pure ("  Context: " ++ pyFStr cv ++ "\n"))
  pure (header ++ opposed ++ abstained ++ context ++ "\n")

/-- One line of the compact "Unanimous Votes" enumeration. -/
def fmtUnanimousVote (v : Json) : Except PyErr String := do
  let meeting ← v.pyGet "meeting" (.str "Unknown")
  let motion ← v.pyGet "motion" (.str "N/A")
  let result ← v.pyGet "result" (.str "Passed")
  pure ("- " ++ pyFStr meeting ++ ": " ++ pyFStr motion ++ " (" ++ pyFStr result ++ ")\n")

/-- `format_votes_for_newsletter(all_votes)`: empty input yields `""`;
noteworthy (non-unanimous) votes are rendered with full detail, unanimous
votes only in the aggregate enumeration. -/
def format_votes_for_newsletter (all_votes : List Json) : Except PyErr String := do
  if all_votes.isEmpty then pure "" else do
  let noteworthy ← noteworthyVotes all_votes
  let unanimous ← unanimousVotes all_votes
  let sectionA ← if noteworthy.isEmpty then pure "" else do
      let lines ← noteworthy.mapM fmtNoteworthyVote
      pure ("### Non-Unanimous / Noteworthy Votes\n" ++ String.join lines)
  let sectionB ← if unanimous.isEmpty then pure "" else do
      let lines ← unanimous.mapM fmtUnanimousVote
      pure ("### Unanimous Votes (" ++ toString unanimous.length ++ " total)\n"
        ++ String.join lines)
  pure ("## Structured Vote Log\n" ++ sectionA ++ sectionB)

/-! ## `format_spending_for_newsletter` -/

/-- The sort key `lambda s: float(s.get("amount", 0))`. -/
def spendSortKey (s : Json) : Except PyErr PyFloat := do
  let a ← s.pyGet "amount" (.num 0 0)
  pyFloatJson a

/-- Stable descending insertion by key (`sorted(…, reverse=True)` keeps
equal keys in list order; agrees with CPython whenever the keys are totally
ordered, i.e. no `nan` key — which the theorems below assume). -/
def insertDescByKey (kx : PyFloat) (x : Json) : List (PyFloat × Json) → List (PyFloat × Json)
  | [] => [(kx, x)]
  | (ky, y) :: t =>
      if PyFloat.ltB ky kx then (kx, x) :: (ky, y) :: t
      else (ky, y) :: insertDescByKey kx x t

def sortDescByKey (keyed : List (PyFloat × Json)) : List (PyFloat × Json) :=
  keyed.foldl (fun acc (k, x) => insertDescByKey k x acc) []

/-- One rendered spending line (recomputes `float(s.get("amount", 0))`, as
the loop body does). -/
def fmtSpendLine (s : Json) : Except PyErr String := do
  let aJ ← s.pyGet "amount" (.num 0 0)
  let amount ← pyFloatJson aJ
  let descr ← s.pyGet "description" (.str "N/A")
  let base := "- **$" ++ fmtFixed2 amount ++ "** — " ++ pyFStr descr
  let vendPart ← optFieldPart s "vendor" (fun vi =>
    if vi.pyEq (.str "N/A") then pure "" else pure (" (Vendor: " ++ pyFStr vi ++ ")"))
  let projPart ← optFieldPart s "project" (fun pv =>
    pure (" [Project: " ++ pyFStr pv ++ "]"))
  let catPart ← optFieldPart s "category" (fun cv =>
    pure (" [" ++ pyFStr cv ++ "]"))
  pure (base ++ vendPart ++ projPart ++ catPart ++ "\n")

/-- `format_spending_for_newsletter(all_spending)`: `""` on no input; else
sort all records descending by `float(s.get("amount", 0))` — a conversion
that raises `ValueError` on a non-numeric string amount and `TypeError` on
a list/dict/None amount, aborting the whole summary — and render a line
per record. -/
def format_spending_for_newsletter (all_spending : List Json) : Except PyErr String := do
  if all_spending.isEmpty then pure "" else do
  let keyed ← all_spending.mapM (fun s => do
    let k ← spendSortKey s
    pure (k, s))
  let sorted_items := sortDescByKey keyed
  let lines ← sorted_items.mapM (fun ks => fmtSpendLine ks.2)
  pure ("## Structured Spending Log\n\n" ++ String.join lines)

/-! ## The extraction cache (`_cache_key`, `_save_cached_extract`,
`_load_cached_extract`)

Cache files live under `data/extracts/`.  A stored file is either text
(valid UTF‑8, the only thing `_save_cached_extract` ever writes) or a blob
of bytes that is not valid UTF‑8 — which CPython's *text-mode* `open(...,
encoding="utf-8")` read raises `UnicodeDecodeError` on, an exception that
is **not** caught by `except (json.JSONDecodeError, OSError)`
(`UnicodeDecodeError` is a `ValueError`, not an `OSError`, and not a
`JSONDecodeError`).  Write failures (`OSError`, logged and swallowed by
`_save_cached_extract`) are not modelled: the store write always succeeds,
matching the claims' premise that cache entries exist. -/

/-- Contents of one file: decodable text, or bytes that are not UTF‑8. -/
inductive PyFile where
  | text (s : String)
  | invalidUtf8

/-- The filesystem visible to the cache: newest write first. -/
abbrev FileStore := List (String × PyFile)

def storeWrite (store : FileStore) (path : String) (f : PyFile) : FileStore :=
  (path, f) :: store

def storeRead : FileStore → String → Option PyFile
  | [], _ => none
  | (p, f) :: t, path => if p = path then some f else storeRead t path

/-- `filename.replace("/", "_")`. -/
def pyReplaceSlash (s : String) : String :=
  ⟨s.data.map (fun c => if c = '/' then '_' else c)⟩

/-- `s.rsplit(".", 1)[0]`: everything before the last `.`, or all of `s`
when it has no dot. -/
def rsplitStem (s : String) : String :=
  let r := s.data.reverse
  if r.contains '.' then ⟨((r.dropWhile (fun c => c != '.')).drop 1).reverse⟩ else s

/-- `_cache_key(filename)`: `EXTRACT_CACHE_DIR / f"{safe_name}.json"` with
`safe_name = filename.replace("/", "_").rsplit(".", 1)[0]` (the directory
rendered relative to the project root). -/
def cache_key (filename : String) : String :=
  "data/extracts/" ++ rsplitStem (pyReplaceSlash filename) ++ ".json"

/-- The dict `_save_cached_extract` serializes (`cached_at` is
`datetime.now().isoformat()`, passed in as `now`). -/
def cacheRecord (filename notes : String) (votes spending : List Json) (now : String) : Json :=
  .obj [("source", .str filename), ("notes", .str notes), ("votes", .arr votes),
        ("spending", .arr spending), ("cached_at", .str now)]

/-- `_save_cached_extract`. -/
def save_cached_extract (store : FileStore) (filename notes : String)
    (votes spending : List Json) (now : String) : FileStore :=
  storeWrite store (cache_key filename)
    (.text (json_dumps (cacheRecord filename notes votes spending now)))

/-- What `_load_cached_extract` can do: return `None` (no usable entry),
return the parsed dict, or raise. -/
inductive LoadResult where
  | absent
  | loaded (d : Json)
  | raised (e : PyErr)

/-- `_load_cached_extract`: missing file → `None`; non-UTF‑8 bytes →
`UnicodeDecodeError` propagates (see the section comment); text that fails
`json.load` → warning logged, `None`; otherwise the parsed dict. -/
def load_cached_extract (store : FileStore) (filename : String) : LoadResult :=
  match storeRead store (cache_key filename) with
  | none => .absent
  | some .invalidUtf8 =>
      .raised (.unicodeErr "utf-8 codec cannot decode byte")
  | some (.text s) =>
      match json_loads s with
      | .ok d => .loaded d
      | .error _ => .absent

/-! ## The LLM gateway — `_call_llm`

The two provider functions (`analyze_with_openai` / `analyze_with_anthropic`)
are network calls; the environment below supplies their outcome per API
call, in the order the calls are made.  `_call_llm` routes to OpenAI when
`provider == "openai"` and to Anthropic otherwise, retries a transient
failure on the same model with exponential backoff (`30 * 2 ** (attempt -
1)` seconds, recorded in `waits`), and on the last attempt falls back:
Sonnet → Haiku, else (`OPENAI_API_KEY` set) → `gpt-4o`, else re-raise.
`time.sleep` and logging are not modelled beyond the recorded waits. -/

/-- One provider API call's outcome: returned text, or a raised exception
rendered as `str(exc)`. -/
inductive LLMReply where
  | ok (text : String)
  | exc (msg : String)

/-- The environment of a `_call_llm` invocation. -/
structure GatewayEnv where
  reply : Nat → LLMReply
  openaiKey : Bool

/-- How a `_call_llm` invocation ends.  `noReturn` is the Python function
falling off the end of its `for` loop (only possible when
`max_retries == 0`), returning `None`. -/
inductive CallOutcome where
  | success (text : String)
  | raised (msg : String)
  | noReturn

/-- `is_retryable`: any of these keywords occurs in `str(exc).lower()`. -/
def retryKeywords : List String :=
  ["connection", "timeout", "overloaded", "529", "503", "rate"]

def isRetryable (msg : String) : Bool :=
  retryKeywords.any (fun kw => containsSub (pyLower msg) kw)

/-- The provider pair actually dialled for the primary call. -/
def callTarget (provider model : String) : String × String :=
  if provider = "openai" then ("openai", model) else ("anthropic", model)

/-- The retry loop of `_call_llm`.  `left` is the number of loop
iterations remaining (initially `max_retries`), `attempt` the 1-based
Python loop variable, `cid` the global API-call index.  Returns the
outcome, the `(provider, model)` of every API call made (in order), and
the backoff waits slept between same-model retries. -/
def callLLMGo (env : GatewayEnv) (provider model : String) (maxRetries : Nat) :
    Nat → Nat → Nat → CallOutcome × List (String × String) × List Nat
  | 0, _, _ => (.noReturn, [], [])
  | left + 1, attempt, cid =>
    let tgt := callTarget provider model
    match env.reply cid with
    | .ok s => (.success s, [tgt], [])
    | .exc e =>
      if isRetryable e && attempt < maxRetries then
        let w := 30 * 2 ^ (attempt - 1)
        let (out, cs, ws) := callLLMGo env provider model maxRetries left (attempt + 1) (cid + 1)
        (out, tgt :: cs, w :: ws)
      else if isRetryable e && provider = "anthropic" then
        if containsSub model "sonnet" then
          match env.reply (cid + 1) with
          | .ok s => (.success s, [tgt, ("anthropic", "claude-haiku-4-5")], [])
          | .exc e2 => (.raised e2, [tgt, ("anthropic", "claude-haiku-4-5")], [])
        else if env.openaiKey then
          match env.reply (cid + 1) with
          | .ok s => (.success s, [tgt, ("openai", "gpt-4o")], [])
          | .exc e2 => (.raised e2, [tgt, ("openai", "gpt-4o")], [])
        else (.raised e, [tgt], [])
      else (.raised e, [tgt], [])

/-- `_call_llm(provider, model, …, max_retries)` starting at API-call
index `cid` of the environment. -/
def call_llm (env : GatewayEnv) (provider model : String) (maxRetries : Nat) (cid : Nat) :
    CallOutcome × List (String × String) × List Nat :=
  callLLMGo env provider model maxRetries maxRetries 1 cid

/-! ## Persistence layer — `db.py`

The Supabase client is a remote table store; tables are modelled as lists
of typed rows tagged with their `meeting_id`.  Each `upsert_*` helper
degrades to a no-op returning its sentinel when the client is
unconfigured, and wraps its whole body in `try/except` — so an exception
while *building* rows (after the delete has already executed) is caught,
logged, and reported as 0 rows inserted. -/

/-- A row of the `votes` table. -/
structure VoteRow where
  meeting_id : String
  motion : Json
  result : Json
  unanimous : Json
  yes_names : Json
  no_names : Json
  abstain_names : Json
  context : Json

/-- A row of the `spending_items` table. -/
structure SpendRow where
  meeting_id : String
  vendor : Json
  amount : PyFloat
  description : Json
  category : Json
  project : Json
  budget_line : Json
  fiscal_year : Int
  contract_term : Json

/-- The row dict built for one vote record. -/
def buildVoteRow (meetingId : String) (v : Json) : Except PyErr VoteRow := do
  let motion ← v.pyGet "motion" (.str "")
  let result ← v.pyGet "result" (.str "")
  let unanimous ← v.pyGet "unanimous" (.bool true)
  let yes ← v.pyGet "yes" (.arr [])
  let no ← v.pyGet "no" (.arr [])
  let abstain ← v.pyGet "abstain" (.arr [])
  let context ← v.pyGet "context" (.str "")
  pure ⟨meetingId, motion, result, unanimous, yes, no, abstain, context⟩

/-- `upsert_votes(meeting_id, votes)`: no-op when disabled or `votes` is
empty; otherwise delete this meeting's rows, build the new rows (any
exception → caught, 0), insert, and return the inserted count with the new
table. -/
def upsert_votes (enabled : Bool) (meetingId : String) (votes : List Json)
    (table : List VoteRow) : Nat × List VoteRow :=
  if !enabled || votes.isEmpty then (0, table)
  else
    let afterDelete := table.filter (fun r => r.meeting_id ≠ meetingId)
    match votes.mapM (buildVoteRow meetingId) with
    | .error _ => (0, afterDelete)
    | .ok rows => (rows.length, afterDelete ++ rows)

/-- Python `x or y` for the `fiscal_year or datetime.now().year` default
(`None` and `0` both fall back). -/
def fiscalYearOr (fy : Option Int) (nowYear : Int) : Int :=
  match fy with
  | some y => if y = 0 then nowYear else y
  | none => nowYear

/-- The row dict built for one spending record; `float(s.get("amount",
0))` raises on a malformed amount. -/
def buildSpendRow (meetingId : String) (fy : Option Int) (nowYear : Int) (s : Json) :
    Except PyErr SpendRow := do
  let vendor ← s.pyGet "vendor" (.str "Unknown")
  let amountJ ← s.pyGet "amount" (.num 0 0)
  let amount ← pyFloatJson amountJ
  let descr ← s.pyGet "description" (.str "")
  let category ← s.pyGet "category" (.str "routine")
  let project ← s.pyGet "project" .null
  let budgetLine ← s.pyGet "budget_line" .null
  let term ← s.pyGet "contract_term" .null
  pure ⟨meetingId, vendor, amount, descr, category, project, budgetLine,
        fiscalYearOr fy nowYear, term⟩

/-- `upsert_spending(meeting_id, items, fiscal_year)`: same shape as
`upsert_votes`; note that when a row raises while being built, the delete
of the meeting's previously persisted rows has already executed inside the
`try`, so the function returns 0 *and* the old rows are gone. -/
def upsert_spending (enabled : Bool) (meetingId : String) (items : List Json)
    (fy : Option Int) (nowYear : Int) (table : List SpendRow) : Nat × List SpendRow :=
  if !enabled || items.isEmpty then (0, table)
  else
    let afterDelete := table.filter (fun r => r.meeting_id ≠ meetingId)
    match items.mapM (buildSpendRow meetingId fy nowYear) with
    | .error _ => (0, afterDelete)
    | .ok rows => (rows.length, afterDelete ++ rows)

/-! ## Historical aggregation — `get_recent_spending_summary`,
`build_historical_context`, `get_dissent_summary`

The backend query (`.gte("created_at", cutoff)`) selects the rows inside
the lookback window; the aggregation below receives exactly those rows
(`result.data`), as dicts.  The `try` in the source wraps only the query;
the aggregation loop itself runs outside it, so a conversion error there
would propagate. -/

/-- One `{"total": …, "count": …, "items": […]}` aggregation bucket. -/
structure AggEntry where
  total : PyFloat
  count : Nat
  items : List Json

/-- Dict lookup keyed by a Python value (`==`-based; vendor keys are
hashable scalars in every claim — see `Json.pyEq`). -/
def aggFind : List (Json × AggEntry) → Json → Option AggEntry
  | [], _ => none
  | (k', e) :: t, k => if Json.pyEq k' k then some e else aggFind t k

/-- `if k not in m: m[k] = {"total": 0.0, "count": 0, "items": []}` then
`m[k]["total"] += amt; m[k]["count"] += 1; m[k]["items"].append(row)`. -/
def aggBump : List (Json × AggEntry) → Json → PyFloat → Json → List (Json × AggEntry)
  | [], k, amt, row => [(k, ⟨PyFloat.add (.fin 0) amt, 1, [row]⟩)]
  | (k', e) :: t, k, amt, row =>
      if Json.pyEq k' k then (k', ⟨PyFloat.add e.total amt, e.count + 1, e.items ++ [row]⟩) :: t
      else (k', e) :: aggBump t k amt row

/-- The aggregation loop of `get_recent_spending_summary` over the
returned rows, accumulating `by_vendor` and `by_project`. -/
def spendSummaryGo : List Json → List (Json × AggEntry) → List (Json × AggEntry) →
    Except PyErr (List (Json × AggEntry) × List (Json × AggEntry))
  | [], bv, bp => .ok (bv, bp)
  | row :: rest, bv, bp => do
      let vendor ← row.pyGet "vendor" (.str "Unknown")
      let amtJ ← row.pyGet "amount" (.num 0 0)
      let amt ← pyFloatJson amtJ
      let bv' := aggBump bv vendor amt row
      let projJ ← row.pyGet "project" .null
      let bp' := if projJ.pyTruthy then aggBump bp projJ amt row else bp
      spendSummaryGo rest bv' bp'

/-- `get_recent_spending_summary(lookback_days)` applied to the in-window
rows the backend returned: `{"by_vendor": …, "by_project": …}`. -/
def get_recent_spending_summary (rows : List Json) :
    Except PyErr (List (Json × AggEntry) × List (Json × AggEntry)) :=
  spendSummaryGo rows [] []

/-- The repeat-vendor dict comprehension of `build_historical_context`:
`{v: data for v, data in summary["by_vendor"].items() if data["count"] >= 2
and v not in ("N/A", "Unknown")}`. -/
def repeatVendors (by_vendor : List (Json × AggEntry)) : List (Json × AggEntry) :=
  by_vendor.filter (fun ve =>
    decide (2 ≤ ve.2.count) && !(ve.1.pyEq (.str "N/A")) && !(ve.1.pyEq (.str "Unknown")))

/-- The `votes`-table query filter of `get_dissent_summary`:
`.eq("unanimous", False)` keeps a row only when its stored `unanimous`
column equals SQL `false`. -/
def dissentQueryKeeps (r : VoteRow) : Bool := r.unanimous.pyEq (.bool false)

/-- One official's bucket in the dissent summary. -/
structure DissentEntry where
  no_count : Nat
  abstain_count : Nat
  topics : List Json

/-- Iterating a Python value in a `for` loop: a list yields its items, a
string its characters; everything else raises `TypeError`. -/
def pyIterItems : Json → Except PyErr (List Json)
  | .arr xs => .ok xs
  | .str s => .ok (s.data.map (fun c => .str ⟨[c]⟩))
  | _ => .error (.typeErr "object is not iterable")

/-- `row.get("no_names") or []`. -/
def namesOrEmpty (j : Json) : Json := if j.pyTruthy then j else .arr []

def dissentFind : List (Json × DissentEntry) → Json → Option DissentEntry
  | [], _ => none
  | (k', e) :: t, k => if Json.pyEq k' k then some e else dissentFind t k

def dissentSet : List (Json × DissentEntry) → Json → DissentEntry → List (Json × DissentEntry)
  | [], k, e => [(k, e)]
  | (k', e') :: t, k, e =>
      if Json.pyEq k' k then (k', e) :: t else (k', e') :: dissentSet t k e

/-- Group one row's `no_names` / `abstain_names` into the officials'
buckets. -/
def dissentRowGo (motion : Json) (asAbstain : Bool) (names : List Json)
    (officials : List (Json × DissentEntry)) : List (Json × DissentEntry) :=
  names.foldl (fun off name =>
    let e := (dissentFind off name).getD ⟨0, 0, []⟩
    let e' := if asAbstain then { e with abstain_count := e.abstain_count + 1,
                                         topics := e.topics ++ [motion] }
              else { e with no_count := e.no_count + 1, topics := e.topics ++ [motion] }
    dissentSet off name e') officials

/-- `get_dissent_summary(lookback_days)` applied to the non-unanimous
in-window rows the backend returned (the `.eq("unanimous", False)` filter
is `dissentQueryKeeps`). -/
def get_dissent_summary (rows : List VoteRow) : Except PyErr (List (Json × DissentEntry)) :=
  (rows.filter dissentQueryKeeps).foldlM (fun off r => do
    let motion := r.motion
    let nos ← pyIterItems (namesOrEmpty r.no_names)
    let abstains ← pyIterItems (namesOrEmpty r.abstain_names)
    pure (dissentRowGo motion true abstains (dissentRowGo motion false nos off))) []

/-! ## Phase 1 — the per-document loop of `main`

The two Phase‑1 loops (transcripts, then minutes without a same-date
transcript) share their body: cache-first when `--retry-failed` is set,
otherwise build the prompt, invoke `_call_llm` (one gateway invocation per
document, its outcome supplied by `gw` indexed by invocation count; a
raised exception is caught, the document skipped, no cache entry written),
parse the structured logs, extend the run accumulators, and write the
cache entry.  Rate-limit sleeps, log lines and the Supabase persistence
calls (which never touch the accumulators) are not modelled; `now` stands
for every `datetime.now().isoformat()` stamp (no claim observes it). -/

/-- One input document (transcript or minutes file). -/
structure Doc where
  filename : String
  content : String

/-- The run state threaded through Phase 1. -/
structure Phase1State where
  all_votes : List Json
  all_spending : List Json
  meeting_extracts : List (Json × Json)
  store : FileStore
  gatewayCalls : Nat

/-- The non-cached path: call the gateway, parse, accumulate, cache. -/
def processDocCall (gw : Nat → LLMReply) (now : String) (st : Phase1State) (d : Doc) :
    Except PyErr Phase1State :=
  match gw st.gatewayCalls with
  | .exc _ =>
      -- `except Exception: log.error(...); continue` — document skipped
      .ok { st with gatewayCalls := st.gatewayCalls + 1 }
  | .ok notes => do
      let votes ← parse_votes notes d.filename
      let spending ← parse_spending notes d.filename
      pure { all_votes := st.all_votes ++ votes,
             all_spending := st.all_spending ++ spending,
             meeting_extracts := st.meeting_extracts ++ [(.str d.filename, .str notes)],
             store := save_cached_extract st.store d.filename notes votes spending now,
             gatewayCalls := st.gatewayCalls + 1 }

/-- One loop iteration for one document.  The `if cached:` gate is
Python truthiness: a falsy parsed value (an empty dict, `null`, `0`,
`""` — never produced by `_save_cached_extract`, which always writes a
five-key dict) counts as a miss. -/
def processDoc (retryFailed : Bool) (gw : Nat → LLMReply) (now : String)
    (st : Phase1State) (d : Doc) : Except PyErr Phase1State :=
  if retryFailed then
    match load_cached_extract st.store d.filename with
    | .raised e => .error e
    | .loaded cached =>
        if cached.pyTruthy then do
          let votesJ ← cached.pyGet "votes" (.arr [])
          let spendJ ← cached.pyGet "spending" (.arr [])
          let votes ← pyIterItems votesJ
          let spending ← pyIterItems spendJ
          let source ← cached.pyIndex "source"
          let notes ← cached.pyIndex "notes"
          pure { st with all_votes := st.all_votes ++ votes,
                         all_spending := st.all_spending ++ spending,
                         meeting_extracts := st.meeting_extracts ++ [(source, notes)] }
        else processDocCall gw now st d
    | .absent => processDocCall gw now st d
  else processDocCall gw now st d

/-- A whole Phase‑1 loop over a document list. -/
def phase1Docs (retryFailed : Bool) (gw : Nat → LLMReply) (now : String)
    (docs : List Doc) (st : Phase1State) : Except PyErr Phase1State :=
  docs.foldlM (processDoc retryFailed gw now) st

/-- `filename[:10]` — the date prefix. -/
def datePrefix10 (s : String) : String := ⟨s.data.take 10⟩

/-- Phase 1b's skip: a minutes file whose date prefix some (lowercased)
transcript filename starts with is not reprocessed. -/
def minutesToProcess (transcripts minutes : List Doc) : List Doc :=
  let transcript_names := transcripts.map (fun t => pyLower t.filename)
  minutes.filter (fun m =>
    !(transcript_names.any (fun t => pyStartsWith t (datePrefix10 m.filename))))

/-- The empty run state over a given cache store. -/
def initState (store : FileStore) : Phase1State :=
  { all_votes := [], all_spending := [], meeting_extracts := [],
    store := store, gatewayCalls := 0 }

/-- Phase 1 of `main`: the transcript loop, then the minutes loop over the
minutes with no same-date transcript. -/
def phase1 (retryFailed : Bool) (gw : Nat → LLMReply) (now : String)
    (transcripts minutes : List Doc) (store : FileStore) : Except PyErr Phase1State := do
  let st1 ← phase1Docs retryFailed gw now transcripts (initState store)
  phase1Docs retryFailed gw now (minutesToProcess transcripts minutes) st1

/-! ## Helper definitions used by theorem statements -/

def Json.isObj : Json → Bool
  | .obj _ => true
  | _ => false

/-- The dict has a binding for `k`. -/
def Json.hasKey (j : Json) (k : String) : Bool :=
  match j with
  | .obj ps => (Json.dictFind ps k).isSome
  | _ => false

/-- A log line that is non-blank after stripping and parses to a dict. -/
def lineParsesToDict (l : String) : Bool :=
  pyStrip l ≠ "" && match json_loads (pyStrip l) with
    | .ok (.obj _) => true
    | _ => false

/-- A log line that is non-blank after stripping and fails `json.loads`. -/
def lineFailsJson (l : String) : Bool :=
  pyStrip l ≠ "" && !(json_loads (pyStrip l)).isOk

/-- The record a valid log line contributes, already tagged with its
source (total helper for theorem statements; junk off the valid path). -/
def taggedLineRecord (source l : String) : Json :=
  match json_loads (pyStrip l) with
  | .ok r =>
      match r.pyItemSet "source_file" (.str source) with
      | .ok t => t
      | .error _ => .null
  | .error _ => .null

/-- The vendor key a spending row aggregates under (total helper). -/
def rowVendorD (r : Json) : Json :=
  match r.pyGet "vendor" (.str "Unknown") with
  | .ok x => x
  | .error _ => .null

/-- `float(row.get("amount", 0))` for a spending row. -/
def rowAmountF (r : Json) : Except PyErr PyFloat := do
  let a ← r.pyGet "amount" (.num 0 0)
  pyFloatJson a

/-- `float(row.get("amount", 0))` totalized for statements (junk on the
error path, which hypotheses exclude). -/
def rowAmountD (r : Json) : PyFloat :=
  match rowAmountF r with
  | .ok f => f
  | .error _ => .nan

/-- The in-window rows aggregating under vendor `v`. -/
def rowsWithVendor (rows : List Json) (v : String) : List Json :=
  rows.filter (fun r => (rowVendorD r).pyEq (.str v))

/-- One `+=` step of the vendor total. -/
def addAmt (acc : PyFloat) (r : Json) : PyFloat := PyFloat.add acc (rowAmountD r)

/-- Three in-window spending rows whose vendor is the sentinel `"N/A"`,
with amounts 100, 200 and 300. -/
def sentinelRows : List Json :=
  [.obj [("vendor", .str "N/A"), ("amount", .num 100 0)],
   .obj [("vendor", .str "N/A"), ("amount", .num 200 0)],
   .obj [("vendor", .str "N/A"), ("amount", .num 300 0)]]

/-- Four in-window spending rows: vendor `"Acme"` three times with amounts
100, 200 and 300, and vendor `"Solo"` once with amount 50. -/
def acmeRows : List Json :=
  [.obj [("vendor", .str "Acme"), ("amount", .num 100 0)],
   .obj [("vendor", .str "Solo"), ("amount", .num 50 0)],
   .obj [("vendor", .str "Acme"), ("amount", .num 200 0)],
   .obj [("vendor", .str "Acme"), ("amount", .num 300 0)]]

/-- The `by_vendor` dict `get_recent_spending_summary` builds from
`acmeRows`. -/
def acmeByVendor : List (Json × AggEntry) :=
  [(.str "Acme",
    ⟨.fin (0 + decToQ 100 0 + decToQ 200 0 + decToQ 300 0), 3,
     [.obj [("vendor", .str "Acme"), ("amount", .num 100 0)],
      .obj [("vendor", .str "Acme"), ("amount", .num 200 0)],
      .obj [("vendor", .str "Acme"), ("amount", .num 300 0)]]⟩),
   (.str "Solo",
    ⟨.fin (0 + decToQ 50 0), 1,
     [.obj [("vendor", .str "Solo"), ("amount", .num 50 0)]]⟩)]

/-- The `by_vendor` dict `get_recent_spending_summary` builds from
`sentinelRows`. -/
def naByVendor : List (Json × AggEntry) :=
  [(.str "N/A",
    ⟨.fin (0 + decToQ 100 0 + decToQ 200 0 + decToQ 300 0), 3, sentinelRows⟩)]

/-- The input left after an encoded number never starts with a digit
(boundary condition for `scanNumber`'s greedy digit runs). -/
def noDigitHead : List Char → Bool
  | [] => true
  | c :: _ => !isDigitCh c

/-- Fold of Python dict assignment over a pair list (what `JSONObject`'s
member loop computes into its accumulator). -/
def dictSetAll : List (String × Json) → List (String × Json) → List (String × Json)
  | acc, [] => acc
  | acc, (k, v) :: ps => dictSetAll (Json.dictSet acc k v) ps

/-- The `i`-th gateway invocation succeeded and both structured logs of
its notes parse, producing well-formed records, for document `d`. -/
def docOK (gw : Nat → LLMReply) (i : Nat) (d : Doc) : Bool :=
  match gw i with
  | .exc _ => false
  | .ok notes =>
      match parse_votes notes d.filename, parse_spending notes d.filename with
      | .ok v, .ok s => Json.pyWFItems v && Json.pyWFItems s
      | _, _ => false

/-- `docOK` along a document list, one gateway invocation per document. -/
def docsOK (gw : Nat → LLMReply) : Nat → List Doc → Bool
  | _, [] => true
  | i, d :: ds => docOK gw i d && docsOK gw (i + 1) ds

/-- The notes text of the `i`-th gateway invocation (junk off `docOK`). -/
def docNotes (gw : Nat → LLMReply) (i : Nat) : String :=
  match gw i with
  | .ok s => s
  | .exc e => e

/-- The tagged vote records document `d` contributes (junk off `docOK`). -/
def docVotes (gw : Nat → LLMReply) (i : Nat) (d : Doc) : List Json :=
  match parse_votes (docNotes gw i) d.filename with
  | .ok v => v
  | .error _ => []

/-- The tagged spending records document `d` contributes. -/
def docSpend (gw : Nat → LLMReply) (i : Nat) (d : Doc) : List Json :=
  match parse_spending (docNotes gw i) d.filename with
  | .ok s => s
  | .error _ => []

/-- The cache record Phase 1 writes for document `d` as the `i`-th
invocation. -/
def docRecord (gw : Nat → LLMReply) (now : String) (i : Nat) (d : Doc) : Json :=
  cacheRecord d.filename (docNotes gw i) (docVotes gw i d) (docSpend gw i d) now

/-- All vote records a Phase‑1 loop accumulates over `docs`, invocation
indices from `i`. -/
def run1Votes (gw : Nat → LLMReply) : Nat → List Doc → List Json
  | _, [] => []
  | i, d :: ds => docVotes gw i d ++ run1Votes gw (i + 1) ds

/-- All spending records a Phase‑1 loop accumulates over `docs`. -/
def run1Spend (gw : Nat → LLMReply) : Nat → List Doc → List Json
  | _, [] => []
  | i, d :: ds => docSpend gw i d ++ run1Spend gw (i + 1) ds

/-- The cache writes a Phase‑1 loop performs over `docs`, newest first. -/
def run1Writes (gw : Nat → LLMReply) (now : String) : Nat → List Doc → FileStore
  | _, [] => []
  | i, d :: ds =>
      run1Writes gw now (i + 1) ds
        ++ [(cache_key d.filename, .text (json_dumps (docRecord gw now i d)))]

/-- A gateway whose every invocation yields notes with no structured log
blocks. -/
def constGw : Nat → LLMReply := fun _ => .ok "no log"

/-! # Theorems -/

/-! ## C9 — a decodable non-dict log line raises `TypeError` -/

/-- **C9.** For an input whose `vote-log` (resp. `spending-log`) fenced
block contains a line that is valid JSON but not a JSON object — here the
bare number `3` (resp. the array `[1, 2]`) between two valid records —
`parse_votes` (resp. `parse_spending`) raises an uncaught `TypeError` at
`record["source_file"] = source` instead of returning the records of the
other lines; the same block without the offending line parses to both
records. -/
theorem C9_nondict_line_raises_typeerror :
    parse_votes
        "```vote-log\n\x7b\"motion\": \"A\"\x7d\n3\n\x7b\"motion\": \"B\"\x7d\n```"
        "m.txt"
      = .error (.typeErr "object does not support item assignment")
    ∧ parse_spending
        "```spending-log\n\x7b\"vendor\": \"Acme\"\x7d\n[1, 2]\n```" "m.txt"
      = .error (.typeErr "object does not support item assignment")
    ∧ parse_votes "```vote-log\n\x7b\"motion\": \"A\"\x7d\n\x7b\"motion\": \"B\"\x7d\n```"
        "m.txt"
      = .ok [.obj [("motion", .str "A"), ("source_file", .str "m.txt")],
             .obj [("motion", .str "B"), ("source_file", .str "m.txt")]] :=
  ⟨rfl, rfl, rfl⟩

/-! ## C6 — cache loading under corruption -/

/-- **C6, counterexample.** A cache entry whose stored bytes are not valid
UTF‑8 makes `_load_cached_extract` raise (`UnicodeDecodeError` escapes the
`except (json.JSONDecodeError, OSError)` clause), contradicting the claim
that loading never raises however corrupted the stored bytes are. -/
theorem C6_invalid_utf8_raises :
    load_cached_extract [(cache_key "2026-01-05_meeting.txt", PyFile.invalidUtf8)]
        "2026-01-05_meeting.txt"
      = .raised (.unicodeErr "utf-8 codec cannot decode byte") := rfl

/-- **C6, amended.** For every cache entry whose stored bytes are valid
UTF‑8 text, loading never raises, and on JSON-deserialization failure the
loader logs a warning and returns the same result as if the entry were
absent; an entry whose bytes are not valid UTF‑8 raises
`UnicodeDecodeError` to the caller (see the counterexample). -/
theorem C6_text_entry_never_raises (store : FileStore) (fn s : String)
    (h : storeRead store (cache_key fn) = some (.text s)) :
    (∀ e, load_cached_extract store fn ≠ .raised e)
    ∧ (∀ msg, json_loads s = .error msg → load_cached_extract store fn = .absent) := by
  unfold load_cached_extract
  rw [h]
  constructor
  · intro e
    cases hj : json_loads s <;> simp [hj]
  · intro msg hmsg
    simp [hmsg]

/-- **C6, witness.** The amended theorem at a concrete corrupt-text entry:
the stored text `{oops` is not JSON; loading neither raises nor yields a
record — it behaves as an absent entry. -/
theorem C6_text_entry_never_raises_witness :
    (∀ e, load_cached_extract [(cache_key "f.txt", PyFile.text "\x7boops")] "f.txt"
        ≠ .raised e)
    ∧ load_cached_extract [(cache_key "f.txt", PyFile.text "\x7boops")] "f.txt" = .absent := by
  have h := C6_text_entry_never_raises
    [(cache_key "f.txt", PyFile.text "\x7boops")] "f.txt" "\x7boops" rfl
  exact ⟨h.1, h.2 "Expecting property name enclosed in double quotes" rfl⟩

/-! ## C1 — malformed spending amounts -/

/-- On a dict, `.get` never raises. -/
theorem pyGet_ok_of_isObj {j : Json} (h : j.isObj = true) (k : String) (d : Json) :
    ∃ x, j.pyGet k d = .ok x := by
  cases j <;> simp [Json.isObj] at h ⊢
  exact ⟨_, rfl⟩

/-- If `s.get(k, None)` on a dict is truthy, the key is present, and
`s[k]` returns the same value. -/
theorem pyIndex_ok_of_get_truthy {ps : List (String × Json)} {k : String} {v : Json}
    (hget : (Json.obj ps).pyGet k .null = .ok v) (htr : v.pyTruthy = true) :
    (Json.obj ps).pyIndex k = .ok v := by
  simp [Json.pyGet] at hget
  cases hf : Json.dictFind ps k with
  | none =>
      rw [hf] at hget
      simp [Option.getD] at hget
      subst hget
      simp [Json.pyTruthy] at htr
  | some w =>
      rw [hf] at hget
      simp [Option.getD] at hget
      subst hget
      simp [Json.pyIndex, hf]

/-- The two amount conversions in the source — the sort key and the row
builder — are the same computation. -/
theorem spendSortKey_eq_rowAmountF (s : Json) : spendSortKey s = rowAmountF s := rfl

@[simp] theorem exBind_ok {ε α β : Type} (a : α) (f : α → Except ε β) :
    (Except.ok a >>= f : Except ε β) = f a := rfl

@[simp] theorem exBind_err {ε α β : Type} (e : ε) (f : α → Except ε β) :
    ((Except.error e : Except ε α) >>= f : Except ε β) = .error e := rfl

@[simp] theorem exPure {ε α : Type} (a : α) : (pure a : Except ε α) = .ok a := rfl

/-- `optFieldPart` never raises on a dict, provided its body never
raises. -/
theorem optField_ok (ps : List (String × Json)) (k : String)
    (g : Json → Except PyErr String) (hg : ∀ v, ∃ t, g v = .ok t) :
    ∃ t, optFieldPart (Json.obj ps) k g = .ok t := by
  unfold optFieldPart
  simp only [Json.pyGet, exBind_ok]
  by_cases htr : ((Json.dictFind ps k).getD .null).pyTruthy = true
  · rw [if_pos htr, pyIndex_ok_of_get_truthy (by simp [Json.pyGet]) htr, exBind_ok]
    exact hg _
  · rw [if_neg htr]
    exact ⟨_, rfl⟩

/-- A spending dict whose amount converts renders without raising. -/
theorem fmtSpendLine_ok {s : Json} (ho : s.isObj = true)
    (ha : ∃ f, rowAmountF s = .ok f) : ∃ t, fmtSpendLine s = .ok t := by
  obtain ⟨ps, rfl⟩ : ∃ ps, s = .obj ps := by
    cases s <;> simp [Json.isObj] at ho
    exact ⟨_, rfl⟩
  obtain ⟨f, hf⟩ := ha
  unfold rowAmountF at hf
  simp only [Json.pyGet, exBind_ok] at hf
  obtain ⟨tv, htv⟩ := optField_ok ps "vendor"
    (fun vi => if vi.pyEq (.str "N/A") then pure "" else pure (" (Vendor: " ++ pyFStr vi ++ ")"))
    (by
      intro v
      by_cases h : v.pyEq (.str "N/A") = true <;> simp [h])
  obtain ⟨tp, htp⟩ := optField_ok ps "project"
    (fun pv => pure (" [Project: " ++ pyFStr pv ++ "]")) (fun _ => ⟨_, rfl⟩)
  obtain ⟨tc, htc⟩ := optField_ok ps "category"
    (fun cv => pure (" [" ++ pyFStr cv ++ "]")) (fun _ => ⟨_, rfl⟩)
  unfold fmtSpendLine
  simp only [Json.pyGet, exBind_ok, hf, htv, htp, htc]
  exact ⟨_, rfl⟩

/-- A spending dict whose amount converts builds a DB row without
raising. -/
theorem buildSpendRow_ok {s : Json} (ho : s.isObj = true)
    (ha : ∃ f, rowAmountF s = .ok f) (mid : String) (fy : Option Int) (ny : Int) :
    ∃ r, buildSpendRow mid fy ny s = .ok r := by
  obtain ⟨ps, rfl⟩ : ∃ ps, s = .obj ps := by
    cases s <;> simp [Json.isObj] at ho
    exact ⟨_, rfl⟩
  obtain ⟨f, hf⟩ := ha
  unfold rowAmountF at hf
  simp only [Json.pyGet, exBind_ok] at hf
  unfold buildSpendRow
  simp only [Json.pyGet, exBind_ok, hf]
  exact ⟨_, rfl⟩

/-- `mapM` over `Except` succeeds, preserving length, when every element
does. -/
theorem mapM_ok_len {α β : Type} {f : α → Except PyErr β} :
    ∀ {xs : List α}, (∀ x ∈ xs, ∃ y, f x = .ok y) →
      ∃ l, xs.mapM f = .ok l ∧ l.length = xs.length := by
  intro xs
  induction xs with
  | nil => exact fun _ => ⟨[], rfl, rfl⟩
  | cons x t ih =>
      intro h
      obtain ⟨y, hy⟩ := h x (by simp)
      obtain ⟨l, hl, hlen⟩ := ih (fun z hz => h z (by simp [hz]))
      refine ⟨y :: l, ?_, by simp [hlen]⟩
      rw [List.mapM_cons, hy, hl]
      rfl

/-- The key-computation pass of `sorted(…, key=…)` succeeds when every key
does, and pairs each element with its key. -/
theorem keyedMapM_ok {items : List Json}
    (h : ∀ s ∈ items, ∃ k, spendSortKey s = .ok k) :
    ∃ keyed, items.mapM (fun s => do
        let k ← spendSortKey s
        pure ((k, s) : PyFloat × Json)) = .ok keyed
      ∧ keyed.map Prod.snd = items := by
  induction items with
  | nil => exact ⟨[], rfl, rfl⟩
  | cons x t ih =>
      obtain ⟨k, hk⟩ := h x (by simp)
      obtain ⟨keyed, hkeyed, hsnd⟩ := ih (fun z hz => h z (by simp [hz]))
      refine ⟨(k, x) :: keyed, ?_, by simp [hsnd]⟩
      rw [List.mapM_cons, hk]
      simp only [exBind_ok, hkeyed]
      rfl

theorem mem_insertDescByKey {p : PyFloat × Json} {k : PyFloat} {x : Json} :
    ∀ {l : List (PyFloat × Json)}, p ∈ insertDescByKey k x l → p = (k, x) ∨ p ∈ l := by
  intro l
  induction l with
  | nil => simp [insertDescByKey]
  | cons hd t ih =>
      obtain ⟨ky, y⟩ := hd
      simp only [insertDescByKey]
      by_cases hlt : PyFloat.ltB ky k = true
      · rw [if_pos hlt]
        intro hp
        rcases List.mem_cons.mp hp with hp | hp
        · exact Or.inl hp
        · exact Or.inr hp
      · rw [if_neg hlt]
        intro hp
        rcases List.mem_cons.mp hp with hp | hp
        · exact Or.inr (by simp [hp])
        · rcases ih hp with hp | hp
          · exact Or.inl hp
          · exact Or.inr (by simp [hp])

theorem mem_sortDescByKey {p : PyFloat × Json} {keyed : List (PyFloat × Json)}
    (h : p ∈ sortDescByKey keyed) : p ∈ keyed := by
  unfold sortDescByKey at h
  suffices haux : ∀ (l acc : List (PyFloat × Json)),
      p ∈ l.foldl (fun a kx => insertDescByKey kx.1 kx.2 a) acc → p ∈ acc ∨ p ∈ l by
    rcases haux keyed [] h with habs | hm
    · simp at habs
    · exact hm
  intro l
  induction l with
  | nil => intro acc h; exact Or.inl h
  | cons hd t ih =>
      intro acc h
      rcases ih (insertDescByKey hd.1 hd.2 acc) h with hm | hm
      · rcases mem_insertDescByKey hm with hm | hm
        · exact Or.inr (by simp [hm])
        · exact Or.inl hm
      · exact Or.inr (by simp [hm])

/-- **C1, counterexample.** A spending record whose `amount` is the
non-numeric string `"12,000"`, accumulated alongside a valid record, makes
the Phase‑2 spending summary raise `ValueError` (inside the sort-key
`float(...)`) instead of producing a summary of the remaining records; and
`upsert_spending` for the same batch inserts **zero** rows — after having
already deleted the meeting's previously persisted row — instead of
persisting the other record.  Both halves contradict the claim. -/
theorem C1_malformed_amount_counterexample :
    format_spending_for_newsletter
        [.obj [("vendor", .str "Acme"), ("amount", .num 1500 0), ("description", .str "paving")],
         .obj [("vendor", .str "Vendor Co"), ("amount", .str "12,000")]]
      = .error (.valueErr "could not convert string to float")
    ∧ upsert_spending true "m1"
        [.obj [("vendor", .str "Acme"), ("amount", .num 1500 0), ("description", .str "paving")],
         .obj [("vendor", .str "Vendor Co"), ("amount", .str "12,000")]]
        (some 2026) 2026
        [⟨"m1", .str "Old Vendor", .fin 1, .str "", .str "routine", .null, .null, 2025, .null⟩]
      = (0, []) :=
  ⟨rfl, rfl⟩

/-- **C1, amended.** When every accumulated spending record is a dict
whose `amount` field (defaulting to `0`) converts with `float`, the
Phase‑2 spending summary is produced over all the records and
`upsert_spending` inserts one row per record; a record with a
non-convertible amount instead raises `ValueError`/`TypeError` out of
`format_spending_for_newsletter` (aborting the batch) and makes
`upsert_spending` insert nothing for the meeting (its old rows already
deleted), per the counterexample. -/
theorem C1_numeric_amounts_flow_through (items : List Json) (mid : String)
    (fy : Option Int) (ny : Int) (table : List SpendRow)
    (h : ∀ s ∈ items, s.isObj = true ∧ ∃ f, rowAmountF s = .ok f) :
    (∃ t, format_spending_for_newsletter items = .ok t)
    ∧ (items ≠ [] → (upsert_spending true mid items fy ny table).1 = items.length) := by
  constructor
  · unfold format_spending_for_newsletter
    by_cases he : items.isEmpty
    · rw [if_pos he]
      exact ⟨_, rfl⟩
    · rw [if_neg he]
      obtain ⟨keyed, hkeyed, hsnd⟩ := @keyedMapM_ok items
        (fun s hs => by
          rw [spendSortKey_eq_rowAmountF]
          exact (h s hs).2)
      rw [hkeyed]
      simp only [exBind_ok]
      obtain ⟨lines, hlines, _⟩ := @mapM_ok_len _ _ (fun ks => fmtSpendLine ks.2)
        (sortDescByKey keyed)
        (fun ks hks => by
          have hmem : ks.2 ∈ items := by
            rw [← hsnd]
            exact List.mem_map_of_mem Prod.snd (mem_sortDescByKey hks)
          exact fmtSpendLine_ok (h ks.2 hmem).1 (h ks.2 hmem).2)
      rw [hlines]
      exact ⟨_, rfl⟩
  · intro hne
    unfold upsert_spending
    have hni : items.isEmpty = false := by
      cases items with
      | nil => exact absurd rfl hne
      | cons a t => rfl
    obtain ⟨rows, hrows, hlen⟩ := @mapM_ok_len _ _ (buildSpendRow mid fy ny)
      items (fun s hs => buildSpendRow_ok (h s hs).1 (h s hs).2 mid fy ny)
    simp only [hni, Bool.not_true, Bool.false_or, if_neg (by simp : ¬False), hrows]
    simp [hlen]

/-- **C1, witness.** The amended theorem at a one-record batch with a
numeric amount: the summary is produced and one row is inserted. -/
theorem C1_numeric_amounts_flow_through_witness :
    (∃ t, format_spending_for_newsletter
        [.obj [("vendor", .str "Acme"), ("amount", .num 1500 0)]] = .ok t)
    ∧ ([Json.obj [("vendor", .str "Acme"), ("amount", .num 1500 0)]] ≠ [] →
        (upsert_spending true "m1"
          [.obj [("vendor", .str "Acme"), ("amount", .num 1500 0)]]
          (some 2026) 2026 []).1 = 1) :=
  C1_numeric_amounts_flow_through
    [.obj [("vendor", .str "Acme"), ("amount", .num 1500 0)]] "m1" (some 2026) 2026 []
    (by
      intro s hs
      rw [List.mem_singleton] at hs
      subst hs
      exact ⟨rfl, _, rfl⟩)

/-! ## C10 — votes without an `unanimous` field default to unanimous -/

/-- Everything the filter keeps satisfied its predicate. -/
theorem filterJsonM_mem_pred {p : Json → Except PyErr Bool} :
    ∀ {vs l : List Json}, filterJsonM p vs = .ok l → ∀ x ∈ l, p x = .ok true := by
  intro vs
  induction vs with
  | nil =>
      intro l h
      simp only [filterJsonM] at h
      cases h
      simp
  | cons v t ih =>
      intro l h
      simp only [filterJsonM] at h
      cases hp : p v with
      | error e => rw [hp] at h; simp at h
      | ok b =>
          rw [hp] at h
          simp only [exBind_ok] at h
          cases hr : filterJsonM p t with
          | error e => rw [hr] at h; simp at h
          | ok r =>
              rw [hr] at h
              simp only [exBind_ok, exPure, Except.ok.injEq] at h
              subst h
              intro x hx
              cases b with
              | true =>
                  rcases List.mem_cons.mp hx with hx | hx
                  · subst hx; exact hp
                  · exact ih hr x hx
              | false => exact ih hr x hx

/-- Everything in the list whose predicate holds is kept. -/
theorem filterJsonM_mem_of {p : Json → Except PyErr Bool} :
    ∀ {vs l : List Json}, filterJsonM p vs = .ok l →
      ∀ x ∈ vs, p x = .ok true → x ∈ l := by
  intro vs
  induction vs with
  | nil => intro l _ x hx; simp at hx
  | cons v t ih =>
      intro l h x hx hpx
      simp only [filterJsonM] at h
      cases hp : p v with
      | error e => rw [hp] at h; simp at h
      | ok b =>
          rw [hp] at h
          simp only [exBind_ok] at h
          cases hr : filterJsonM p t with
          | error e => rw [hr] at h; simp at h
          | ok r =>
              rw [hr] at h
              simp only [exBind_ok, exPure, Except.ok.injEq] at h
              subst h
              rcases List.mem_cons.mp hx with hx | hx
              · subst hx
                rw [hpx] at hp
                cases hp
                simp
              · cases b with
                | true => exact List.mem_cons_of_mem v (ih hr x hx hpx)
                | false => exact ih hr x hx hpx

/-- **C10.** A vote dict with no `"unanimous"` key is classified as
unanimous by every consumer: `not v.get("unanimous", True)` is `False`, so
the Phase‑2 vote formatter leaves it out of the fully rendered noteworthy
list (and `main`'s noteworthy count, the length of that list, excludes
it) and puts it in the compact unanimous enumeration; `upsert_votes`
stores `unanimous = True` for it, and that row fails `get_dissent_summary`'s
`.eq("unanimous", False)` query filter, so it can never contribute to the
dissent summary. -/
theorem C10_missing_unanimous_defaults_true (v : Json) (mid : String)
    (ho : v.isObj = true) (hk : v.hasKey "unanimous" = false) :
    voteIsNoteworthy v = .ok false
    ∧ (∀ vs l, noteworthyVotes vs = .ok l → v ∉ l)
    ∧ (∀ vs l, unanimousVotes vs = .ok l → v ∈ vs → v ∈ l)
    ∧ (∀ vs, noteworthyCount vs = (noteworthyVotes vs).map List.length)
    ∧ (∃ row, buildVoteRow mid v = .ok row ∧ row.unanimous = .bool true
        ∧ dissentQueryKeeps row = false) := by
  obtain ⟨ps, rfl⟩ : ∃ ps, v = .obj ps := by
    cases v <;> simp [Json.isObj] at ho
    exact ⟨_, rfl⟩
  have hfind : Json.dictFind ps "unanimous" = none := by
    simp only [Json.hasKey] at hk
    cases hf : Json.dictFind ps "unanimous" with
    | none => rfl
    | some w => rw [hf] at hk; simp at hk
  have hnote : voteIsNoteworthy (.obj ps) = .ok false := by
    unfold voteIsNoteworthy
    simp [Json.pyGet, hfind, Json.pyTruthy]
  refine ⟨hnote, ?_, ?_, ?_, ?_⟩
  · intro vs l hl hmem
    have := filterJsonM_mem_pred hl _ hmem
    rw [hnote] at this
    cases this
  · intro vs l hl hmem
    refine filterJsonM_mem_of hl _ hmem ?_
    simp [Json.pyGet, hfind, Json.pyTruthy]
  · intro vs
    unfold noteworthyCount
    cases h : noteworthyVotes vs <;> simp [h, Except.map]
  · unfold buildVoteRow
    simp only [Json.pyGet, exBind_ok, hfind, Option.getD]
    exact ⟨_, rfl, rfl, rfl⟩

/-- **C10, witness.** The theorem at the concrete vote
`{"motion": "Approve minutes"}` (no `unanimous` field): it is not
noteworthy, lands in the unanimous partition of its singleton batch, and
its persisted row has `unanimous = True`, failing the dissent query. -/
theorem C10_missing_unanimous_defaults_true_witness :
    voteIsNoteworthy (.obj [("motion", .str "Approve minutes")]) = .ok false
    ∧ (∀ vs l, noteworthyVotes vs = .ok l → Json.obj [("motion", .str "Approve minutes")] ∉ l)
    ∧ (∀ vs l, unanimousVotes vs = .ok l →
        Json.obj [("motion", .str "Approve minutes")] ∈ vs →
        Json.obj [("motion", .str "Approve minutes")] ∈ l)
    ∧ (∀ vs, noteworthyCount vs = (noteworthyVotes vs).map List.length)
    ∧ (∃ row, buildVoteRow "m1" (.obj [("motion", .str "Approve minutes")]) = .ok row
        ∧ row.unanimous = .bool true ∧ dissentQueryKeeps row = false) :=
  C10_missing_unanimous_defaults_true (.obj [("motion", .str "Approve minutes")]) "m1" rfl rfl

/-! ## C3 / C4 — gateway retry, backoff, fallback -/

theorem callTarget_anthropic (m : String) : callTarget "anthropic" m = ("anthropic", m) := by
  simp [callTarget]

theorem haiku_not_sonnet : containsSub "claude-haiku-4-5" "sonnet" = false := rfl

/-- Same-model API calls never exceed the remaining attempt budget. -/
theorem callLLMGo_primary_count (env : GatewayEnv) (p m : String) (mr : Nat) :
    ∀ (left attempt cid : Nat),
      ((callLLMGo env p m mr left attempt cid).2.1.count (callTarget p m)) ≤ left := by
  intro left
  induction left with
  | zero => intro attempt cid; simp [callLLMGo]
  | succ l ih =>
      intro attempt cid
      unfold callLLMGo
      cases env.reply cid with
      | ok s => simp [List.count_cons]
      | exc e =>
          dsimp only
          by_cases h1 : (isRetryable e && decide (attempt < mr)) = true
          · rw [if_pos h1]
            have := ih (attempt + 1) (cid + 1)
            rcases hrec : callLLMGo env p m mr l (attempt + 1) (cid + 1) with ⟨out, cs, ws⟩
            rw [hrec] at this
            dsimp only at this
            simp only [hrec, List.count_cons_self]
            omega
          · rw [if_neg h1]
            by_cases h2 : (isRetryable e && decide (p = "anthropic")) = true
            · rw [if_pos h2]
              have hp : p = "anthropic" := by
                simp only [Bool.and_eq_true, decide_eq_true_eq] at h2
                exact h2.2
              by_cases hs : containsSub m "sonnet" = true
              · rw [if_pos hs]
                have hne : callTarget p m ≠ ("anthropic", "claude-haiku-4-5") := by
                  subst hp
                  rw [callTarget_anthropic]
                  intro hcon
                  have hm : m = "claude-haiku-4-5" := congrArg Prod.snd hcon
                  rw [hm] at hs
                  exact absurd hs (by rw [haiku_not_sonnet]; simp)
                cases hr : env.reply (cid + 1) <;>
                  simp [List.count_cons, hne, Ne.symm hne]
              · rw [if_neg hs]
                have hne : callTarget p m ≠ ("openai", "gpt-4o") := by
                  subst hp
                  rw [callTarget_anthropic]
                  intro hcon
                  exact absurd (congrArg Prod.fst hcon) (by simp)
                by_cases hk : env.openaiKey = true
                · rw [if_pos hk]
                  cases hr : env.reply (cid + 1) <;>
                    simp [List.count_cons, hne, Ne.symm hne]
                · rw [if_neg hk]
                  simp [List.count_cons]
            · rw [if_neg h2]
              simp [List.count_cons]

/-- The backoff waits recorded by the loop from attempt `a ≥ 1` onwards
are `30·2^(a-1)`, `30·2^a`, … (so from attempt 1: 30, 60, 120, …). -/
theorem callLLMGo_waits (env : GatewayEnv) (p m : String) (mr : Nat) :
    ∀ (left attempt cid : Nat), 1 ≤ attempt →
      (callLLMGo env p m mr left attempt cid).2.2
        = (List.range (callLLMGo env p m mr left attempt cid).2.2.length).map
            (fun k => 30 * 2 ^ (attempt - 1 + k)) := by
  intro left
  induction left with
  | zero => intro attempt cid _; simp [callLLMGo]
  | succ l ih =>
      intro attempt cid ha
      unfold callLLMGo
      cases env.reply cid with
      | ok s => simp
      | exc e =>
          dsimp only
          by_cases h1 : (isRetryable e && decide (attempt < mr)) = true
          · rw [if_pos h1]
            have hthis := ih (attempt + 1) (cid + 1) (by omega)
            rcases hrec : callLLMGo env p m mr l (attempt + 1) (cid + 1) with ⟨out, cs, ws⟩
            rw [hrec] at hthis
            dsimp only at hthis ⊢
            rw [hthis]
            simp only [List.length_cons, List.length_map, List.range_succ_eq_map,
              List.map_cons, List.map_map, Nat.add_zero, List.length_range]
            congr 1
            apply List.map_congr_left
            intro k _
            simp only [Function.comp_apply]
            congr 2
            omega
          · rw [if_neg h1]
            by_cases h2 : (isRetryable e && decide (p = "anthropic")) = true
            · rw [if_pos h2]
              by_cases hs : containsSub m "sonnet" = true
              · rw [if_pos hs]
                cases env.reply (cid + 1) <;> simp
              · rw [if_neg hs]
                by_cases hk : env.openaiKey = true
                · rw [if_pos hk]
                  cases env.reply (cid + 1) <;> simp
                · rw [if_neg hk]; simp
            · rw [if_neg h2]; simp

/-- `_call_llm` raises a non-transient first failure immediately: one API
call, no waits, no fallback. -/
theorem call_llm_nontransient (env : GatewayEnv) (p m : String) (mr cid : Nat) (e : String)
    (hmr : 1 ≤ mr) (he : env.reply cid = .exc e) (hnr : isRetryable e = false) :
    call_llm env p m mr cid = (.raised e, [callTarget p m], []) := by
  unfold call_llm
  cases mr with
  | zero => omega
  | succ n =>
      unfold callLLMGo
      rw [he]
      dsimp only
      simp [hnr]

/-- An all-transient prefix of the retry loop telescopes down to its final
iteration: the outcome is the final iteration's, and the trace is
`left - 1` primary calls followed by the final iteration's calls. -/
theorem callLLMGo_transient_telescope (env : GatewayEnv) (p m : String) (mr : Nat) :
    ∀ (left attempt cid : Nat), 1 ≤ left → attempt + left = mr + 1 →
      (∀ i, i + 1 < left → ∃ e, env.reply (cid + i) = .exc e ∧ isRetryable e = true) →
      (callLLMGo env p m mr left attempt cid).1
          = (callLLMGo env p m mr 1 mr (cid + left - 1)).1
      ∧ (callLLMGo env p m mr left attempt cid).2.1
          = List.replicate (left - 1) (callTarget p m)
              ++ (callLLMGo env p m mr 1 mr (cid + left - 1)).2.1 := by
  intro left
  induction left with
  | zero => intro attempt cid h; omega
  | succ l ih =>
      intro attempt cid _ hsum htr
      cases l with
      | zero =>
          have hat : attempt = mr := by omega
          subst hat
          simp
      | succ l' =>
          obtain ⟨e, he, hr⟩ := htr 0 (by omega)
          have hlt : attempt < mr := by omega
          have hrec := ih (attempt + 1) (cid + 1) (by omega) (by omega)
            (fun i hi => by
              have := htr (i + 1) (by omega)
              rwa [show cid + (i + 1) = cid + 1 + i by omega] at this)
          constructor
          · unfold callLLMGo
            rw [show cid + 0 = cid by omega] at he
            rw [he]
            dsimp only
            rw [if_pos (by simp [hr, hlt])]
            rcases hx : callLLMGo env p m mr (l' + 1) (attempt + 1) (cid + 1) with ⟨out, cs, ws⟩
            rw [hx] at hrec
            dsimp only at hrec ⊢
            rw [hrec.1, show cid + 1 + (l' + 1) - 1 = cid + (l' + 1 + 1) - 1 by omega]
            rfl
          · unfold callLLMGo
            rw [show cid + 0 = cid by omega] at he
            rw [he]
            dsimp only
            rw [if_pos (by simp [hr, hlt])]
            rcases hx : callLLMGo env p m mr (l' + 1) (attempt + 1) (cid + 1) with ⟨out, cs, ws⟩
            rw [hx] at hrec
            dsimp only at hrec ⊢
            rw [hrec.2, show cid + 1 + (l' + 1) - 1 = cid + (l' + 1 + 1) - 1 by omega,
              show l' + 1 + 1 - 1 = (l' + 1 - 1) + 1 by omega, List.replicate_succ]
            simp only [List.cons_append, List.cons.injEq, true_and]
            rfl

/-- The final loop iteration on a transient failure, Sonnet primary: one
Haiku fallback call decides the outcome. -/
theorem callLLMGo_last_sonnet (env : GatewayEnv) (m : String) (mr cid : Nat) (e : String)
    (he : env.reply cid = .exc e) (hr : isRetryable e = true)
    (hs : containsSub m "sonnet" = true) :
    callLLMGo env "anthropic" m mr 1 mr cid
      = ((match env.reply (cid + 1) with
          | .ok s => CallOutcome.success s
          | .exc e2 => CallOutcome.raised e2),
         [("anthropic", m), ("anthropic", "claude-haiku-4-5")], []) := by
  unfold callLLMGo
  rw [he]
  dsimp only
  rw [if_neg (by simp), if_pos (by simp [hr]), if_pos hs, callTarget_anthropic]
  cases env.reply (cid + 1) <;> rfl

/-- The final loop iteration on a transient failure, non-Sonnet Anthropic
primary with `OPENAI_API_KEY` set: one `gpt-4o` fallback call decides the
outcome. -/
theorem callLLMGo_last_openai_fb (env : GatewayEnv) (m : String) (mr cid : Nat) (e : String)
    (he : env.reply cid = .exc e) (hr : isRetryable e = true)
    (hs : containsSub m "sonnet" = false) (hk : env.openaiKey = true) :
    callLLMGo env "anthropic" m mr 1 mr cid
      = ((match env.reply (cid + 1) with
          | .ok s => CallOutcome.success s
          | .exc e2 => CallOutcome.raised e2),
         [("anthropic", m), ("openai", "gpt-4o")], []) := by
  unfold callLLMGo
  rw [he]
  dsimp only
  rw [if_neg (by simp), if_pos (by simp [hr]), if_neg (by simp [hs]), if_pos hk,
    callTarget_anthropic]
  cases env.reply (cid + 1) <;> rfl

/-- The final loop iteration on a transient failure, non-Sonnet Anthropic
primary with no OpenAI credential: the exception is re-raised. -/
theorem callLLMGo_last_nofb (env : GatewayEnv) (m : String) (mr cid : Nat) (e : String)
    (he : env.reply cid = .exc e) (hr : isRetryable e = true)
    (hs : containsSub m "sonnet" = false) (hk : env.openaiKey = false) :
    callLLMGo env "anthropic" m mr 1 mr cid
      = (.raised e, [("anthropic", m)], []) := by
  unfold callLLMGo
  rw [he]
  dsimp only
  rw [if_neg (by simp), if_pos (by simp [hr]), if_neg (by simp [hs]), if_neg (by simp [hk]),
    callTarget_anthropic]

/-- The final loop iteration on a transient failure, OpenAI primary: no
fallback branch exists, the exception is re-raised. -/
theorem callLLMGo_last_openai_primary (env : GatewayEnv) (m : String) (mr cid : Nat)
    (e : String) (he : env.reply cid = .exc e) :
    callLLMGo env "openai" m mr 1 mr cid = (.raised e, [("openai", m)], []) := by
  unfold callLLMGo
  rw [he]
  dsimp only
  rw [if_neg (by simp), if_neg (by simp), show callTarget "openai" m = ("openai", m) from rfl]

/-- **C4.** The gateway's retry discipline: (a) a first failure that is
not classified transient raises immediately — exactly one same-model API
call, no backoff wait, no fallback; (b) for *every* environment, the
number of API calls to the primary provider/model never exceeds the
configured `max_retries` (default 3); (c) the backoff waits slept between
same-model retries are exactly `30·2^(k-1)` after attempt `k`: 30, 60,
120, … time-units. -/
theorem C4_retry_bound_and_backoff :
    (∀ (env : GatewayEnv) (p m : String) (mr cid : Nat) (e : String),
        1 ≤ mr → env.reply cid = .exc e → isRetryable e = false →
        call_llm env p m mr cid = (.raised e, [callTarget p m], []))
    ∧ (∀ (env : GatewayEnv) (p m : String) (mr cid : Nat),
        ((call_llm env p m mr cid).2.1.count (callTarget p m)) ≤ mr)
    ∧ (∀ (env : GatewayEnv) (p m : String) (mr cid : Nat),
        (call_llm env p m mr cid).2.2
          = (List.range (call_llm env p m mr cid).2.2.length).map (fun k => 30 * 2 ^ k)) := by
  refine ⟨call_llm_nontransient, ?_, ?_⟩
  · intro env p m mr cid
    exact callLLMGo_primary_count env p m mr mr 1 cid
  · intro env p m mr cid
    have := callLLMGo_waits env p m mr mr 1 cid (by omega)
    simpa using this

/-- **C4, witness.** A non-transient failure (`401 auth`) at
`max_retries = 3`: one call, raised immediately, no waits; and the bound
and wait-shape conjuncts at the same concrete environment. -/
theorem C4_retry_bound_and_backoff_witness :
    call_llm ⟨fun _ => .exc "401 auth", false⟩ "anthropic" "claude-sonnet-4-5-20250514" 3 0
        = (.raised "401 auth", [("anthropic", "claude-sonnet-4-5-20250514")], [])
    ∧ ((call_llm ⟨fun _ => .exc "401 auth", false⟩ "anthropic" "claude-sonnet-4-5-20250514"
          3 0).2.1.count ("anthropic", "claude-sonnet-4-5-20250514")) ≤ 3
    ∧ (call_llm ⟨fun _ => .exc "401 auth", false⟩ "anthropic" "claude-sonnet-4-5-20250514"
          3 0).2.2
        = (List.range (call_llm ⟨fun _ => .exc "401 auth", false⟩ "anthropic"
            "claude-sonnet-4-5-20250514" 3 0).2.2.length).map (fun k => 30 * 2 ^ k) := by
  refine ⟨?_, ?_, ?_⟩
  · have h := C4_retry_bound_and_backoff.1 ⟨fun _ => .exc "401 auth", false⟩
      "anthropic" "claude-sonnet-4-5-20250514" 3 0 "401 auth" (by omega) rfl rfl
    rw [h]
    rfl
  · have h := C4_retry_bound_and_backoff.2.1 ⟨fun _ => .exc "401 auth", false⟩
      "anthropic" "claude-sonnet-4-5-20250514" 3 0
    simpa using h
  · exact C4_retry_bound_and_backoff.2.2 ⟨fun _ => .exc "401 auth", false⟩
      "anthropic" "claude-sonnet-4-5-20250514" 3 0

/-- **C3.** When the primary model fails transiently on every attempt,
`_call_llm` exhausts exactly `max_retries` same-model attempts (never
more) and then takes the single next step of the fixed fallback chain
that applies: a Sonnet primary falls back to Haiku on the same provider; a
non-Sonnet Anthropic primary falls back to the alternate provider's
`gpt-4o` when its credential is configured; with no credential, and
likewise for an OpenAI primary (the chain's last step), no fallback step
is available and the original (final-attempt) exception propagates. -/
theorem C3_exhausted_retries_fall_back :
    (∀ (env : GatewayEnv) (m : String) (mr cid : Nat),
        1 ≤ mr → containsSub m "sonnet" = true →
        (∀ i, i < mr → ∃ e, env.reply (cid + i) = .exc e ∧ isRetryable e = true) →
        (call_llm env "anthropic" m mr cid).2.1
            = List.replicate mr ("anthropic", m) ++ [("anthropic", "claude-haiku-4-5")]
        ∧ (call_llm env "anthropic" m mr cid).1
            = (match env.reply (cid + mr) with
               | .ok s => CallOutcome.success s
               | .exc e2 => CallOutcome.raised e2))
    ∧ (∀ (env : GatewayEnv) (m : String) (mr cid : Nat),
        1 ≤ mr → containsSub m "sonnet" = false → env.openaiKey = true →
        (∀ i, i < mr → ∃ e, env.reply (cid + i) = .exc e ∧ isRetryable e = true) →
        (call_llm env "anthropic" m mr cid).2.1
            = List.replicate mr ("anthropic", m) ++ [("openai", "gpt-4o")]
        ∧ (call_llm env "anthropic" m mr cid).1
            = (match env.reply (cid + mr) with
               | .ok s => CallOutcome.success s
               | .exc e2 => CallOutcome.raised e2))
    ∧ (∀ (env : GatewayEnv) (m : String) (mr cid : Nat) (e : String),
        1 ≤ mr → containsSub m "sonnet" = false → env.openaiKey = false →
        (∀ i, i < mr → ∃ e, env.reply (cid + i) = .exc e ∧ isRetryable e = true) →
        env.reply (cid + (mr - 1)) = .exc e →
        (call_llm env "anthropic" m mr cid).2.1 = List.replicate mr ("anthropic", m)
        ∧ (call_llm env "anthropic" m mr cid).1 = .raised e)
    ∧ (∀ (env : GatewayEnv) (m : String) (mr cid : Nat) (e : String),
        1 ≤ mr →
        (∀ i, i < mr → ∃ e, env.reply (cid + i) = .exc e ∧ isRetryable e = true) →
        env.reply (cid + (mr - 1)) = .exc e →
        (call_llm env "openai" m mr cid).2.1 = List.replicate mr ("openai", m)
        ∧ (call_llm env "openai" m mr cid).1 = .raised e) := by
  have harith : ∀ mr cid : Nat, 1 ≤ mr → cid + mr - 1 = cid + (mr - 1) := by
    intro mr cid h; omega
  have harith2 : ∀ mr cid : Nat, 1 ≤ mr → cid + (mr - 1) + 1 = cid + mr := by
    intro mr cid h; omega
  have hrep : ∀ (mr : Nat) (a : String × String) (l : List (String × String)), 1 ≤ mr →
      List.replicate (mr - 1) a ++ a :: l = List.replicate mr a ++ l := by
    intro mr a l h
    cases mr with
    | zero => omega
    | succ n => simp [List.replicate_succ']
  refine ⟨?_, ?_, ?_, ?_⟩
  · intro env m mr cid hmr hs htr
    obtain ⟨tel1, tel2⟩ := callLLMGo_transient_telescope env "anthropic" m mr mr 1 cid
      hmr (by omega) (fun i hi => htr i (by omega))
    obtain ⟨e, he, hr⟩ := htr (mr - 1) (by omega)
    rw [← harith mr cid hmr] at he
    have hlast := callLLMGo_last_sonnet env m mr (cid + mr - 1) e he hr hs
    unfold call_llm
    rw [tel2, tel1, hlast, callTarget_anthropic, harith mr cid hmr, harith2 mr cid hmr]
    exact ⟨hrep mr _ _ hmr, rfl⟩
  · intro env m mr cid hmr hs hk htr
    obtain ⟨tel1, tel2⟩ := callLLMGo_transient_telescope env "anthropic" m mr mr 1 cid
      hmr (by omega) (fun i hi => htr i (by omega))
    obtain ⟨e, he, hr⟩ := htr (mr - 1) (by omega)
    rw [← harith mr cid hmr] at he
    have hlast := callLLMGo_last_openai_fb env m mr (cid + mr - 1) e he hr hs hk
    unfold call_llm
    rw [tel2, tel1, hlast, callTarget_anthropic, harith mr cid hmr, harith2 mr cid hmr]
    exact ⟨hrep mr _ _ hmr, rfl⟩
  · intro env m mr cid e hmr hs hk htr he
    obtain ⟨e', he', hr'⟩ := htr (mr - 1) (by omega)
    have hee : e' = e := by
      rw [he] at he'
      cases he'
      rfl
    subst hee
    rw [← harith mr cid hmr] at he
    obtain ⟨tel1, tel2⟩ := callLLMGo_transient_telescope env "anthropic" m mr mr 1 cid
      hmr (by omega) (fun i hi => htr i (by omega))
    have hlast := callLLMGo_last_nofb env m mr (cid + mr - 1) e' he hr' hs hk
    unfold call_llm
    rw [tel2, tel1, hlast, callTarget_anthropic]
    constructor
    · rw [show List.replicate (mr - 1) ("anthropic", m) ++ [("anthropic", m)]
          = List.replicate (mr - 1) ("anthropic", m) ++ ("anthropic", m) :: [] from rfl,
        hrep mr _ _ hmr]
      simp
    · rfl
  · intro env m mr cid e hmr htr he
    obtain ⟨e', he', hr'⟩ := htr (mr - 1) (by omega)
    have hee : e' = e := by
      rw [he] at he'
      cases he'
      rfl
    subst hee
    rw [← harith mr cid hmr] at he
    obtain ⟨tel1, tel2⟩ := callLLMGo_transient_telescope env "openai" m mr mr 1 cid
      hmr (by omega) (fun i hi => htr i (by omega))
    have hlast := callLLMGo_last_openai_primary env m mr (cid + mr - 1) e' he
    unfold call_llm
    rw [tel2, tel1, hlast, show callTarget "openai" m = ("openai", m) from rfl]
    constructor
    · rw [show List.replicate (mr - 1) ("openai", m) ++ [("openai", m)]
          = List.replicate (mr - 1) ("openai", m) ++ ("openai", m) :: [] from rfl,
        hrep mr _ _ hmr]
      simp
    · rfl

/-- **C3, witness.** Sonnet failing transiently on all three attempts
(`connection reset`): three Sonnet calls, then exactly one Haiku fallback
call, which succeeds — the call returns `recovered` instead of raising. -/
theorem C3_exhausted_retries_fall_back_witness :
    (call_llm ⟨fun i => if i < 3 then .exc "connection reset" else .ok "recovered", false⟩
        "anthropic" "claude-sonnet-4-5-20250514" 3 0).2.1
      = List.replicate 3 ("anthropic", "claude-sonnet-4-5-20250514")
          ++ [("anthropic", "claude-haiku-4-5")]
    ∧ (call_llm ⟨fun i => if i < 3 then .exc "connection reset" else .ok "recovered", false⟩
        "anthropic" "claude-sonnet-4-5-20250514" 3 0).1 = .success "recovered" := by
  have h := C3_exhausted_retries_fall_back.1
    ⟨fun i => if i < 3 then .exc "connection reset" else .ok "recovered", false⟩
    "claude-sonnet-4-5-20250514" 3 0 (by omega) rfl
    (by
      intro i hi
      refine ⟨"connection reset", ?_, rfl⟩
      simp only [Nat.zero_add]
      rw [if_pos hi])
  exact ⟨h.1, h.2.trans rfl⟩

/-! ## C2 — one malformed line among valid lines -/

/-- Dropping one undecodable line from the loop changes nothing: the line
is skipped with only a logged warning. -/
theorem parseLogLines_skip_invalid (src bad : String) (hbad : lineFailsJson bad = true) :
    ∀ (A B : List String),
      parseLogLines (A ++ bad :: B) src = parseLogLines (A ++ B) src := by
  have hne : pyStrip bad ≠ "" := by
    unfold lineFailsJson at hbad
    simp only [Bool.and_eq_true, decide_eq_true_eq] at hbad
    exact hbad.1
  have hfail : ∃ e, json_loads (pyStrip bad) = .error e := by
    unfold lineFailsJson at hbad
    simp only [Bool.and_eq_true, Bool.not_eq_true'] at hbad
    cases hj : json_loads (pyStrip bad) with
    | error e => exact ⟨e, rfl⟩
    | ok v =>
        rw [hj] at hbad
        simp [Except.isOk, Except.toBool] at hbad
  obtain ⟨eb, heb⟩ := hfail
  have hstep : ∀ B : List String, parseLogLines (bad :: B) src = parseLogLines B src := by
    intro B
    simp only [parseLogLines]
    rw [if_neg hne, heb]
  intro A
  induction A with
  | nil => intro B; exact hstep B
  | cons a t ih =>
      intro B
      simp only [List.cons_append, parseLogLines, List.append_eq]
      by_cases hstrip : pyStrip a = ""
      · rw [if_pos hstrip, if_pos hstrip]
        exact ih B
      · rw [if_neg hstrip, if_neg hstrip]
        cases hl : json_loads (pyStrip a) with
        | error e => exact ih B
        | ok record =>
            dsimp only
            cases hset : record.pyItemSet "source_file" (.str src) with
            | error e => rfl
            | ok tagged => rw [ih B]

/-- When every line is non-blank and decodes to a dict, the loop returns
them all, in order, tagged with the source. -/
theorem parseLogLines_all_valid (src : String) :
    ∀ (lines : List String), (∀ l ∈ lines, lineParsesToDict l = true) →
      parseLogLines lines src = .ok (lines.map (taggedLineRecord src)) := by
  intro lines
  induction lines with
  | nil => intro _; rfl
  | cons l t ih =>
      intro h
      have hl := h l (by simp)
      simp only [lineParsesToDict, Bool.and_eq_true] at hl
      obtain ⟨hne, hobj⟩ := hl
      simp only [parseLogLines]
      rw [if_neg (by simpa using hne)]
      cases hj : json_loads (pyStrip l) with
      | error e => rw [hj] at hobj; simp at hobj
      | ok record =>
          rw [hj] at hobj
          obtain ⟨ps, rfl⟩ : ∃ ps, record = .obj ps := by
            cases record <;> simp at hobj
            exact ⟨_, rfl⟩
          rw [ih (fun x hx => h x (by simp [hx]))]
          simp only [Json.pyItemSet, List.map_cons]
          rw [show taggedLineRecord src l
              = .obj (Json.dictSet ps "source_file" (.str src)) from by
            unfold taggedLineRecord
            rw [hj]
            rfl]

/-- The shared one-malformed-line behaviour of `parse_votes` /
`parse_spending`, at the level of the common body `parseTaggedLog`. -/
theorem parseTaggedLog_one_malformed (tag out src : String) (body : List Char)
    (A B : List String) (bad : String)
    (hf : findFence tag.data out.data = some body)
    (hsplit : pySplitLines (pyStrip ⟨body⟩) = A ++ bad :: B)
    (hA : ∀ l ∈ A, lineParsesToDict l = true)
    (hB : ∀ l ∈ B, lineParsesToDict l = true)
    (hbad : lineFailsJson bad = true) :
    parseTaggedLog tag out src = .ok ((A ++ B).map (taggedLineRecord src)) := by
  unfold parseTaggedLog
  rw [hf]
  dsimp only
  by_cases hempty : pyStrip ⟨body⟩ = ""
  · rw [hempty] at hsplit
    have hnil : pySplitLines "" = [] := rfl
    rw [hnil] at hsplit
    exact absurd hsplit.symm (List.append_ne_nil_of_right_ne_nil A (by simp))
  · rw [if_neg hempty, hsplit, parseLogLines_skip_invalid src bad hbad,
      parseLogLines_all_valid src (A ++ B)
        (fun l hl => by
          rcases List.mem_append.mp hl with hl | hl
          · exact hA l hl
          · exact hB l hl)]

/-- **C2.** For every model output whose tagged fenced block consists of
valid record lines except exactly one line that fails to decode as JSON,
`parse_votes` (and `parse_spending`) returns all the valid records, in
order, tagged with the source — the malformed line is skipped with a
logged warning, nothing is raised — and the returned count equals the
number of valid lines. -/
theorem C2_malformed_line_skipped :
    (∀ (out src : String) (body : List Char) (A B : List String) (bad : String),
        findFence "```vote-log".data out.data = some body →
        pySplitLines (pyStrip ⟨body⟩) = A ++ bad :: B →
        (∀ l ∈ A, lineParsesToDict l = true) →
        (∀ l ∈ B, lineParsesToDict l = true) →
        lineFailsJson bad = true →
        parse_votes out src = .ok ((A ++ B).map (taggedLineRecord src))
        ∧ ∃ rs, parse_votes out src = .ok rs ∧ rs.length = A.length + B.length)
    ∧ (∀ (out src : String) (body : List Char) (A B : List String) (bad : String),
        findFence "```spending-log".data out.data = some body →
        pySplitLines (pyStrip ⟨body⟩) = A ++ bad :: B →
        (∀ l ∈ A, lineParsesToDict l = true) →
        (∀ l ∈ B, lineParsesToDict l = true) →
        lineFailsJson bad = true →
        parse_spending out src = .ok ((A ++ B).map (taggedLineRecord src))
        ∧ ∃ rs, parse_spending out src = .ok rs ∧ rs.length = A.length + B.length) := by
  constructor
  · intro out src body A B bad hf hsplit hA hB hbad
    have h := parseTaggedLog_one_malformed "```vote-log" out src body A B bad
      hf hsplit hA hB hbad
    exact ⟨h, _, h, by simp⟩
  · intro out src body A B bad hf hsplit hA hB hbad
    have h := parseTaggedLog_one_malformed "```spending-log" out src body A B bad
      hf hsplit hA hB hbad
    exact ⟨h, _, h, by simp⟩

/-- **C2, witness.** A `vote-log` block of two valid lines around the
undecodable line `not json`: both valid records come back tagged, the
malformed line is skipped, and the count is 2 (the number of valid
lines). -/
theorem C2_malformed_line_skipped_witness :
    parse_votes "```vote-log\n\x7b\"a\": 1\x7d\nnot json\n\x7b\"b\": 2\x7d\n```" "s.txt"
      = .ok [.obj [("a", .num 1 0), ("source_file", .str "s.txt")],
             .obj [("b", .num 2 0), ("source_file", .str "s.txt")]]
    ∧ ∃ rs, parse_votes "```vote-log\n\x7b\"a\": 1\x7d\nnot json\n\x7b\"b\": 2\x7d\n```" "s.txt"
        = .ok rs ∧ rs.length = 1 + 1 := by
  have h := C2_malformed_line_skipped.1
    "```vote-log\n\x7b\"a\": 1\x7d\nnot json\n\x7b\"b\": 2\x7d\n```" "s.txt"
    ("\x7b\"a\": 1\x7d\nnot json\n\x7b\"b\": 2\x7d\n").data
    ["\x7b\"a\": 1\x7d"] ["\x7b\"b\": 2\x7d"] "not json"
    rfl rfl
    (by
      intro l hl
      rw [List.mem_singleton] at hl
      subst hl
      rfl)
    (by
      intro l hl
      rw [List.mem_singleton] at hl
      subst hl
      rfl)
    rfl
  exact ⟨h.1.trans rfl, h.2⟩

/-! ## C8 — the repeat-vendors grouping -/

theorem pyEq_str_refl (v : String) : Json.pyEq (.str v) (.str v) = true := by
  simp [Json.pyEq]

theorem pyEq_str_right {k : Json} {v : String} (h : Json.pyEq k (.str v) = true) :
    k = .str v := by
  cases k <;> simp [Json.pyEq] at h <;> simp [h]

/-- The membership of `aggBump`'s result: every key is the bumped key or
one already present. -/
theorem aggBump_keys {k : Json} {amt : PyFloat} {row : Json} :
    ∀ {m : List (Json × AggEntry)} {b : Json × AggEntry},
      b ∈ aggBump m k amt row → b.1 = k ∨ b.1 ∈ m.map Prod.fst := by
  intro m
  induction m with
  | nil =>
      intro b hb
      simp only [aggBump, List.mem_singleton] at hb
      subst hb
      exact Or.inl rfl
  | cons hd t ih =>
      intro b hb
      obtain ⟨k', e⟩ := hd
      simp only [aggBump] at hb
      by_cases hk : Json.pyEq k' k = true
      · rw [if_pos hk] at hb
        rcases List.mem_cons.mp hb with hb | hb
        · subst hb; exact Or.inr (by simp)
        · exact Or.inr (by
            rw [List.map_cons]
            exact List.mem_cons_of_mem _ (List.mem_map_of_mem Prod.fst hb))
      · rw [if_neg hk] at hb
        rcases List.mem_cons.mp hb with hb | hb
        · subst hb; exact Or.inr (by simp)
        · rcases ih hb with hx | hx
          · exact Or.inl hx
          · exact Or.inr (by
              rw [List.map_cons]
              exact List.mem_cons_of_mem _ hx)

/-- `aggBump` updates in place (keeping the original key) or appends a key
that matched nothing; pairwise-distinct keys are preserved. -/
theorem aggBump_pairwise {k : Json} {amt : PyFloat} {row : Json} :
    ∀ {m : List (Json × AggEntry)},
      List.Pairwise (fun a b : Json × AggEntry => a.1.pyEq b.1 = false) m →
      List.Pairwise (fun a b : Json × AggEntry => a.1.pyEq b.1 = false)
        (aggBump m k amt row) := by
  intro m
  induction m with
  | nil => intro _; simp [aggBump]
  | cons hd t ih =>
      intro h
      obtain ⟨k', e⟩ := hd
      rw [List.pairwise_cons] at h
      simp only [aggBump]
      by_cases hk : Json.pyEq k' k = true
      · rw [if_pos hk]
        exact List.pairwise_cons.mpr ⟨h.1, h.2⟩
      · rw [if_neg hk]
        refine List.pairwise_cons.mpr ⟨?_, ih h.2⟩
        intro b hb
        rcases aggBump_keys hb with hx | hx
        · rw [hx]
          simpa using hk
        · obtain ⟨⟨kb, eb⟩, hmem, hfst⟩ := List.mem_map.mp hx
          have hrel := h.1 (kb, eb) hmem
          exact (show kb = b.1 from hfst) ▸ hrel

theorem pyEq_str_iff (a b : String) : (Json.pyEq (.str a) (.str b) = true) ↔ a = b := by
  simp [Json.pyEq]

/-- How one `aggBump` changes lookups under string keys. -/
theorem aggFind_aggBump_str (s v : String) (amt : PyFloat) (row : Json) :
    ∀ (m : List (Json × AggEntry)),
      aggFind (aggBump m (.str s) amt row) (.str v)
        = if s = v then
            match aggFind m (.str s) with
            | some e => some ⟨e.total.add amt, e.count + 1, e.items ++ [row]⟩
            | none => some ⟨PyFloat.add (.fin 0) amt, 1, [row]⟩
          else aggFind m (.str v) := by
  intro m
  induction m with
  | nil =>
      simp only [aggBump, aggFind]
      by_cases hsv : s = v
      · rw [if_pos ((pyEq_str_iff s v).mpr hsv), if_pos hsv]
      · rw [if_neg (fun h => hsv ((pyEq_str_iff s v).mp h)), if_neg hsv]
  | cons hd t ih =>
      obtain ⟨k', e'⟩ := hd
      simp only [aggBump]
      by_cases hk : Json.pyEq k' (.str s) = true
      · rw [if_pos hk]
        have hk' : k' = .str s := pyEq_str_right hk
        subst hk'
        simp only [aggFind]
        by_cases hsv : s = v
        · rw [if_pos ((pyEq_str_iff s v).mpr hsv), if_pos hsv,
            if_pos ((pyEq_str_iff s s).mpr rfl)]
        · rw [if_neg (fun h => hsv ((pyEq_str_iff s v).mp h)), if_neg hsv,
            if_neg (fun h => hsv ((pyEq_str_iff s v).mp h))]
      · rw [if_neg hk]
        simp only [aggFind]
        by_cases hkv : Json.pyEq k' (.str v) = true
        · have hk' : k' = .str v := pyEq_str_right hkv
          have hsv : ¬(s = v) := by
            intro h
            subst h
            exact hk hkv
          rw [if_pos hkv, if_neg hsv, if_pos hkv]
        · rw [if_neg hkv, if_neg hkv, ih]
          by_cases hsv : s = v
          · rw [if_pos hsv, if_pos hsv, if_neg hk]
          · rw [if_neg hsv, if_neg hsv]

/-- When no entry of the map matches a key, neither does any entry of a
filtered copy. -/
theorem aggFind_none_of_all {key : Json} :
    ∀ {m : List (Json × AggEntry)},
      (∀ b ∈ m, Json.pyEq b.1 key = false) → aggFind m key = none := by
  intro m
  induction m with
  | nil => intro _; rfl
  | cons hd t ih =>
      intro h
      obtain ⟨k', e'⟩ := hd
      simp only [aggFind]
      rw [if_neg (by
        have := h (k', e') (by simp)
        simp_all)]
      exact ih (fun b hb => h b (by simp [hb]))

theorem aggFind_some_all_tail {key : Json} :
    ∀ {m : List (Json × AggEntry)}, aggFind m key = none →
      ∀ b ∈ m, Json.pyEq b.1 key = false := by
  intro m
  induction m with
  | nil => intro _ b hb; simp at hb
  | cons hd t ih =>
      intro h b hb
      obtain ⟨k', e'⟩ := hd
      simp only [aggFind] at h
      by_cases hk : Json.pyEq k' key = true
      · rw [if_pos hk] at h
        cases h
      · rw [if_neg hk] at h
        rcases List.mem_cons.mp hb with hb | hb
        · subst hb
          simp_all
        · exact ih h b hb

/-- Looking a string key up in a filtered pairwise-distinct map: the
unique matching entry survives iff the filter keeps it. -/
theorem aggFind_filter_str {p : Json × AggEntry → Bool} {v : String} {e : AggEntry} :
    ∀ {m : List (Json × AggEntry)},
      List.Pairwise (fun a b : Json × AggEntry => a.1.pyEq b.1 = false) m →
      aggFind m (.str v) = some e →
      aggFind (m.filter p) (.str v) = if p (.str v, e) then some e else none := by
  intro m
  induction m with
  | nil => intro _ h; cases h
  | cons hd t ih =>
      intro hpw hfind
      obtain ⟨k', e'⟩ := hd
      rw [List.pairwise_cons] at hpw
      simp only [aggFind] at hfind
      by_cases hk : Json.pyEq k' (.str v) = true
      · rw [if_pos hk] at hfind
        cases hfind
        have hk' : k' = .str v := pyEq_str_right hk
        subst hk'
        by_cases hp : p (.str v, e) = true
        · rw [List.filter_cons_of_pos hp, if_pos hp]
          simp only [aggFind]
          rw [if_pos (pyEq_str_refl v)]
        · rw [List.filter_cons_of_neg (by simp [hp]), if_neg (by simp [hp])]
          refine aggFind_none_of_all ?_
          intro b hb
          have hbt : b ∈ t := List.mem_of_mem_filter hb
          by_cases hbv : Json.pyEq b.1 (.str v) = true
          · have : b.1 = .str v := pyEq_str_right hbv
            have hrel := hpw.1 b hbt
            rw [this] at hrel
            rw [pyEq_str_refl v] at hrel
            cases hrel
          · simpa using hbv
      · rw [if_neg hk] at hfind
        by_cases hp : p (k', e') = true
        · rw [List.filter_cons_of_pos hp]
          simp only [aggFind]
          rw [if_neg hk]
          exact ih hpw.2 hfind
        · rw [List.filter_cons_of_neg (by simp [hp])]
          exact ih hpw.2 hfind

/-- The `by_vendor` accumulation of `get_recent_spending_summary`,
characterised per string vendor key: each vendor's bucket totals, counts
and collects exactly its own rows, in order. -/
theorem spendSummaryGo_spec :
    ∀ (rows : List Json) (bv0 bp0 : List (Json × AggEntry)),
      (∀ r ∈ rows, r.isObj = true) →
      (∀ r ∈ rows, ∃ s : String, rowVendorD r = .str s) →
      (∀ r ∈ rows, ∃ q : ℚ, rowAmountF r = .ok (.fin q)) →
      List.Pairwise (fun a b : Json × AggEntry => a.1.pyEq b.1 = false) bv0 →
      ∃ bv bp, spendSummaryGo rows bv0 bp0 = .ok (bv, bp)
        ∧ List.Pairwise (fun a b : Json × AggEntry => a.1.pyEq b.1 = false) bv
        ∧ ∀ v : String,
            aggFind bv (.str v)
              = match aggFind bv0 (.str v) with
                | some e =>
                    some ⟨(rowsWithVendor rows v).foldl addAmt e.total,
                          e.count + (rowsWithVendor rows v).length,
                          e.items ++ rowsWithVendor rows v⟩
                | none =>
                    if (rowsWithVendor rows v).isEmpty then none
                    else some ⟨(rowsWithVendor rows v).foldl addAmt (.fin 0),
                               (rowsWithVendor rows v).length,
                               rowsWithVendor rows v⟩ := by
  intro rows
  induction rows with
  | nil =>
      intro bv0 bp0 _ _ _ hpw
      refine ⟨bv0, bp0, rfl, hpw, ?_⟩
      intro v
      cases hf : aggFind bv0 (.str v) with
      | some e => simp [rowsWithVendor]
      | none => simp [rowsWithVendor]
  | cons r rest ih =>
      intro bv0 bp0 ho hv ha hpw
      obtain ⟨s, hs⟩ := hv r (by simp)
      obtain ⟨q, hq⟩ := ha r (by simp)
      obtain ⟨ps, rfl⟩ : ∃ ps, r = .obj ps := by
        have := ho r (by simp)
        cases r <;> simp [Json.isObj] at this
        exact ⟨_, rfl⟩
      unfold rowAmountF at hq
      simp only [Json.pyGet, exBind_ok] at hq
      simp only [spendSummaryGo, Json.pyGet, exBind_ok, hq]
      have hvend : (Json.dictFind ps "vendor").getD (.str "Unknown") = .str s := hs
      rw [hvend]
      obtain ⟨bv, bp, hgo, hpw', hform⟩ := ih
        (aggBump bv0 (.str s) (.fin q) (.obj ps))
        (if ((Json.dictFind ps "project").getD Json.null).pyTruthy = true
          then aggBump bp0 ((Json.dictFind ps "project").getD Json.null) (.fin q) (.obj ps)
          else bp0)
        (fun x hx => ho x (by simp [hx]))
        (fun x hx => hv x (by simp [hx]))
        (fun x hx => ha x (by simp [hx]))
        (aggBump_pairwise hpw)
      refine ⟨bv, bp, by rw [← hgo], hpw', ?_⟩
      intro v
      have hRWV : rowsWithVendor (Json.obj ps :: rest) v
          = if s = v then Json.obj ps :: rowsWithVendor rest v
            else rowsWithVendor rest v := by
        unfold rowsWithVendor
        rw [List.filter_cons]
        by_cases hsv : s = v
        · rw [if_pos hsv, if_pos (by rw [hs]; exact (pyEq_str_iff s v).mpr hsv)]
        · rw [if_neg hsv,
            if_neg (by rw [hs]; exact fun h => hsv ((pyEq_str_iff s v).mp h))]
      have hamtD : rowAmountD (.obj ps) = .fin q := by
        unfold rowAmountD rowAmountF
        simp only [Json.pyGet, exBind_ok, hq]
      have haddA : addAmt (.fin 0) (.obj ps) = PyFloat.add (.fin 0) (.fin q) := by
        unfold addAmt
        rw [hamtD]
      rw [hform v, aggFind_aggBump_str, hRWV]
      by_cases hsv : s = v
      · rw [if_pos hsv, if_pos hsv]
        cases hf : aggFind bv0 (.str v) with
        | some e =>
            rw [show aggFind bv0 (.str s) = some e from hsv ▸ hf]
            simp only [List.foldl_cons, List.length_cons]
            rw [show addAmt e.total (.obj ps) = e.total.add (.fin q) from by
              unfold addAmt
              rw [hamtD]]
            simp only [Option.some.injEq, AggEntry.mk.injEq, List.append_assoc,
              List.singleton_append, and_true, true_and]
            omega
        | none =>
            rw [show aggFind bv0 (.str s) = none from hsv ▸ hf]
            dsimp only
            simp only [List.isEmpty_cons, Bool.false_eq_true, if_false,
              List.foldl_cons, List.length_cons, haddA,
              Option.some.injEq, AggEntry.mk.injEq, List.singleton_append,
              and_true, true_and]
            omega
      · rw [if_neg hsv, if_neg hsv]

/-- Folding `+= float(row["amount"])` over rows with finite amounts sums
the rationals. -/
theorem foldl_addAmt_fin :
    ∀ (l : List Json) (qs : List ℚ), l.map rowAmountD = qs.map PyFloat.fin →
      ∀ a : ℚ, l.foldl addAmt (.fin a) = .fin (a + qs.sum) := by
  intro l
  induction l with
  | nil =>
      intro qs h a
      cases qs with
      | nil => simp
      | cons q t => simp at h
  | cons r t ih =>
      intro qs h a
      cases qs with
      | nil => simp at h
      | cons q qt =>
          simp only [List.map_cons, List.cons.injEq] at h
          obtain ⟨h1, h2⟩ := h
          simp only [List.foldl_cons, List.sum_cons]
          rw [show addAmt (.fin a) r = .fin (a + q) from by
            unfold addAmt
            rw [h1]
            rfl]
          rw [ih qt h2 (a + q)]
          congr 1
          ring

/-- Under pairwise-distinct keys, membership determines the lookup. -/
theorem aggFind_of_mem_pairwise {v : String} {e : AggEntry} :
    ∀ {m : List (Json × AggEntry)},
      List.Pairwise (fun a b : Json × AggEntry => a.1.pyEq b.1 = false) m →
      (Json.str v, e) ∈ m → aggFind m (.str v) = some e := by
  intro m
  induction m with
  | nil => intro _ h; simp at h
  | cons hd t ih =>
      intro hpw hmem
      obtain ⟨k', e'⟩ := hd
      rcases List.mem_cons.mp hmem with heq | hmem'
      · injection heq with hk he
        subst hk
        subst he
        simp only [aggFind, pyEq_str_refl, if_pos]
      · have hne : Json.pyEq k' (.str v) = false :=
          (List.pairwise_cons.mp hpw).1 (Json.str v, e) hmem'
        simp only [aggFind, hne]
        exact ih (List.pairwise_cons.mp hpw).2 hmem'

/-- C8 (counterexample): a vendor does appear three times with amounts
100, 200 and 300 — totalled to 600 with count 3 in `by_vendor` — yet the
repeat-vendors grouping of `build_historical_context` is empty, because
the vendor string is the sentinel `"N/A"`, which the comprehension
excludes regardless of its count. -/
theorem C8_sentinel_vendor_counterexample :
    get_recent_spending_summary sentinelRows = .ok (naByVendor, [])
    ∧ (aggFind naByVendor (.str "N/A")).map (fun e => (e.total, e.count))
        = some (.fin 600, 3)
    ∧ repeatVendors naByVendor = [] := by
  refine ⟨rfl, ?_, rfl⟩
  have h6 : decToQ 100 0 + decToQ 200 0 + decToQ 300 0 = 600 := by
    norm_num [decToQ]
  simp [naByVendor, aggFind, pyEq_str_refl, h6]

/-- C8 (amended): over in-window spending rows whose vendors are strings
and whose amounts convert to finite floats, the repeat-vendors grouping of
`build_historical_context` (a) contains no entry for a vendor that appears
exactly once, and (b) for a vendor other than the sentinels `"N/A"` and
`"Unknown"` that appears three times with finite amounts, contains that
vendor with the summed total and count 3. -/
theorem C8_repeat_vendor_grouping
    (rows : List Json) (bv bp : List (Json × AggEntry))
    (ho : ∀ r ∈ rows, r.isObj = true)
    (hv : ∀ r ∈ rows, ∃ s : String, rowVendorD r = .str s)
    (ha : ∀ r ∈ rows, ∃ q : ℚ, rowAmountF r = .ok (.fin q))
    (hok : get_recent_spending_summary rows = .ok (bv, bp)) :
    (∀ v : String, (rowsWithVendor rows v).length = 1 →
        aggFind (repeatVendors bv) (.str v) = none)
    ∧ (∀ v : String, v ≠ "N/A" → v ≠ "Unknown" →
        ∀ q1 q2 q3 : ℚ,
          (rowsWithVendor rows v).map rowAmountD = [.fin q1, .fin q2, .fin q3] →
          ∃ e, aggFind (repeatVendors bv) (.str v) = some e
            ∧ e.total = .fin (q1 + q2 + q3) ∧ e.count = 3) := by
  obtain ⟨bv', bp', hgo, hpw, hform⟩ :=
    spendSummaryGo_spec rows [] [] ho hv ha List.Pairwise.nil
  rw [get_recent_spending_summary, hgo] at hok
  injection hok with hok
  injection hok with hbv hbp
  subst hbv
  constructor
  · intro v hlen
    have hne : (rowsWithVendor rows v).isEmpty = false := by
      rcases hrwv : rowsWithVendor rows v with _ | ⟨r, t⟩
      · rw [hrwv] at hlen; simp at hlen
      · rfl
    have hfind := hform v
    rw [show aggFind [] (Json.str v) = none from rfl] at hfind
    rw [hne] at hfind
    simp only [Bool.false_eq_true, if_false] at hfind
    rw [repeatVendors]
    rw [aggFind_filter_str hpw hfind]
    rw [if_neg]
    simp only [hlen]
    simp
  · intro v hna hunk q1 q2 q3 hmap
    have hlen3 : (rowsWithVendor rows v).length = 3 := by
      have := congrArg List.length hmap
      simpa using this
    have hne : (rowsWithVendor rows v).isEmpty = false := by
      rcases hrwv : rowsWithVendor rows v with _ | ⟨r, t⟩
      · rw [hrwv] at hlen3; simp at hlen3
      · rfl
    have hfind := hform v
    rw [show aggFind [] (Json.str v) = none from rfl] at hfind
    rw [hne] at hfind
    simp only [Bool.false_eq_true, if_false] at hfind
    have htot : (rowsWithVendor rows v).foldl addAmt (.fin 0)
        = .fin (q1 + q2 + q3) := by
      rw [foldl_addAmt_fin (rowsWithVendor rows v) [q1, q2, q3] (by simpa using hmap) 0]
      congr 1
      simp only [List.sum_cons, List.sum_nil]
      ring
    have hNA : (Json.str v).pyEq (Json.str "N/A") = false :=
      Bool.eq_false_iff.mpr (fun h => hna ((pyEq_str_iff v "N/A").mp h))
    have hUnk : (Json.str v).pyEq (Json.str "Unknown") = false :=
      Bool.eq_false_iff.mpr (fun h => hunk ((pyEq_str_iff v "Unknown").mp h))
    refine ⟨⟨.fin (q1 + q2 + q3), 3, rowsWithVendor rows v⟩, ?_, rfl, rfl⟩
    rw [htot, hlen3] at hfind
    rw [repeatVendors, aggFind_filter_str hpw hfind, if_pos (by simp [hNA, hUnk])]

/-- C8 witness: on four concrete rows — `"Acme"` three times with amounts
100, 200, 300 and `"Solo"` once — the amended grouping law holds. -/
theorem C8_repeat_vendor_grouping_witness :
    (∀ v : String, (rowsWithVendor acmeRows v).length = 1 →
        aggFind (repeatVendors acmeByVendor) (.str v) = none)
    ∧ (∀ v : String, v ≠ "N/A" → v ≠ "Unknown" →
        ∀ q1 q2 q3 : ℚ,
          (rowsWithVendor acmeRows v).map rowAmountD
              = [.fin q1, .fin q2, .fin q3] →
          ∃ e, aggFind (repeatVendors acmeByVendor) (.str v) = some e
            ∧ e.total = .fin (q1 + q2 + q3) ∧ e.count = 3) :=
  C8_repeat_vendor_grouping acmeRows acmeByVendor []
    (by
      intro r hr
      simp only [acmeRows, List.mem_cons, List.not_mem_nil, or_false] at hr
      rcases hr with rfl | rfl | rfl | rfl <;> rfl)
    (by
      intro r hr
      simp only [acmeRows, List.mem_cons, List.not_mem_nil, or_false] at hr
      rcases hr with rfl | rfl | rfl | rfl
      exacts [⟨"Acme", rfl⟩, ⟨"Solo", rfl⟩, ⟨"Acme", rfl⟩, ⟨"Acme", rfl⟩])
    (by
      intro r hr
      simp only [acmeRows, List.mem_cons, List.not_mem_nil, or_false] at hr
      rcases hr with rfl | rfl | rfl | rfl
      exacts [⟨decToQ 100 0, rfl⟩, ⟨decToQ 50 0, rfl⟩,
        ⟨decToQ 200 0, rfl⟩, ⟨decToQ 300 0, rfl⟩])
    rfl

/-! ## Round-trip of the JSON codec: digit groundwork -/

/-- A digit character produced by `digitCh` is in the digit class, with
the expected code point. -/
theorem digitCh_spec (d : Nat) (h : d < 10) :
    isDigitCh (digitCh d) = true ∧ (digitCh d).toNat = '0'.toNat + d := by
  interval_cases d <;> exact ⟨by decide, by decide⟩

/-- `natDigitsGo` only prepends onto its accumulator. -/
theorem natDigitsGo_append :
    ∀ (f n : Nat) (acc : List Char),
      natDigitsGo f n acc = natDigitsGo f n [] ++ acc := by
  intro f
  induction f with
  | zero => intro n acc; rfl
  | succ f ih =>
      intro n acc
      by_cases h : n < 10
      · simp only [natDigitsGo, if_pos h]
        rfl
      · simp only [natDigitsGo, if_neg h]
        rw [ih (n / 10) (digitCh (n % 10) :: acc), ih (n / 10) [digitCh (n % 10)]]
        simp

/-- Every character `natDigitsGo` emits is a digit. -/
theorem natDigitsGo_digits :
    ∀ (f n : Nat) (c : Char), c ∈ natDigitsGo f n [] → isDigitCh c = true := by
  intro f
  induction f with
  | zero => intro n c hc; simp [natDigitsGo] at hc
  | succ f ih =>
      intro n c hc
      by_cases h : n < 10
      · simp only [natDigitsGo, if_pos h] at hc
        have hcd : c = digitCh n := by simpa using hc
        exact hcd ▸ (digitCh_spec n h).1
      · simp only [natDigitsGo, if_neg h] at hc
        rw [natDigitsGo_append] at hc
        rcases List.mem_append.mp hc with hc | hc
        · exact ih (n / 10) c hc
        · have : c = digitCh (n % 10) := by simpa using hc
          exact this ▸ (digitCh_spec (n % 10) (Nat.mod_lt n (by omega))).1

/-- `natDigitsGo` with positive fuel emits at least one character. -/
theorem natDigitsGo_ne_nil (f n : Nat) : natDigitsGo (f + 1) n [] ≠ [] := by
  by_cases h : n < 10
  · simp only [natDigitsGo, if_pos h]
    exact List.cons_ne_nil _ _
  · simp only [natDigitsGo, if_neg h]
    rw [natDigitsGo_append]
    simp

/-- `digitsVal` distributes over append as a fold continuation. -/
theorem digitsVal_append (ds es : List Char) :
    digitsVal (ds ++ es)
      = es.foldl (fun acc c => acc * 10 + (c.toNat - '0'.toNat)) (digitsVal ds) := by
  simp [digitsVal, List.foldl_append]

/-- `digitsVal` inverts `natDigitsGo` when the fuel covers the number. -/
theorem natDigitsGo_val :
    ∀ (f n : Nat), n < 10 ^ f → digitsVal (natDigitsGo f n []) = n := by
  intro f
  induction f with
  | zero =>
      intro n hn
      simp at hn
      subst hn
      rfl
  | succ f ih =>
      intro n hn
      by_cases h : n < 10
      · simp only [natDigitsGo, if_pos h]
        have := (digitCh_spec n h).2
        simp [digitsVal, this]
      · simp only [natDigitsGo, if_neg h]
        rw [natDigitsGo_append, digitsVal_append]
        have hdiv : n / 10 < 10 ^ f := by
          apply Nat.div_lt_of_lt_mul
          rw [← pow_succ']
          exact hn
        rw [ih (n / 10) hdiv]
        have := (digitCh_spec (n % 10) (Nat.mod_lt n (by omega))).2
        simp only [List.foldl_cons, List.foldl_nil, this]
        omega

/-- The mantissa/exponent digits of `natDigits` decode to the number. -/
theorem digitsVal_natDigits (n : Nat) : digitsVal (natDigits n) = n := by
  unfold natDigits
  exact natDigitsGo_val (n + 1) n (by
    calc n < 10 ^ n := Nat.lt_pow_self (by omega) n
    _ ≤ 10 ^ (n + 1) := Nat.pow_le_pow_right (by omega) (by omega))

/-- `natDigits` is never empty. -/
theorem natDigits_ne_nil (n : Nat) : natDigits n ≠ [] := natDigitsGo_ne_nil n n

/-- `natDigits` is all digits. -/
theorem natDigits_digits (n : Nat) (c : Char) (hc : c ∈ natDigits n) :
    isDigitCh c = true := natDigitsGo_digits (n + 1) n c hc

/-- `grabDigits` consumes exactly a leading all-digit run when what
follows does not start with a digit. -/
theorem grabDigits_exact :
    ∀ (ds rest : List Char), (∀ c ∈ ds, isDigitCh c = true) →
      noDigitHead rest = true → grabDigits (ds ++ rest) = (ds, rest) := by
  intro ds
  induction ds with
  | nil =>
      intro rest _ hrest
      cases rest with
      | nil => rfl
      | cons c t =>
          simp only [noDigitHead, Bool.not_eq_true'] at hrest
          simp only [List.nil_append, grabDigits, hrest]
          rfl
  | cons d ds ih =>
      intro rest hds hrest
      have hd : isDigitCh d = true := hds d (by simp)
      simp only [List.cons_append, grabDigits, hd, if_pos, List.append_eq]
      rw [ih rest (fun c hc => hds c (by simp [hc])) hrest]

/-- A digit character is neither sign. -/
theorem digit_not_sign {c : Char} (h : isDigitCh c = true) : c ≠ '+' ∧ c ≠ '-' := by
  constructor <;> intro he <;> subst he <;> simp [isDigitCh] at h

/-- Leading `'0'` does not change a digit string's value. -/
theorem digitsVal_zero_cons (ds : List Char) : digitsVal ('0' :: ds) = digitsVal ds := rfl


/-- `scanSign` on input that does not start with `'-'`. -/
theorem scanSign_not_minus {c : Char} (h : c ≠ '-') (t : List Char) :
    scanSign (c :: t) = (false, c :: t) := by
  simp only [scanSign]
  split
  · next r heq =>
      exact absurd (List.head_eq_of_cons_eq heq) h
  · rfl

/-- `NUMBER_RE` inverts `numChars` exactly when no digit follows. -/
theorem scanNumber_numChars (m e : Int) (rest : List Char)
    (hrest : noDigitHead rest = true) :
    scanNumber (numChars m e ++ rest) = some ((m, e), rest) := by
  obtain ⟨d0, D', hDc⟩ := List.exists_cons_of_ne_nil (natDigits_ne_nil m.natAbs)
  obtain ⟨c0, C', hCc⟩ := List.exists_cons_of_ne_nil
    (natDigits_ne_nil (e + ((natDigits m.natAbs).length : Int)).natAbs)
  have hc0 : isDigitCh c0 = true := by
    apply natDigits_digits
    rw [hCc]
    simp
  obtain ⟨hc0p, hc0m⟩ := digit_not_sign hc0
  have hgD := grabDigits_exact (natDigits m.natAbs)
    ('e' :: intChars (e + ((natDigits m.natAbs).length : Int)) ++ rest)
    (fun c hc => natDigits_digits _ c hc) rfl
  have hgE := grabDigits_exact (natDigits (e + ((natDigits m.natAbs).length : Int)).natAbs)
    rest (fun c hc => natDigits_digits _ c hc) hrest
  by_cases hm : m < 0
  · by_cases hE : e + ((natDigits m.natAbs).length : Int) < 0
    · have hIc : intChars (e + ((natDigits m.natAbs).length : Int))
          = '-' :: natDigits (e + ((natDigits m.natAbs).length : Int)).natAbs := by
        simp [intChars, if_pos hE]
      rw [show numChars m e ++ rest
          = '-' :: '0' :: '.' :: (natDigits m.natAbs
              ++ 'e' :: intChars (e + ((natDigits m.natAbs).length : Int)) ++ rest) from by
        simp [numChars, if_pos hm, List.append_assoc]]
      simp only [scanNumber, scanSign]
      simp only [List.append_assoc, List.cons_append] at hgD ⊢
      rw [hgD, hIc, hCc, hDc]
      dsimp only
      simp only [List.cons_append, List.nil_append]
      rw [show grabDigits (c0 :: (C' ++ rest)) = (c0 :: C', rest) from by
        rw [← List.cons_append, ← hCc]
        exact hgE]
      dsimp only
      simp only [if_true]
      rw [digitsVal_zero_cons, ← hDc, ← hCc, digitsVal_natDigits, digitsVal_natDigits]
      simp only [Option.some.injEq, Prod.mk.injEq, and_true]
      constructor <;> omega
    · have hIc : intChars (e + ((natDigits m.natAbs).length : Int))
          = natDigits (e + ((natDigits m.natAbs).length : Int)).natAbs := by
        simp [intChars, if_neg hE]
      rw [show numChars m e ++ rest
          = '-' :: '0' :: '.' :: (natDigits m.natAbs
              ++ 'e' :: intChars (e + ((natDigits m.natAbs).length : Int)) ++ rest) from by
        simp [numChars, if_pos hm, List.append_assoc]]
      simp only [scanNumber, scanSign]
      simp only [List.append_assoc, List.cons_append] at hgD ⊢
      rw [hgD, hIc, hCc, hDc]
      dsimp only
      simp only [List.cons_append, List.nil_append, if_true]
      split
      · next r1 heq =>
          exact absurd (List.head_eq_of_cons_eq heq) hc0p
      · next r1 heq =>
          exact absurd (List.head_eq_of_cons_eq heq) hc0m
      · rw [show grabDigits (c0 :: (C' ++ rest)) = (c0 :: C', rest) from by
          rw [← List.cons_append, ← hCc]
          exact hgE]
        dsimp only
        rw [digitsVal_zero_cons, ← hDc, ← hCc, digitsVal_natDigits, digitsVal_natDigits]
        simp only [Option.some.injEq, Prod.mk.injEq, and_true]
        constructor <;> omega
  · by_cases hE : e + ((natDigits m.natAbs).length : Int) < 0
    · have hIc : intChars (e + ((natDigits m.natAbs).length : Int))
          = '-' :: natDigits (e + ((natDigits m.natAbs).length : Int)).natAbs := by
        simp [intChars, if_pos hE]
      rw [show numChars m e ++ rest
          = '0' :: '.' :: (natDigits m.natAbs
              ++ 'e' :: intChars (e + ((natDigits m.natAbs).length : Int)) ++ rest) from by
        simp [numChars, if_neg hm, List.append_assoc]]
      simp only [scanNumber]
      rw [scanSign_not_minus (by decide)]
      simp only [List.append_assoc, List.cons_append] at hgD ⊢
      rw [hgD, hIc, hCc, hDc]
      dsimp only
      simp only [List.cons_append, List.nil_append]
      rw [show grabDigits (c0 :: (C' ++ rest)) = (c0 :: C', rest) from by
        rw [← List.cons_append, ← hCc]
        exact hgE]
      dsimp only
      simp only [Bool.false_eq_true, if_false]
      rw [digitsVal_zero_cons, ← hDc, ← hCc, digitsVal_natDigits, digitsVal_natDigits]
      simp only [Option.some.injEq, Prod.mk.injEq, and_true]
      constructor <;> omega
    · have hIc : intChars (e + ((natDigits m.natAbs).length : Int))
          = natDigits (e + ((natDigits m.natAbs).length : Int)).natAbs := by
        simp [intChars, if_neg hE]
      rw [show numChars m e ++ rest
          = '0' :: '.' :: (natDigits m.natAbs
              ++ 'e' :: intChars (e + ((natDigits m.natAbs).length : Int)) ++ rest) from by
        simp [numChars, if_neg hm, List.append_assoc]]
      simp only [scanNumber]
      rw [scanSign_not_minus (by decide)]
      simp only [List.append_assoc, List.cons_append] at hgD ⊢
      rw [hgD, hIc, hCc, hDc]
      dsimp only
      simp only [List.cons_append, List.nil_append, Bool.false_eq_true, if_false]
      split
      · next r1 heq =>
          exact absurd (List.head_eq_of_cons_eq heq) hc0p
      · next r1 heq =>
          exact absurd (List.head_eq_of_cons_eq heq) hc0m
      · rw [show grabDigits (c0 :: (C' ++ rest)) = (c0 :: C', rest) from by
          rw [← List.cons_append, ← hCc]
          exact hgE]
        dsimp only
        rw [digitsVal_zero_cons, ← hDc, ← hCc, digitsVal_natDigits, digitsVal_natDigits]
        simp only [Option.some.injEq, Prod.mk.injEq, and_true]
        constructor <;> omega

/-- Every escape is at least one character long. -/
theorem escChar_length_pos (c : Char) : 1 ≤ (escChar c).length := by
  unfold escChar
  split_ifs <;> simp

/-- `hexDigitVal` inverts `hexCh` on a nibble. -/
theorem hexDigitVal_hexCh (n : Nat) (h : n < 16) : hexDigitVal (hexCh n) = some n := by
  interval_cases n <;> decide

/-- `py_scanstring` step: closing quote. -/
theorem scanStrAux_quote (f : Nat) (acc r : List Char) :
    scanStrAux (f + 1) acc ('"' :: r) = .ok (⟨acc.reverse⟩, r) := rfl

/-- `py_scanstring` step: `\u` escape head. -/
theorem scanStrAux_u (f : Nat) (acc : List Char) (a b c d : Char) (r : List Char) :
    scanStrAux (f + 1) acc ('\\' :: 'u' :: a :: b :: c :: d :: r)
      = match hexQuad a b c d with
        | none => .error "Invalid hex escape"
        | some n =>
          if 0xD800 ≤ n && n < 0xDC00 then
            match r with
            | '\\' :: 'u' :: a2 :: b2 :: c2 :: d2 :: r2 =>
                (match hexQuad a2 b2 c2 d2 with
                | some n2 =>
                    if 0xDC00 ≤ n2 && n2 < 0xE000 then
                      scanStrAux f
                        (Char.ofNat (0x10000 + (n - 0xD800) * 0x400 + (n2 - 0xDC00)) :: acc) r2
                    else scanStrAux f ((Char.ofNat 0xFFFD) :: acc) r
                | none => scanStrAux f ((Char.ofNat 0xFFFD) :: acc) r)
            | _ => scanStrAux f ((Char.ofNat 0xFFFD) :: acc) r
          else if 0xDC00 ≤ n && n < 0xE000 then scanStrAux f ((Char.ofNat 0xFFFD) :: acc) r
          else scanStrAux f (Char.ofNat n :: acc) r := rfl

/-- `py_scanstring` step: short escape. -/
theorem scanStrAux_esc (f : Nat) (acc : List Char) (e : Char) (he : e ≠ 'u')
    (r : List Char) :
    scanStrAux (f + 1) acc ('\\' :: e :: r)
      = match escMap e with
        | some c => scanStrAux f (c :: acc) r
        | none => .error "Invalid escape" := by
  conv_lhs => unfold scanStrAux
  split
  · next heq => exact absurd heq (Nat.succ_ne_zero f)
  · next heq1 heq => exact absurd (List.head_eq_of_cons_eq heq) (by decide)
  · next heq1 heq =>
      exact absurd (List.head_eq_of_cons_eq (List.tail_eq_of_cons_eq heq)) he
  · next heq1 heq =>
      injection heq with h1 h2
      injection h2 with h3 h4
      subst h3
      subst h4
      injection heq1 with h5
      subst h5
      rfl
  · next hq hu hesc heq1 heq =>
      exact (hesc e r (List.head_eq_of_cons_eq heq).symm
        (List.tail_eq_of_cons_eq heq).symm).elim
  · next heq1 heq => simp at heq

/-- `py_scanstring` step: plain character. -/
theorem scanStrAux_plain (f : Nat) (acc : List Char) (c : Char) (hq : c ≠ '"')
    (hb : c ≠ '\\') (r : List Char) :
    scanStrAux (f + 1) acc (c :: r)
      = if c.toNat < 0x20 then .error "Invalid control character"
        else scanStrAux f (c :: acc) r := by
  conv_lhs => unfold scanStrAux
  split
  · next heq => exact absurd heq (Nat.succ_ne_zero f)
  · next heq1 heq => exact absurd (List.head_eq_of_cons_eq heq) hq
  · next heq1 heq => exact absurd (List.head_eq_of_cons_eq heq) hb
  · next heq1 heq => exact absurd (List.head_eq_of_cons_eq heq) hb
  · next hq2 hu2 hesc2 heq1 heq =>
      injection heq with h1 h2
      subst h1
      subst h2
      injection heq1 with h5
      subst h5
      rfl
  · next heq1 heq => simp at heq

/-- `py_scanstring` undoes `escChar` escaping, character by character. -/
theorem scanStrAux_rt :
    ∀ (cs : List Char) (fuel : Nat) (acc rest : List Char),
      (cs.flatMap escChar).length < fuel →
      scanStrAux fuel acc (cs.flatMap escChar ++ '"' :: rest)
        = .ok (⟨acc.reverse ++ cs⟩, rest) := by
  intro cs
  induction cs with
  | nil =>
      intro fuel acc rest hf
      cases fuel with
      | zero => simp at hf
      | succ f =>
          simp only [List.flatMap_nil, List.nil_append]
          rw [scanStrAux_quote]
          simp
  | cons c cs ih =>
      intro fuel acc rest hf
      have hlen : (escChar c).length + ((cs.flatMap escChar).length) < fuel + 1 := by
        have : ((c :: cs).flatMap escChar).length
            = (escChar c).length + (cs.flatMap escChar).length := by
          simp [List.flatMap_cons]
        omega
      cases fuel with
      | zero => simp at hf
      | succ f =>
          have hfc : (cs.flatMap escChar).length < f := by
            have := escChar_length_pos c
            have h2 : ((c :: cs).flatMap escChar).length
                = (escChar c).length + (cs.flatMap escChar).length := by
              simp [List.flatMap_cons]
            omega
          have hstep : ∀ acc2, scanStrAux f acc2 (cs.flatMap escChar ++ '"' :: rest)
              = .ok (⟨acc2.reverse ++ cs⟩, rest) := fun acc2 => ih f acc2 rest hfc
          simp only [List.flatMap_cons, List.append_assoc, List.cons_append]
          by_cases h1 : c = '"'
          · subst h1
            rw [show escChar '"' = ['\\', '"'] from rfl]
            simp only [List.cons_append, List.nil_append]
            rw [scanStrAux_esc f _ '"' (by decide) _]
            rw [show escMap '"' = some '"' from rfl]
            dsimp only
            rw [hstep]
            simp
          · by_cases h2 : c = '\\'
            · subst h2
              rw [show escChar '\\' = ['\\', '\\'] from rfl]
              simp only [List.cons_append, List.nil_append]
              rw [scanStrAux_esc f _ '\\' (by decide) _]
              rw [show escMap '\\' = some '\\' from rfl]
              dsimp only
              rw [hstep]
              simp
            · by_cases h3 : c = '\n'
              · subst h3
                rw [show escChar '\n' = ['\\', 'n'] from rfl]
                simp only [List.cons_append, List.nil_append]
                rw [scanStrAux_esc f _ 'n' (by decide) _]
                rw [show escMap 'n' = some '\n' from rfl]
                dsimp only
                rw [hstep]
                simp
              · by_cases h4 : c = '\t'
                · subst h4
                  rw [show escChar '\t' = ['\\', 't'] from rfl]
                  simp only [List.cons_append, List.nil_append]
                  rw [scanStrAux_esc f _ 't' (by decide) _]
                  rw [show escMap 't' = some '\t' from rfl]
                  dsimp only
                  rw [hstep]
                  simp
                · by_cases h5 : c = '\r'
                  · subst h5
                    rw [show escChar '\r' = ['\\', 'r'] from rfl]
                    simp only [List.cons_append, List.nil_append]
                    rw [scanStrAux_esc f _ 'r' (by decide) _]
                    rw [show escMap 'r' = some '\r' from rfl]
                    dsimp only
                    rw [hstep]
                    simp
                  · by_cases h6 : c = Char.ofNat 8
                    · subst h6
                      rw [show escChar (Char.ofNat 8) = ['\\', 'b'] from rfl]
                      simp only [List.cons_append, List.nil_append]
                      rw [scanStrAux_esc f _ 'b' (by decide) _]
                      rw [show escMap 'b' = some (Char.ofNat 8) from rfl]
                      dsimp only
                      rw [hstep]
                      simp
                    · by_cases h7 : c = Char.ofNat 12
                      · subst h7
                        rw [show escChar (Char.ofNat 12) = ['\\', 'f'] from rfl]
                        simp only [List.cons_append, List.nil_append]
                        rw [scanStrAux_esc f _ 'f' (by decide) _]
                        rw [show escMap 'f' = some (Char.ofNat 12) from rfl]
                        dsimp only
                        rw [hstep]
                        simp
                      · by_cases h8 : c.toNat < 0x20
                        · rw [show escChar c = ['\\', 'u', '0', '0',
                              hexCh (c.toNat / 16), hexCh (c.toNat % 16)] from by
                            unfold escChar
                            rw [if_neg h1, if_neg h2, if_neg h3, if_neg h4, if_neg h5,
                              if_neg h6, if_neg h7, if_pos h8]]
                          simp only [List.cons_append, List.nil_append]
                          rw [scanStrAux_u]
                          rw [show hexQuad '0' '0' (hexCh (c.toNat / 16)) (hexCh (c.toNat % 16))
                              = some c.toNat from by
                            unfold hexQuad
                            rw [show hexDigitVal '0' = some 0 from rfl,
                              hexDigitVal_hexCh (c.toNat / 16) (by omega),
                              hexDigitVal_hexCh (c.toNat % 16) (by omega)]
                            refine congrArg some ?_
                            omega]
                          dsimp only
                          rw [if_neg (by intro hcon; simp at hcon; omega),
                            if_neg (by intro hcon; simp at hcon; omega)]
                          rw [Char.ofNat_toNat, hstep]
                          simp
                        · rw [show escChar c = [c] from by
                            unfold escChar
                            rw [if_neg h1, if_neg h2, if_neg h3, if_neg h4, if_neg h5,
                              if_neg h6, if_neg h7, if_neg h8]]
                          simp only [List.cons_append, List.nil_append]
                          rw [scanStrAux_plain f acc c h1 h2]
                          rw [if_neg h8, hstep]
                          simp

/-- `scanStr` undoes `strBody` escaping, returning the original string. -/
theorem scanStr_rt (s : String) (rest : List Char) :
    scanStr (strBody s ++ '"' :: rest) = .ok (s, rest) := by
  unfold scanStr
  have h := scanStrAux_rt s.data ((strBody s ++ '"' :: rest).length + 1) [] rest
    (by simp [strBody]; omega)
  unfold strBody at h ⊢
  rw [h]
  simp

/-- `_scan_once` step: string. -/
theorem jscan_str (f : Nat) (r : List Char) :
    jscan (f + 1) ('"' :: r)
      = match scanStr r with
        | .ok (s, r') => .ok (.str s, r')
        | .error e => .error e := rfl

/-- `_scan_once` step: array open. -/
theorem jscan_arr (f : Nat) (r : List Char) :
    jscan (f + 1) ('[' :: r)
      = match jdropWs r with
        | ']' :: r2 => .ok (.arr [], r2)
        | r2 => jitems f r2 [] := rfl

/-- `_scan_once` step: object open. -/
theorem jscan_obj (f : Nat) (r : List Char) :
    jscan (f + 1) ('{' :: r)
      = match jdropWs r with
        | '}' :: r2 => .ok (.obj [], r2)
        | r2 => jpairs f r2 [] := rfl

/-- `_scan_once` step: a number beginning with a minus and a zero. -/
theorem jscan_num_neg (f : Nat) (t : List Char) :
    jscan (f + 1) ('-' :: '0' :: t)
      = match scanNumber ('-' :: '0' :: t) with
        | some ((m, e), r) => .ok (.num m e, r)
        | none => .error "Expecting value" := rfl

/-- `_scan_once` step: a number beginning with a zero. -/
theorem jscan_num_pos (f : Nat) (t : List Char) :
    jscan (f + 1) ('0' :: t)
      = match scanNumber ('0' :: t) with
        | some ((m, e), r) => .ok (.num m e, r)
        | none => .error "Expecting value" := rfl

/-- `JSONArray` loop step. -/
theorem jitems_succ (f : Nat) (cs : List Char) (acc : List Json) :
    jitems (f + 1) cs acc
      = match jscan f cs with
        | .error e => .error e
        | .ok (v, r) =>
          match jdropWs r with
          | ',' :: r2 => jitems f (jdropWs r2) (acc ++ [v])
          | ']' :: r2 => .ok (.arr (acc ++ [v]), r2)
          | _ => .error "Expecting delimiter after array element" := rfl

/-- `JSONObject` loop step on a key quote. -/
theorem jpairs_quote (f : Nat) (r : List Char) (acc : List (String × Json)) :
    jpairs (f + 1) ('"' :: r) acc
      = match scanStr r with
        | .error e => .error e
        | .ok (k, r1) =>
          match jdropWs r1 with
          | ':' :: r2 =>
              (match jscan f (jdropWs r2) with
              | .error e => .error e
              | .ok (v, r3) =>
                match jdropWs r3 with
                | ',' :: r4 =>
                    (match jdropWs r4 with
                    | '"' :: r5 => jpairs f ('"' :: r5) (Json.dictSet acc k v)
                    | _ => .error "Expecting property name enclosed in double quotes")
                | '}' :: r4 => .ok (.obj (Json.dictSet acc k v), r4)
                | _ => .error "Expecting delimiter after object member")
          | _ => .error "Expecting colon delimiter" := rfl

/-- Dropping whitespace at a non-whitespace head is the identity. -/
theorem jdropWs_not_ws {c : Char} (h : jsonWs c = false) (t : List Char) :
    jdropWs (c :: t) = c :: t := by
  simp [jdropWs, h]

/-- Dropping whitespace passes a single leading space. -/
theorem jdropWs_space (t : List Char) : jdropWs (' ' :: t) = jdropWs t := rfl

/-- Every encoded value starts with a character that is neither JSON
whitespace nor a closing bracket. -/
theorem encVal_shape (j : Json) :
    ∃ c t, encVal j = c :: t ∧ (c ≠ ']' ∧ c ≠ '}') ∧ jsonWs c = false := by
  cases j with
  | null => exact ⟨'n', _, rfl, by decide⟩
  | bool b =>
      cases b
      · exact ⟨'f', _, rfl, by decide⟩
      · exact ⟨'t', _, rfl, by decide⟩
  | num m e =>
      by_cases hm : m < 0
      · refine ⟨'-', '0' :: '.' :: (natDigits m.natAbs
          ++ 'e' :: intChars (e + ((natDigits m.natAbs).length : Int))), ?_, by decide⟩
        simp [encVal, numChars, if_pos hm]
      · refine ⟨'0', '.' :: (natDigits m.natAbs
          ++ 'e' :: intChars (e + ((natDigits m.natAbs).length : Int))), ?_, by decide⟩
        simp [encVal, numChars, if_neg hm]
  | nan => exact ⟨'N', _, rfl, by decide⟩
  | inf => exact ⟨'I', _, rfl, by decide⟩
  | ninf => exact ⟨'-', _, rfl, by decide⟩
  | str s => exact ⟨'"', _, rfl, by decide⟩
  | arr xs => exact ⟨'[', _, rfl, by decide⟩
  | obj ps => exact ⟨'{', _, rfl, by decide⟩

/-- Dropping whitespace in front of an encoded value is the identity. -/
theorem jdropWs_encVal (j : Json) (rest : List Char) :
    jdropWs (encVal j ++ rest) = encVal j ++ rest := by
  obtain ⟨c, t, hc, _, hws⟩ := encVal_shape j
  rw [hc, List.cons_append, jdropWs_not_ws hws]

/-- Keys absent from an association list, pointwise. -/
theorem keyAbsent_iff (k : String) :
    ∀ t : List (String × Json), Json.keyAbsent k t = true ↔ ∀ p ∈ t, p.1 ≠ k := by
  intro t
  induction t with
  | nil => simp [Json.keyAbsent]
  | cons hd t ih =>
      obtain ⟨k', v'⟩ := hd
      simp [Json.keyAbsent, Bool.and_eq_true, ih]

/-- Absence over an append. -/
theorem keyAbsent_append (k : String) :
    ∀ (a b : List (String × Json)),
      Json.keyAbsent k (a ++ b) = (Json.keyAbsent k a && Json.keyAbsent k b) := by
  intro a
  induction a with
  | nil => intro b; simp [Json.keyAbsent]
  | cons hd t ih =>
      intro b
      obtain ⟨k', v'⟩ := hd
      simp [Json.keyAbsent, ih, Bool.and_assoc]

/-- Python dict assignment of a fresh key appends the binding. -/
theorem dictSet_absent (k : String) (v : Json) :
    ∀ acc : List (String × Json), Json.keyAbsent k acc = true →
      Json.dictSet acc k v = acc ++ [(k, v)] := by
  intro acc
  induction acc with
  | nil => intro _; rfl
  | cons hd t ih =>
      intro habs
      obtain ⟨k', v'⟩ := hd
      simp only [Json.keyAbsent, Bool.and_eq_true, bne_iff_ne] at habs
      simp only [Json.dictSet, if_neg habs.1]
      rw [ih habs.2]
      rfl

/-- The object loop's `dictSet` fold appends fresh, pairwise-distinct
members. -/
theorem dictSetAll_append :
    ∀ (ps acc : List (String × Json)),
      (∀ p ∈ ps, Json.keyAbsent p.1 acc = true) →
      Json.pyWFPairs ps = true →
      dictSetAll acc ps = acc ++ ps := by
  intro ps
  induction ps with
  | nil => intro acc _ _; simp [dictSetAll]
  | cons hd t ih =>
      intro acc habs hwf
      obtain ⟨k, v⟩ := hd
      simp only [Json.pyWFPairs, Bool.and_eq_true] at hwf
      obtain ⟨⟨hkt, _⟩, hwt⟩ := hwf
      simp only [dictSetAll]
      rw [dictSet_absent k v acc (habs (k, v) (by simp))]
      rw [ih (acc ++ [(k, v)]) ?_ hwt]
      · simp
      · intro p hp
        rw [keyAbsent_append]
        simp only [Bool.and_eq_true]
        refine ⟨habs p (by simp [hp]), ?_⟩
        have : p.1 ≠ k := ((keyAbsent_iff k t).mp hkt) p hp
        simp [Json.keyAbsent, bne_iff_ne]
        exact fun h => absurd h.symm this

/-- On well-formed members the loop reproduces the member list. -/
theorem dictSetAll_nil (ps : List (String × Json)) (h : Json.pyWFPairs ps = true) :
    dictSetAll [] ps = ps := by
  rw [dictSetAll_append ps [] (fun p _ => rfl) h]
  rfl

/-- The items encoding of a nonempty list starts with its first value. -/
theorem encItems_cons_shape (x : Json) (xs : List Json) :
    ∃ T, encItems (x :: xs) = encVal x ++ T := by
  cases xs with
  | nil => exact ⟨[], by simp [encItems]⟩
  | cons y ys => exact ⟨_, rfl⟩

/-- Dropping whitespace in front of encoded items is the identity. -/
theorem jdropWs_encItems (x : Json) (xs : List Json) (rest : List Char) :
    jdropWs (encItems (x :: xs) ++ rest) = encItems (x :: xs) ++ rest := by
  obtain ⟨T, hT⟩ := encItems_cons_shape x xs
  rw [hT, List.append_assoc, jdropWs_encVal, ← List.append_assoc]

/-- The members encoding of a nonempty dict starts with its first quoted
key. -/
theorem encPairs_cons_shape (p : String × Json) (ps : List (String × Json)) :
    ∃ T, encPairs (p :: ps) = '"' :: (strBody p.1 ++ '"' :: T) := by
  obtain ⟨k, v⟩ := p
  cases ps with
  | nil =>
      exact ⟨':' :: ' ' :: encVal v, by
        simp [encPairs, strChars, List.append_assoc]⟩
  | cons q qs =>
      exact ⟨':' :: ' ' :: (encVal v ++ ',' :: ' ' :: encPairs (q :: qs)), by
        simp [encPairs, strChars, List.append_assoc]⟩

/-- The decoder inverts the encoder: one value, an array tail, an object
tail — simultaneous induction on fuel. -/
theorem jscan_rt :
    ∀ fuel : Nat,
      (∀ (j : Json) (rest : List Char), (encVal j).length ≤ fuel →
          Json.pyWF j = true → noDigitHead rest = true →
          jscan fuel (encVal j ++ rest) = .ok (j, rest))
      ∧ (∀ (xs : List Json) (acc : List Json) (rest : List Char), xs ≠ [] →
          (encItems xs).length + 1 ≤ fuel → Json.pyWFItems xs = true →
          jitems fuel (encItems xs ++ ']' :: rest) acc = .ok (.arr (acc ++ xs), rest))
      ∧ (∀ (ps : List (String × Json)) (acc : List (String × Json)) (rest : List Char),
          ps ≠ [] → (encPairs ps).length + 1 ≤ fuel → Json.pyWFPairs ps = true →
          jpairs fuel (encPairs ps ++ '}' :: rest) acc
            = .ok (.obj (dictSetAll acc ps), rest)) := by
  intro fuel
  induction fuel with
  | zero =>
      refine ⟨?_, ?_, ?_⟩
      · intro j rest hlen _ _
        obtain ⟨c, t, hc, -, -⟩ := encVal_shape j
        rw [hc] at hlen
        simp at hlen
      · intro xs acc rest _ hlen _
        omega
      · intro ps acc rest _ hlen _
        omega
  | succ f ih =>
      obtain ⟨ihv, ihi, ihp⟩ := ih
      refine ⟨?_, ?_, ?_⟩
      · intro j rest hlen hwf hnd
        cases j with
        | null => rfl
        | bool b => cases b <;> rfl
        | nan => rfl
        | inf => rfl
        | ninf => rfl
        | num m e =>
            have hsn := scanNumber_numChars m e rest hnd
            rw [show encVal (Json.num m e) = numChars m e from rfl]
            by_cases hm : m < 0
            · rw [show numChars m e ++ rest
                  = '-' :: '0' :: '.' :: (natDigits m.natAbs
                      ++ 'e' :: intChars (e + ((natDigits m.natAbs).length : Int)) ++ rest)
                  from by simp [numChars, if_pos hm, List.append_assoc]] at hsn ⊢
              rw [jscan_num_neg, hsn]
            · rw [show numChars m e ++ rest
                  = '0' :: '.' :: (natDigits m.natAbs
                      ++ 'e' :: intChars (e + ((natDigits m.natAbs).length : Int)) ++ rest)
                  from by simp [numChars, if_neg hm, List.append_assoc]] at hsn ⊢
              rw [jscan_num_pos, hsn]
        | str s =>
            rw [show encVal (Json.str s) ++ rest = '"' :: (strBody s ++ '"' :: rest) from by
              simp [encVal, strChars, List.append_assoc]]
            rw [jscan_str, scanStr_rt]
        | arr xs =>
            cases xs with
            | nil =>
                rw [show encVal (Json.arr []) ++ rest = '[' :: (']' :: rest) from by
                  simp [encVal, encItems]]
                rw [jscan_arr, jdropWs_not_ws (by decide)]
                rfl
            | cons x xs =>
                rw [show encVal (Json.arr (x :: xs)) ++ rest
                    = '[' :: (encItems (x :: xs) ++ ']' :: rest) from by
                  simp [encVal, List.append_assoc]]
                rw [jscan_arr]
                obtain ⟨T, hT⟩ := encItems_cons_shape x xs
                obtain ⟨c, t, hc, ⟨hrb, hcb⟩, hws⟩ := encVal_shape x
                rw [hT, hc]
                simp only [List.cons_append, List.append_assoc]
                rw [jdropWs_not_ws hws]
                split
                · next r2 heq => exact absurd (List.head_eq_of_cons_eq heq) hrb
                · rw [show (c : Char) :: (t ++ (T ++ ']' :: rest))
                      = encItems (x :: xs) ++ ']' :: rest from by
                    rw [hT, hc]
                    simp [List.append_assoc]]
                  rw [ihi (x :: xs) [] rest (by simp) ?_ ?_]
                  · simp
                  · have : (encVal (Json.arr (x :: xs))).length
                        = (encItems (x :: xs)).length + 2 := by
                      simp [encVal]
                    omega
                  · exact hwf
        | obj ps =>
            cases ps with
            | nil =>
                rw [show encVal (Json.obj []) ++ rest = '\x7b' :: ('\x7d' :: rest) from by
                  simp [encVal, encPairs]]
                rw [jscan_obj, jdropWs_not_ws (by decide)]
                rfl
            | cons p ps =>
                rw [show encVal (Json.obj (p :: ps)) ++ rest
                    = '\x7b' :: (encPairs (p :: ps) ++ '\x7d' :: rest) from by
                  simp [encVal, List.append_assoc]]
                rw [jscan_obj]
                obtain ⟨T, hT⟩ := encPairs_cons_shape p ps
                rw [hT]
                simp only [List.cons_append, List.append_assoc]
                rw [jdropWs_not_ws (by decide)]
                split
                · next r2 heq => exact absurd (List.head_eq_of_cons_eq heq) (by decide)
                · rw [show ('"' : Char) :: (strBody p.1 ++ ('"' :: (T ++ '\x7d' :: rest)))
                      = encPairs (p :: ps) ++ '\x7d' :: rest from by
                    rw [hT]
                    simp [List.append_assoc]]
                  rw [ihp (p :: ps) [] rest (by simp) ?_ ?_]
                  · rw [dictSetAll_nil (p :: ps) hwf]
                  · have : (encVal (Json.obj (p :: ps))).length
                        = (encPairs (p :: ps)).length + 2 := by
                      simp [encVal]
                    omega
                  · exact hwf
      · intro xs acc rest hne hlen hwf
        cases xs with
        | nil => exact absurd rfl hne
        | cons x xs =>
            have hwf2 : Json.pyWF x = true ∧ Json.pyWFItems xs = true := by
              have heq2 : Json.pyWFItems (x :: xs) = (Json.pyWF x && Json.pyWFItems xs) := rfl
              rw [heq2, Bool.and_eq_true] at hwf
              exact hwf
            obtain ⟨hwx, hwxs⟩ := hwf2
            cases xs with
            | nil =>
                rw [show encItems [x] ++ ']' :: rest = encVal x ++ ']' :: rest from by
                  simp [encItems]]
                rw [jitems_succ]
                have hx := ihv x (']' :: rest) (by
                  have heq3 : encItems [x] = encVal x := by simp [encItems]
                  rw [heq3] at hlen
                  omega) hwx (by rfl)
                rw [hx]
                dsimp only
                rw [jdropWs_not_ws (by decide)]
                rfl
            | cons y ys =>
                rw [show encItems (x :: y :: ys) ++ ']' :: rest
                    = encVal x ++ (',' :: ' ' :: (encItems (y :: ys) ++ ']' :: rest)) from by
                  simp [encItems, List.append_assoc]]
                have hlens : (encVal x).length ≤ f ∧ (encItems (y :: ys)).length + 1 ≤ f := by
                  have heq4 : (encItems (x :: y :: ys)).length
                      = (encVal x).length + 2 + (encItems (y :: ys)).length := by
                    simp [encItems]
                    omega
                  omega
                rw [jitems_succ]
                have hx := ihv x (',' :: ' ' :: (encItems (y :: ys) ++ ']' :: rest))
                  hlens.1 hwx (by rfl)
                rw [hx]
                dsimp only
                rw [jdropWs_not_ws (by decide)]
                rw [show (match (',' :: ' ' :: (encItems (y :: ys) ++ ']' :: rest) : List Char) with
                    | ',' :: r2 => jitems f (jdropWs r2) (acc ++ [x])
                    | ']' :: r2 => Except.ok (Json.arr (acc ++ [x]), r2)
                    | _ => Except.error "Expecting delimiter after array element")
                  = jitems f (jdropWs (' ' :: (encItems (y :: ys) ++ ']' :: rest))) (acc ++ [x])
                  from rfl]
                rw [jdropWs_space, jdropWs_encItems]
                rw [ihi (y :: ys) (acc ++ [x]) rest (by simp) hlens.2 hwxs]
                simp
      · intro ps acc rest hne hlen hwf
        cases ps with
        | nil => exact absurd rfl hne
        | cons p ps =>
            obtain ⟨k, v⟩ := p
            have hwf3 : Json.keyAbsent k ps = true ∧ Json.pyWF v = true
                ∧ Json.pyWFPairs ps = true := by
              have heq5 : Json.pyWFPairs ((k, v) :: ps)
                  = (Json.keyAbsent k ps && Json.pyWF v && Json.pyWFPairs ps) := rfl
              rw [heq5, Bool.and_eq_true, Bool.and_eq_true] at hwf
              exact ⟨hwf.1.1, hwf.1.2, hwf.2⟩
            obtain ⟨hka, hwv, hwps⟩ := hwf3
            cases ps with
            | nil =>
                have hlv : (encVal v).length ≤ f := by
                  have heq6 : (encPairs [(k, v)]).length
                      = (strBody k).length + 4 + (encVal v).length := by
                    simp [encPairs, strChars]
                    omega
                  omega
                rw [show encPairs [(k, v)] ++ '\x7d' :: rest
                    = '"' :: (strBody k ++ '"' :: (':' :: ' ' :: (encVal v ++ '\x7d' :: rest)))
                    from by simp [encPairs, strChars, List.append_assoc]]
                rw [jpairs_quote, scanStr_rt]
                try dsimp only
                rw [jdropWs_not_ws (by decide)]
                try dsimp only
                split
                · next r2 heq =>
                    injection heq with h1 h2
                    subst h2
                    rw [jdropWs_space, jdropWs_encVal]
                    rw [ihv v ('\x7d' :: rest) hlv hwv (by rfl)]
                    rfl
                · next x href => exact (href _ rfl).elim
            | cons q qs =>
                have hlv : (encVal v).length ≤ f
                    ∧ (encPairs (q :: qs)).length + 1 ≤ f := by
                  have heq7 : (encPairs ((k, v) :: q :: qs)).length
                      = (strBody k).length + 6 + (encVal v).length
                        + (encPairs (q :: qs)).length := by
                    simp [encPairs, strChars]
                    omega
                  omega
                rw [show encPairs ((k, v) :: q :: qs) ++ '\x7d' :: rest
                    = '"' :: (strBody k ++ '"' :: (':' :: ' ' :: (encVal v
                        ++ ',' :: ' ' :: (encPairs (q :: qs) ++ '\x7d' :: rest))))
                    from by simp [encPairs, strChars, List.append_assoc]]
                rw [jpairs_quote, scanStr_rt]
                try dsimp only
                rw [jdropWs_not_ws (by decide)]
                try dsimp only
                split
                · next r2 heq =>
                    injection heq with h1 h2
                    subst h2
                    rw [jdropWs_space, jdropWs_encVal]
                    rw [ihv v (',' :: ' ' :: (encPairs (q :: qs) ++ '\x7d' :: rest))
                      hlv.1 hwv (by rfl)]
                    try dsimp only
                    rw [jdropWs_not_ws (by decide)]
                    try dsimp only
                    split
                    · next r4 heq2 =>
                        injection heq2 with h3 h4
                        subst h4
                        rw [jdropWs_space]
                        obtain ⟨T, hT⟩ := encPairs_cons_shape q qs
                        rw [hT]
                        simp only [List.cons_append]
                        rw [jdropWs_not_ws (by decide)]
                        try dsimp only
                        split
                        · next r5 heq3 =>
                            injection heq3 with h5 h6
                            subst h6
                            simp only [List.append_assoc, List.cons_append]
                            rw [show ('"' : Char) :: (strBody q.1 ++ '"' :: (T ++ '\x7d' :: rest))
                                = encPairs (q :: qs) ++ '\x7d' :: rest from by
                              rw [hT]
                              simp [List.append_assoc]]
                            rw [ihp (q :: qs) (Json.dictSet acc k v) rest (by simp)
                              hlv.2 hwps]
                            rfl
                        · next x href => exact (href _ rfl).elim
                    · next r4 heq2 =>
                        exact absurd (List.head_eq_of_cons_eq heq2) (by decide)
                    · next x href1 href2 => exact (href1 _ rfl).elim
                · next x href => exact (href _ rfl).elim

/-- `json.loads` inverts `json.dumps` on every well-formed value. -/
theorem json_loads_dumps (j : Json) (h : Json.pyWF j = true) :
    json_loads (json_dumps j) = .ok j := by
  unfold json_loads json_dumps
  have hdata : (String.mk (encVal j)).data = encVal j := rfl
  rw [hdata]
  have hdrop : jdropWs (encVal j) = encVal j := by
    have := jdropWs_encVal j []
    simpa using this
  rw [hdrop]
  have hscan := (jscan_rt ((encVal j).length + 1)).1 j [] (by omega) h (by rfl)
  rw [List.append_nil] at hscan
  show (match jscan ((encVal j).length + 1) (encVal j) with
    | Except.error e => Except.error e
    | Except.ok (j, r) =>
        if (jdropWs r).isEmpty = true then Except.ok j else Except.error "Extra data")
    = Except.ok j
  rw [hscan]
  rfl

/-- The record `_save_cached_extract` serializes is well-formed when the
vote and spending lists are. -/
theorem cacheRecord_pyWF (filename notes : String) (votes spending : List Json)
    (now : String) (hv : Json.pyWFItems votes = true)
    (hs : Json.pyWFItems spending = true) :
    Json.pyWF (cacheRecord filename notes votes spending now) = true := by
  simp [cacheRecord, Json.pyWF, Json.pyWFPairs, Json.keyAbsent, hv, hs]

/-- C5: saving an Extraction Record and loading it back for the same
document identifier returns the parsed dict, whose `notes`, vote list and
spending list are exactly what was saved. -/
theorem C5_cache_save_load_roundtrip (store : FileStore) (filename notes : String)
    (votes spending : List Json) (now : String)
    (hv : Json.pyWFItems votes = true) (hs : Json.pyWFItems spending = true) :
    load_cached_extract
        (save_cached_extract store filename notes votes spending now) filename
      = .loaded (cacheRecord filename notes votes spending now)
    ∧ (cacheRecord filename notes votes spending now).pyIndex "notes"
        = .ok (.str notes)
    ∧ (cacheRecord filename notes votes spending now).pyIndex "votes"
        = .ok (.arr votes)
    ∧ (cacheRecord filename notes votes spending now).pyIndex "spending"
        = .ok (.arr spending) := by
  refine ⟨?_, rfl, rfl, rfl⟩
  unfold load_cached_extract save_cached_extract storeWrite
  rw [show storeRead
      ((cache_key filename,
        PyFile.text (json_dumps (cacheRecord filename notes votes spending now))) :: store)
      (cache_key filename)
      = some (.text (json_dumps (cacheRecord filename notes votes spending now)))
    from by simp [storeRead]]
  dsimp only
  rw [json_loads_dumps _ (cacheRecord_pyWF filename notes votes spending now hv hs)]

/-- C5 witness: a concrete record with one vote and one spending entry
round-trips through the cache file. -/
theorem C5_cache_save_load_roundtrip_witness :
    load_cached_extract
        (save_cached_extract [] "m.txt" "n" [.obj [("motion", .str "A")]]
          [.obj [("vendor", .str "V")]] "t") "m.txt"
      = .loaded (cacheRecord "m.txt" "n" [.obj [("motion", .str "A")]]
          [.obj [("vendor", .str "V")]] "t")
    ∧ (cacheRecord "m.txt" "n" [.obj [("motion", .str "A")]]
          [.obj [("vendor", .str "V")]] "t").pyIndex "notes" = .ok (.str "n")
    ∧ (cacheRecord "m.txt" "n" [.obj [("motion", .str "A")]]
          [.obj [("vendor", .str "V")]] "t").pyIndex "votes"
        = .ok (.arr [.obj [("motion", .str "A")]])
    ∧ (cacheRecord "m.txt" "n" [.obj [("motion", .str "A")]]
          [.obj [("vendor", .str "V")]] "t").pyIndex "spending"
        = .ok (.arr [.obj [("vendor", .str "V")]]) :=
  C5_cache_save_load_roundtrip [] "m.txt" "n" [.obj [("motion", .str "A")]]
    [.obj [("vendor", .str "V")]] "t" (by rfl) (by rfl)

/-! ## C7 — `--retry-failed` replays the cache -/

/-- Phase 1 is one loop over the combined document list. -/
theorem phase1_combined (rf : Bool) (gw : Nat → LLMReply) (now : String)
    (transcripts minutes : List Doc) (store : FileStore) :
    phase1 rf gw now transcripts minutes store
      = phase1Docs rf gw now (transcripts ++ minutesToProcess transcripts minutes)
          (initState store) := by
  unfold phase1 phase1Docs
  rw [List.foldlM_append]

/-- `docsOK` gives `docOK` at every position. -/
theorem docsOK_get (gw : Nat → LLMReply) :
    ∀ (docs : List Doc) (i k : Nat) (d : Doc), docsOK gw i docs = true →
      docs[k]? = some d → docOK gw (i + k) d = true := by
  intro docs
  induction docs with
  | nil => intro i k d _ hk; simp at hk
  | cons d0 ds ih =>
      intro i k d hok hk
      have hok2 : docOK gw i d0 = true ∧ docsOK gw (i + 1) ds = true := by
        have heq : docsOK gw i (d0 :: ds) = (docOK gw i d0 && docsOK gw (i + 1) ds) := rfl
        rw [heq, Bool.and_eq_true] at hok
        exact hok
      cases k with
      | zero =>
          simp at hk
          subst hk
          simpa using hok2.1
      | succ k =>
          have : ds[k]? = some d := by simpa using hk
          have := ih (i + 1) k d hok2.2 this
          rwa [show i + 1 + k = i + (k + 1) from by omega] at this

/-- What one `docOK` invocation pins down. -/
theorem docOK_spec (gw : Nat → LLMReply) (i : Nat) (d : Doc)
    (h : docOK gw i d = true) :
    gw i = .ok (docNotes gw i)
    ∧ parse_votes (docNotes gw i) d.filename = .ok (docVotes gw i d)
    ∧ parse_spending (docNotes gw i) d.filename = .ok (docSpend gw i d)
    ∧ Json.pyWFItems (docVotes gw i d) = true
    ∧ Json.pyWFItems (docSpend gw i d) = true := by
  unfold docOK at h
  cases hgw : gw i with
  | exc e =>
      rw [hgw] at h
      dsimp only at h
      exact absurd h (by simp)
  | ok notes =>
      rw [hgw] at h
      dsimp only at h
      have hnotes : docNotes gw i = notes := by
        unfold docNotes
        rw [hgw]
      cases hpv : parse_votes notes d.filename with
      | error e2 =>
          rw [hpv] at h
          dsimp only at h
          exact absurd h (by simp)
      | ok v =>
          cases hps : parse_spending notes d.filename with
          | error e3 =>
              rw [hpv, hps] at h
              dsimp only at h
              exact absurd h (by simp)
          | ok s =>
              rw [hpv, hps] at h
              dsimp only at h
              simp only [Bool.and_eq_true] at h
              have hdv : docVotes gw i d = v := by
                unfold docVotes
                rw [hnotes, hpv]
              have hds : docSpend gw i d = s := by
                unfold docSpend
                rw [hnotes, hps]
              rw [hnotes, hdv, hds]
              exact ⟨rfl, hpv, hps, h.1, h.2⟩

/-- The non-cached loop body under a successful invocation. -/
theorem processDoc_call (gw : Nat → LLMReply) (now : String) (st : Phase1State)
    (d : Doc) (hok : docOK gw st.gatewayCalls d = true) :
    processDoc false gw now st d = .ok
      { all_votes := st.all_votes ++ docVotes gw st.gatewayCalls d,
        all_spending := st.all_spending ++ docSpend gw st.gatewayCalls d,
        meeting_extracts := st.meeting_extracts
          ++ [(.str d.filename, .str (docNotes gw st.gatewayCalls))],
        store := storeWrite st.store (cache_key d.filename)
          (.text (json_dumps (docRecord gw now st.gatewayCalls d))),
        gatewayCalls := st.gatewayCalls + 1 } := by
  obtain ⟨hgw, hpv, hps, _, _⟩ := docOK_spec gw st.gatewayCalls d hok
  unfold processDoc processDocCall
  simp only [Bool.false_eq_true, if_false]
  rw [hgw]
  dsimp only
  rw [hpv]
  simp only [exBind_ok]
  rw [hps]
  simp only [exBind_ok]
  rfl

/-- The cached loop body under a cache hit. -/
theorem processDoc_cached (gw : Nat → LLMReply) (now : String) (st : Phase1State)
    (d : Doc) (j : Nat)
    (hload : load_cached_extract st.store d.filename
      = .loaded (docRecord gw now j d)) :
    processDoc true gw now st d = .ok
      { st with
        all_votes := st.all_votes ++ docVotes gw j d,
        all_spending := st.all_spending ++ docSpend gw j d,
        meeting_extracts := st.meeting_extracts
          ++ [(.str d.filename, .str (docNotes gw j))] } := by
  unfold processDoc
  rw [if_pos rfl]
  rw [hload]
  rfl

/-- Run 1 (`--retry-failed` unset) over a document list: per successful
document, votes and spending are appended and one cache entry is written. -/
theorem run1_char (gw : Nat → LLMReply) (now : String) :
    ∀ (docs : List Doc) (st0 : Phase1State),
      docsOK gw st0.gatewayCalls docs = true →
      ∃ st1, phase1Docs false gw now docs st0 = .ok st1
        ∧ st1.gatewayCalls = st0.gatewayCalls + docs.length
        ∧ st1.all_votes = st0.all_votes ++ run1Votes gw st0.gatewayCalls docs
        ∧ st1.all_spending = st0.all_spending ++ run1Spend gw st0.gatewayCalls docs
        ∧ st1.store = run1Writes gw now st0.gatewayCalls docs ++ st0.store := by
  intro docs
  induction docs with
  | nil =>
      intro st0 _
      exact ⟨st0, rfl, by simp, by simp [run1Votes], by simp [run1Spend],
        by simp [run1Writes]⟩
  | cons d ds ih =>
      intro st0 hok
      have hok2 : docOK gw st0.gatewayCalls d = true
          ∧ docsOK gw (st0.gatewayCalls + 1) ds = true := by
        have heq : docsOK gw st0.gatewayCalls (d :: ds)
            = (docOK gw st0.gatewayCalls d && docsOK gw (st0.gatewayCalls + 1) ds) := rfl
        rw [heq, Bool.and_eq_true] at hok
        exact hok
      obtain ⟨st1, h1, hgc, hv, hs, hst⟩ := ih
        { all_votes := st0.all_votes ++ docVotes gw st0.gatewayCalls d,
          all_spending := st0.all_spending ++ docSpend gw st0.gatewayCalls d,
          meeting_extracts := st0.meeting_extracts
            ++ [(.str d.filename, .str (docNotes gw st0.gatewayCalls))],
          store := storeWrite st0.store (cache_key d.filename)
            (.text (json_dumps (docRecord gw now st0.gatewayCalls d))),
          gatewayCalls := st0.gatewayCalls + 1 }
        hok2.2
      refine ⟨st1, ?_, ?_, ?_, ?_, ?_⟩
      · rw [show phase1Docs false gw now (d :: ds) st0
            = (processDoc false gw now st0 d) >>= phase1Docs false gw now ds from rfl]
        rw [processDoc_call gw now st0 d hok2.1]
        simpa using h1
      · rw [hgc]
        simp
        omega
      · rw [hv]
        simp [run1Votes, List.append_assoc]
      · rw [hs]
        simp [run1Spend, List.append_assoc]
      · rw [hst]
        simp [run1Writes, storeWrite, List.append_assoc]

/-- Every key run 1 writes is some processed document's cache key. -/
theorem run1Writes_keys (gw : Nat → LLMReply) (now : String) :
    ∀ (docs : List Doc) (i : Nat) (p : String × PyFile),
      p ∈ run1Writes gw now i docs → ∃ d ∈ docs, p.1 = cache_key d.filename := by
  intro docs
  induction docs with
  | nil => intro i p hp; simp [run1Writes] at hp
  | cons d ds ih =>
      intro i p hp
      simp only [run1Writes, List.mem_append, List.mem_singleton] at hp
      rcases hp with hp | hp
      · obtain ⟨d', hd', hk⟩ := ih (i + 1) p hp
        exact ⟨d', by simp [hd'], hk⟩
      · exact ⟨d, by simp, by rw [hp]⟩

/-- Reading past writes whose keys all differ. -/
theorem storeRead_skip :
    ∀ (ws s0 : FileStore) (key : String),
      (∀ p ∈ ws, p.1 ≠ key) → storeRead (ws ++ s0) key = storeRead s0 key := by
  intro ws
  induction ws with
  | nil => intro s0 key _; rfl
  | cons w ws ih =>
      intro s0 key hne
      obtain ⟨p, f⟩ := w
      have hp : p ≠ key := hne (p, f) (by simp)
      simp only [List.cons_append, storeRead, if_neg hp]
      exact ih s0 key (fun q hq => hne q (by simp [hq]))

/-- In run 1's final store, each document's key maps to the record written
for it, provided the processed documents' keys are pairwise distinct. -/
theorem storeRead_run1Writes (gw : Nat → LLMReply) (now : String) :
    ∀ (docs : List Doc) (i k : Nat) (d : Doc) (s0 : FileStore),
      docs[k]? = some d →
      List.Pairwise (fun a b : Doc => cache_key a.filename ≠ cache_key b.filename) docs →
      storeRead (run1Writes gw now i docs ++ s0) (cache_key d.filename)
        = some (.text (json_dumps (docRecord gw now (i + k) d))) := by
  intro docs
  induction docs with
  | nil => intro i k d s0 hk _; simp at hk
  | cons d0 ds ih =>
      intro i k d s0 hk hpw
      obtain ⟨hd0, hpw'⟩ := List.pairwise_cons.mp hpw
      cases k with
      | zero =>
          simp only [List.getElem?_cons_zero, Option.some.injEq] at hk
          subst hk
          simp only [run1Writes, List.append_assoc]
          rw [storeRead_skip]
          · simp only [List.singleton_append, storeRead, if_pos rfl]
            simp
          · intro p hp
            obtain ⟨d', hd', hkey⟩ := run1Writes_keys gw now ds (i + 1) p hp
            rw [hkey]
            exact (hd0 d' hd').symm
      | succ k =>
          have hk' : ds[k]? = some d := by simpa using hk
          simp only [run1Writes, List.append_assoc]
          rw [show ((cache_key d0.filename,
              PyFile.text (json_dumps (docRecord gw now i d0))) :: []) ++ s0
              = (cache_key d0.filename,
                PyFile.text (json_dumps (docRecord gw now i d0))) :: s0 from rfl]
          rw [ih (i + 1) k d
            ((cache_key d0.filename,
              PyFile.text (json_dumps (docRecord gw now i d0))) :: s0) hk' hpw']
          rw [show i + 1 + k = i + (k + 1) from by omega]

/-- Run 2 (`--retry-failed` set) over documents whose cache entries all
hit: no gateway call, no store change, and the same appends as run 1. -/
theorem run2_go (gw : Nat → LLMReply) (now : String) :
    ∀ (docs : List Doc) (i : Nat) (st : Phase1State),
      (∀ (k : Nat) (d : Doc), docs[k]? = some d →
        load_cached_extract st.store d.filename
          = .loaded (docRecord gw now (i + k) d)) →
      ∃ st2, phase1Docs true gw now docs st = .ok st2
        ∧ st2.gatewayCalls = st.gatewayCalls
        ∧ st2.store = st.store
        ∧ st2.all_votes = st.all_votes ++ run1Votes gw i docs
        ∧ st2.all_spending = st.all_spending ++ run1Spend gw i docs := by
  intro docs
  induction docs with
  | nil =>
      intro i st _
      exact ⟨st, rfl, rfl, rfl, by simp [run1Votes], by simp [run1Spend]⟩
  | cons d ds ih =>
      intro i st hload
      have hd := hload 0 d (by simp)
      rw [show i + 0 = i from by omega] at hd
      obtain ⟨st2, h2, hgc, hst, hv, hs⟩ := ih (i + 1)
        { st with
          all_votes := st.all_votes ++ docVotes gw i d,
          all_spending := st.all_spending ++ docSpend gw i d,
          meeting_extracts := st.meeting_extracts
            ++ [(.str d.filename, .str (docNotes gw i))] }
        (by
          intro k d' hk
          have := hload (k + 1) d' (by simpa using hk)
          rwa [show i + (k + 1) = i + 1 + k from by omega] at this)
      refine ⟨st2, ?_, by rw [hgc], by rw [hst], ?_, ?_⟩
      · rw [show phase1Docs true gw now (d :: ds) st
            = (processDoc true gw now st d) >>= phase1Docs true gw now ds from rfl]
        rw [processDoc_cached gw now st d i hd]
        simpa using h2
      · rw [hv]
        simp [run1Votes, List.append_assoc]
      · rw [hs]
        simp [run1Spend, List.append_assoc]

/-- C7: when every gateway invocation of the original run succeeds with
parseable logs — so every processed document has a cached extraction
record — re-running Phase 1 with `--retry-failed` over the run's cache
makes zero gateway calls, leaves the cache unchanged, and accumulates
identical vote and spending sets.  The pairwise-distinct cache-key
hypothesis is the spec's standing assumption that source identifiers
remain distinguishable after the `replace("/", "_").rsplit(".", 1)[0]`
transform (collisions are declared out of scope). -/
theorem C7_retry_failed_uses_cache (gw : Nat → LLMReply) (now : String)
    (transcripts minutes : List Doc) (store0 : FileStore)
    (hok : docsOK gw 0 (transcripts ++ minutesToProcess transcripts minutes) = true)
    (hdk : List.Pairwise (fun a b : Doc => cache_key a.filename ≠ cache_key b.filename)
      (transcripts ++ minutesToProcess transcripts minutes)) :
    ∃ st1 st2, phase1 false gw now transcripts minutes store0 = .ok st1
      ∧ phase1 true gw now transcripts minutes st1.store = .ok st2
      ∧ st2.gatewayCalls = 0
      ∧ st2.store = st1.store
      ∧ st2.all_votes = st1.all_votes
      ∧ st2.all_spending = st1.all_spending := by
  obtain ⟨st1, h1, hgc1, hv1, hs1, hst1⟩ :=
    run1_char gw now (transcripts ++ minutesToProcess transcripts minutes)
      (initState store0) hok
  have hload : ∀ (k : Nat) (d : Doc),
      (transcripts ++ minutesToProcess transcripts minutes)[k]? = some d →
      load_cached_extract (initState st1.store).store d.filename
        = .loaded (docRecord gw now (0 + k) d) := by
    intro k d hk
    have hdoc := docsOK_get gw _ 0 k d hok hk
    obtain ⟨_, _, _, hwv, hws⟩ := docOK_spec gw (0 + k) d hdoc
    unfold load_cached_extract
    rw [show (initState st1.store).store = st1.store from rfl, hst1]
    rw [show (initState store0).store = store0 from rfl]
    rw [show (initState store0).gatewayCalls = 0 from rfl]
    rw [storeRead_run1Writes gw now _ 0 k d store0 hk hdk]
    dsimp only
    rw [json_loads_dumps _ (by
      unfold docRecord
      exact cacheRecord_pyWF _ _ _ _ _ hwv hws)]
  obtain ⟨st2, h2, hgc2, hst2, hv2, hs2⟩ :=
    run2_go gw now (transcripts ++ minutesToProcess transcripts minutes) 0
      (initState st1.store) hload
  refine ⟨st1, st2, ?_, ?_, ?_, ?_, ?_, ?_⟩
  · rw [phase1_combined]
    exact h1
  · rw [phase1_combined]
    exact h2
  · rw [hgc2]
    rfl
  · rw [hst2]
    rfl
  · rw [hv2, hv1]
    rfl
  · rw [hs2, hs1]
    rfl

/-- C7 witness: one transcript, a gateway that answers with log-free
notes, an empty starting cache. -/
theorem C7_retry_failed_uses_cache_witness :
    ∃ st1 st2, phase1 false constGw "t" [⟨"a.txt", "x"⟩] [] [] = .ok st1
      ∧ phase1 true constGw "t" [⟨"a.txt", "x"⟩] [] st1.store = .ok st2
      ∧ st2.gatewayCalls = 0
      ∧ st2.store = st1.store
      ∧ st2.all_votes = st1.all_votes
      ∧ st2.all_spending = st1.all_spending :=
  C7_retry_failed_uses_cache constGw "t" [⟨"a.txt", "x"⟩] [] [] (by rfl)
    (by simp [minutesToProcess])

